import Mathlib

/-!
WinDirStat: configuration boundary, document layer and treemap layout

A shallow embedding of the parts of `options.cpp`, `dirstatdoc.cpp`,
`Controls/typeview.cpp`, `Controls/pacman.cpp` and `w32resembed.c` that the
specification talks about, and of the treemap layout and hit test as the
specification describes them, followed by the theorems about them.

Conventions of the embedding:

* `int` values are `Int`; `COLORREF` (a 32-bit unsigned value) is a `Nat`
  with the conversions `toInt32` / `toUInt32` written out where the source
  converts between `COLORREF` and `int`. The sides of a `CRect` are `LONG`
  values; `CRect::DeflateRect` reduces its sums to 32 bits (`toLONG`).
* The `double` fractions of the treemap options are held as the rationals they
  denote; each operation on them rounds to the nearest double (`toDouble`).
* The MFC profile store reached through `AfxGetApp()` is a function from
  section and entry names to the stored integer, if any.
* Member functions that mutate `m_treemapOptions` take the old value and
  return the new one.
* A `CString` is the list of its characters; a `CItem *` is a number, with
  the accessors of `CItem` as arguments.
-/

namespace WinDirStat

/-! ## options.cpp: CRegistryUser -/

/-- The profile store behind `AfxGetApp()->GetProfileInt / WriteProfileInt`:
the integer stored under a section and an entry, if there is one. -/
abbrev ProfileStore := String → String → Option Int

/-- `CRegistryUser::getProfileInt`: the stored value, or the default when the
entry is absent. -/
def getProfileInt (store : ProfileStore) (sect entry : String) (defaultValue : Int) : Int :=
  match store sect entry with
  | some v => v
  | none => defaultValue

/-- `CRegistryUser::setProfileInt`: writes one entry, leaves the others. -/
def setProfileInt (store : ProfileStore) (sect entry : String) (value : Int) : ProfileStore :=
  fun s e => if s = sect ∧ e = entry then some value else store s e

/-- The conversion `(int)value` of a `bool`. -/
def boolToInt (b : Bool) : Int := if b then 1 else 0

/-- `CRegistryUser::setProfileBool`. -/
def setProfileBool (store : ProfileStore) (sect entry : String) (value : Bool) : ProfileStore :=
  setProfileInt store sect entry (boolToInt value)

/-- `CRegistryUser::getProfileBool`. -/
def getProfileBool (store : ProfileStore) (sect entry : String) (defaultValue : Bool) : Bool :=
  getProfileInt store sect entry (boolToInt defaultValue) != 0

/-- `CRegistryUser::checkRange`, returning the new content of `value`. -/
def checkRange (value min max : Int) : Int :=
  let value := if value < min then min else value
  if value > max then max else value

/-! ## options.cpp: names of the treemap entries -/

def sectionOptions : String := "options"
def entryTreemapStyle : String := "treemapStyle"
def entryTreemapGrid : String := "treemapGrid"
def entryTreemapGridColor : String := "treemapGridColor"
def entryBrightness : String := "brightness"
def entryHeightFactor : String := "heightFactor"
def entryScaleFactor : String := "scaleFactor"
def entryAmbientLight : String := "ambientLight"
def entryLightSourceX : String := "lightSourceX"
def entryLightSourceY : String := "lightSourceY"

/-! ## CTreemap::Options -/

/-- Conversion of a `COLORREF` to `int` (two's complement, 32 bits). -/
def toInt32 (n : Nat) : Int :=
  if n % 2 ^ 32 < 2 ^ 31 then ((n % 2 ^ 32 : Nat) : Int) else ((n % 2 ^ 32 : Nat) : Int) - 2 ^ 32

/-- Conversion of an `int` to `COLORREF` (reduction modulo `2 ^ 32`). -/
def toUInt32 (i : Int) : Nat := (i % 2 ^ 32).toNat

/-! ### The `double` values of the options

The numeric knobs are `double` values. A `double` is held as the rational
number it denotes, and every operation on doubles yields the exact result
rounded to the nearest double (`toDouble`). -/

/-- Modelled from the spec: the power of two `2 ^ e` for an integer exponent,
as a rational; the weight of a binary digit of the "internal float" (section
8). The floating-point arithmetic is not among the sources. -/
def pow2 (e : Int) : ℚ :=
  if 0 ≤ e then ((2 ^ e.toNat : Nat) : ℚ) else 1 / ((2 ^ (-e).toNat : Nat) : ℚ)

/-- Modelled from the spec: the number of halvings that bring `n` below 2, with
at most `fuel` of them; a helper of the "internal float" of section 8. -/
def log2Fuel : Nat → Nat → Nat
  | 0, _ => 0
  | fuel + 1, n => if n < 2 then 0 else log2Fuel fuel (n / 2) + 1

/-- Modelled from the spec: the position of the leading binary digit of `n`;
`n` halvings always suffice. A helper of the "internal float" of section 8. -/
def log2 (n : Nat) : Nat := log2Fuel n n

/-- Modelled from the spec: the binary exponent of a rational `q ≠ 0`, the
integer `e` with `2 ^ e ≤ |q| < 2 ^ (e + 1)`: the difference of the positions
of the leading digits of numerator and denominator, or one less. A helper of
the "internal float" of section 8. -/
def floorLog2 (q : ℚ) : Int :=
  let e0 : Int := (log2 q.num.natAbs : Int) - (log2 q.den : Int)
  if pow2 e0 ≤ |q| then e0 else e0 - 1

/-- Modelled from the spec: the nearest integer, a tie going to the even one;
the rounding of the "internal float" of section 8. -/
def roundHalfEven (x : ℚ) : Int :=
  if x - (⌊x⌋ : ℚ) < 1 / 2 then ⌊x⌋
  else if 1 / 2 < x - (⌊x⌋ : ℚ) then ⌊x⌋ + 1
  else if ⌊x⌋ % 2 = 0 then ⌊x⌋ else ⌊x⌋ + 1

/-- Modelled from the spec: the "internal float conversion" of section 8, read
as IEEE 754 binary64 with the default rounding: the double nearest to `q`, as
the rational it denotes. A double is an integer multiple of `2 ^ (e - 52)`,
where `e` is the binary exponent of the value, and of `2 ^ (-1074)` at least
(the subnormal range); the multiple is the nearest integer, a tie going to the
even one. Overflow to infinity (magnitudes from `2 ^ 1024` on) is left out: no
percent value comes near it. treemap.h is not among the sources. -/
def toDouble (q : ℚ) : ℚ :=
  if q = 0 then 0
  else (roundHalfEven (q / pow2 (max (floorLog2 q - 52) (-1074))) : ℚ) *
    pow2 (max (floorLog2 q - 52) (-1074))

/-- Modelled from the spec: `CTreemap::Options` (its declaration in treemap.h
is not among the sources). The configuration surface of section 6: style,
grid flag, grid colour, and the six numeric knobs, each "stored internally as
a normalized fraction derived from the percent integer by dividing by 100".
The fractions are `double` values, held as the rationals they denote. -/
structure Options where
  style : Int
  grid : Bool
  gridColor : Nat
  brightness : ℚ
  height : ℚ
  scaleFactor : ℚ
  ambientLight : ℚ
  lightSourceX : ℚ
  lightSourceY : ℚ

/-- Modelled from the spec: the percent integer of an internal value, the
nearest integer (halves away from zero), computed on doubles: a half is added
to the magnitude, the sum is rounded to a double and its integer part is
taken. The helper of treemap.h that does this is not among the sources. -/
def roundPercent (d : ℚ) : Int :=
  if 0 ≤ d then ⌊toDouble (d + 1 / 2)⌋ else -⌊toDouble (-d + 1 / 2)⌋

namespace Options

/-- Modelled from the spec: percent setter, "fraction internal": the knob is
stored as the percent integer divided by 100, the quotient being a double
(treemap.h is not among the sources). -/
def SetBrightnessPercent (o : Options) (n : Int) : Options :=
  { o with brightness := toDouble ((n : ℚ) / 100) }

/-- Modelled from the spec: percent setter of the height knob. -/
def SetHeightPercent (o : Options) (n : Int) : Options :=
  { o with height := toDouble ((n : ℚ) / 100) }

/-- Modelled from the spec: percent setter of the scale factor knob. -/
def SetScaleFactorPercent (o : Options) (n : Int) : Options :=
  { o with scaleFactor := toDouble ((n : ℚ) / 100) }

/-- Modelled from the spec: percent setter of the ambient light knob. -/
def SetAmbientLightPercent (o : Options) (n : Int) : Options :=
  { o with ambientLight := toDouble ((n : ℚ) / 100) }

/-- Modelled from the spec: percent setter of the light source abscissa. -/
def SetLightSourceXPercent (o : Options) (n : Int) : Options :=
  { o with lightSourceX := toDouble ((n : ℚ) / 100) }

/-- Modelled from the spec: percent setter of the light source ordinate. -/
def SetLightSourceYPercent (o : Options) (n : Int) : Options :=
  { o with lightSourceY := toDouble ((n : ℚ) / 100) }

/-- Modelled from the spec: percent getter, "percent I/O": the stored fraction
times 100, the product being a double, as the nearest integer (treemap.h is
not among the sources). -/
def GetBrightnessPercent (o : Options) : Int := roundPercent (toDouble (o.brightness * 100))

/-- Modelled from the spec: percent getter of the height knob. -/
def GetHeightPercent (o : Options) : Int := roundPercent (toDouble (o.height * 100))

/-- Modelled from the spec: percent getter of the scale factor knob. -/
def GetScaleFactorPercent (o : Options) : Int := roundPercent (toDouble (o.scaleFactor * 100))

/-- Modelled from the spec: percent getter of the ambient light knob. -/
def GetAmbientLightPercent (o : Options) : Int := roundPercent (toDouble (o.ambientLight * 100))

/-- Modelled from the spec: percent getter of the light source abscissa. -/
def GetLightSourceXPercent (o : Options) : Int := roundPercent (toDouble (o.lightSourceX * 100))

/-- Modelled from the spec: percent getter of the light source ordinate. -/
def GetLightSourceYPercent (o : Options) : Int := roundPercent (toDouble (o.lightSourceY * 100))

end Options

/-! ## options.cpp: COptions::ReadTreemapOptions / SaveTreemapOptions

The two enumerators `CTreemap::KDirStatStyle` and `CTreemap::SequoiaViewStyle`
and the value of `CTreemap::GetDefaultOptions()` are declared outside the
sources at hand; they are parameters (`kDirStat`, `sequoiaView`, `standard`). -/

/-- The local variables of `COptions::ReadTreemapOptions` at the points where
they are handed to `m_treemapOptions`: `style` after the validity test, the
grid flag, the grid colour as read, and the six percent values after
`checkRange`. -/
structure TreemapLocals where
  style : Int
  grid : Bool
  gridColor : Int
  brightness : Int
  height : Int
  scaleFactor : Int
  ambientLight : Int
  lightSourceX : Int
  lightSourceY : Int

/-- The first half of `COptions::ReadTreemapOptions`: what is read from the
store and how it is validated. -/
def ReadTreemapLocals (kDirStat sequoiaView : Int) (standard : Options)
    (store : ProfileStore) : TreemapLocals :=
  let style := getProfileInt store sectionOptions entryTreemapStyle standard.style
  let style := if style ≠ kDirStat ∧ style ≠ sequoiaView then kDirStat else style
  let grid := getProfileBool store sectionOptions entryTreemapGrid standard.grid
  let gridColor := getProfileInt store sectionOptions entryTreemapGridColor (toInt32 standard.gridColor)
  let brightness := getProfileInt store sectionOptions entryBrightness standard.GetBrightnessPercent
  let brightness := checkRange brightness 0 100
  let height := getProfileInt store sectionOptions entryHeightFactor standard.GetHeightPercent
  let height := checkRange height 0 100
  let scaleFactor := getProfileInt store sectionOptions entryScaleFactor standard.GetScaleFactorPercent
  let scaleFactor := checkRange scaleFactor 0 100
  let ambientLight := getProfileInt store sectionOptions entryAmbientLight standard.GetAmbientLightPercent
  let ambientLight := checkRange ambientLight 0 100
  let lightSourceX := getProfileInt store sectionOptions entryLightSourceX standard.GetLightSourceXPercent
  let lightSourceX := checkRange lightSourceX (-200) 200
  let lightSourceY := getProfileInt store sectionOptions entryLightSourceY standard.GetLightSourceYPercent
  let lightSourceY := checkRange lightSourceY (-200) 200
  { style := style, grid := grid, gridColor := gridColor, brightness := brightness,
    height := height, scaleFactor := scaleFactor, ambientLight := ambientLight,
    lightSourceX := lightSourceX, lightSourceY := lightSourceY }

/-- `COptions::ReadTreemapOptions`: the assignments to `m_treemapOptions`, in
the order of the source, with the values of `ReadTreemapLocals`. -/
def ReadTreemapOptions (kDirStat sequoiaView : Int) (standard : Options)
    (store : ProfileStore) (m_treemapOptions : Options) : Options :=
  let v := ReadTreemapLocals kDirStat sequoiaView standard store
  let m := { m_treemapOptions with style := v.style }
  let m := { m with grid := v.grid }
  let m := { m with gridColor := toUInt32 v.gridColor }
  let m := m.SetBrightnessPercent v.brightness
  let m := m.SetHeightPercent v.height
  let m := m.SetScaleFactorPercent v.scaleFactor
  let m := m.SetAmbientLightPercent v.ambientLight
  let m := m.SetLightSourceXPercent v.lightSourceX
  m.SetLightSourceYPercent v.lightSourceY

/-- `COptions::SaveTreemapOptions`. The second statement of the source is a
call of `getProfileBool`, whose result is dropped: it writes nothing. -/
def SaveTreemapOptions (store : ProfileStore) (m_treemapOptions : Options) : ProfileStore :=
  let store := setProfileInt store sectionOptions entryTreemapStyle m_treemapOptions.style
  let _unused := getProfileBool store sectionOptions entryTreemapGrid m_treemapOptions.grid
  let store := setProfileInt store sectionOptions entryTreemapGridColor (toInt32 m_treemapOptions.gridColor)
  let store := setProfileInt store sectionOptions entryBrightness m_treemapOptions.GetBrightnessPercent
  let store := setProfileInt store sectionOptions entryHeightFactor m_treemapOptions.GetHeightPercent
  let store := setProfileInt store sectionOptions entryScaleFactor m_treemapOptions.GetScaleFactorPercent
  let store := setProfileInt store sectionOptions entryAmbientLight m_treemapOptions.GetAmbientLightPercent
  let store := setProfileInt store sectionOptions entryLightSourceX m_treemapOptions.GetLightSourceXPercent
  setProfileInt store sectionOptions entryLightSourceY m_treemapOptions.GetLightSourceYPercent

/-- A value of `CTreemap::Options` used to instantiate the theorems: the
KDirStat style, no grid, black grid colour and some knob settings. -/
def sampleOptions : Options :=
  { style := 0, grid := false, gridColor := 0, brightness := toDouble (88 / 100),
    height := toDouble (38 / 100), scaleFactor := toDouble (91 / 100),
    ambientLight := toDouble (13 / 100), lightSourceX := -1, lightSourceY := -1 }

/-- A profile store used to instantiate the theorems: brightness and the
light source abscissa are stored out of range, the height in range, the style
with a value that is no style, the grid flag cleared. -/
def sampleStore : ProfileStore := fun s e =>
  if s = sectionOptions then
    if e = entryBrightness then some 250
    else if e = entryHeightFactor then some 40
    else if e = entryLightSourceX then some (-1000)
    else if e = entryTreemapStyle then some 7
    else if e = entryTreemapGrid then some 0
    else none
  else none

/-! ## dirstatdoc.cpp: extension data

`CExtensionData` is a `CMap` from the extension to its `SExtensionRecord`.
It is embedded as the list of its associations, in the order in which
`GetStartPosition` / `GetNextAssoc` enumerate them; a `CMap` holds each key
once. -/

/-- `SExtensionRecord`: number of files, aggregate byte count and colour of
an extension. -/
structure SExtensionRecord where
  files : Nat
  bytes : Nat
  color : Nat
deriving DecidableEq, Repr

abbrev CExtensionData := List (String × SExtensionRecord)

/-- `CMap::Lookup`. -/
def Lookup : CExtensionData → String → Option SExtensionRecord
  | [], _ => none
  | (k, r) :: rest, key => if k = key then some r else Lookup rest key

/-- The assignment `m[key].color = c` through `CMap::operator[]`: the record
of `key` gets the colour `c`; when `key` is absent, `operator[]` first adds a
record for it (with zeroed counts here). -/
def setColor : CExtensionData → String → Nat → CExtensionData
  | [], key, c => [(key, { files := 0, bytes := 0, color := c })]
  | (k, r) :: rest, key, c =>
    if k = key then (k, { r with color := c }) :: rest else (k, r) :: setColor rest key c

/-- The loop of `CDirstatDoc::SetExtensionColors`, from position `i` on, over
the rest of `sortedExtensions`. An index outside `colors` (which happens only
for an empty palette) is a failure. -/
def SetExtensionColorsLoop (colors : List Nat) :
    Nat → List String → CExtensionData → Option CExtensionData
  | _, [], m => some m
  | i, ext :: rest, m =>
    match colors[colors.length - 1]? with
    | none => none
    | some last =>
      match (if i < colors.length then colors[i]? else some last) with
      | none => none
      | some c => SetExtensionColorsLoop colors (i + 1) rest (setColor m ext c)

/-- `CDirstatDoc::SetExtensionColors`; `colors` is what the static array holds
once `CTreemap::GetDefaultPalette` has filled it. -/
def SetExtensionColors (colors : List Nat) (sortedExtensions : List String)
    (m_extensionData : CExtensionData) : Option CExtensionData :=
  SetExtensionColorsLoop colors 0 sortedExtensions m_extensionData

/-- Modelled from the spec: `usignum` of common/commonhelpers.h, which is not
among the sources: the sign of the comparison of two unsigned numbers, -1, 0
or 1, so that `_compareExtensions` sorts "by descending aggregate size". -/
def usignum (x y : Nat) : Int := if x < y then -1 else if x = y then 0 else 1

/-- `CDirstatDoc::_compareExtensions`, with `_pqsortExtensionData` as an
argument. A record whose lookup fails stays as declared (zeroed here); the
source asserts that this does not happen. -/
def _compareExtensions (pqsortExtensionData : CExtensionData) (ext1 ext2 : String) : Int :=
  let r1 := (Lookup pqsortExtensionData ext1).getD { files := 0, bytes := 0, color := 0 }
  let r2 := (Lookup pqsortExtensionData ext2).getD { files := 0, bytes := 0, color := 0 }
  usignum r2.bytes r1.bytes

/-- Insertion of one element for `qsort`: before the first element that the
comparator does not put in front of it. -/
def qsortInsert (compare : String → String → Int) (a : String) : List String → List String
  | [] => [a]
  | b :: l => if compare a b ≤ 0 then a :: b :: l else b :: qsortInsert compare a l

/-- The C library's `qsort` on an array of strings, as an insertion sort with
the given comparator (the library fixes the result only up to the order of
elements that compare equal). -/
def qsort (compare : String → String → Int) : List String → List String
  | [] => []
  | a :: l => qsortInsert compare a (qsort compare l)

/-- `CDirstatDoc::SortExtensionData`: the keys of the map in enumeration
order, then sorted with `_compareExtensions`. -/
def SortExtensionData (m_extensionData : CExtensionData) : List String :=
  let sortedExtensions := m_extensionData.map Prod.fst
  qsort (_compareExtensions m_extensionData) sortedExtensions

/-- An extension map used to instantiate the theorems. -/
def sampleExtensionData : CExtensionData :=
  [(".txt", { files := 3, bytes := 120, color := 0 }),
   (".exe", { files := 1, bytes := 9000, color := 0 }),
   (".jpg", { files := 7, bytes := 4500, color := 0 }),
   (".tmp", { files := 2, bytes := 120, color := 0 })]

/-! ## Controls/typeview.cpp: the colour cell of the extension list -/

/-- The value of a `LONG` or `int` that holds the result of an arithmetic
operation: the integer reduced to the 32-bit two's complement range. -/
def toLONG (i : Int) : Int := (i + 2 ^ 31) % 2 ^ 32 - 2 ^ 31

/-- `CRect`: integer pixel bounds. -/
structure CRect where
  left : Int
  top : Int
  right : Int
  bottom : Int
deriving DecidableEq, Repr

namespace CRect

/-- `CRect::Width`. -/
def Width (rc : CRect) : Int := rc.right - rc.left

/-- `CRect::Height`. -/
def Height (rc : CRect) : Int := rc.bottom - rc.top

/-- `CRect::DeflateRect(x, y)`: moves each side towards the centre. The sides
are `LONG` members; each sum is reduced to the 32-bit range. -/
def DeflateRect (rc : CRect) (x y : Int) : CRect :=
  { left := toLONG (rc.left + x), top := toLONG (rc.top + y),
    right := toLONG (rc.right - x), bottom := toLONG (rc.bottom - y) }

/-- `CRect::PtInRect`: the pixel `(x, y)` lies in the rectangle; the right
and bottom sides are outside. -/
def PtInRect (rc : CRect) (x y : Int) : Prop :=
  rc.left ≤ x ∧ x < rc.right ∧ rc.top ≤ y ∧ y < rc.bottom

instance (rc : CRect) (x y : Int) : Decidable (rc.PtInRect x y) := by
  unfold PtInRect
  exact inferInstance

end CRect

/-- The drawing calls that `DrawColor` can issue. -/
inductive DrawCall where
  | DrawSelection (rc : CRect) (state : Nat)
  | DrawColorPreview (rc : CRect) (color : Nat) (options : Options)

/-- What `DrawColor` leaves behind: the content of `*width` when `width` is
not `NULL`, and the drawing calls it made, in order. -/
structure DrawColorEffect where
  width : Option Int
  calls : List DrawCall

/-- `CExtensionListControl::CListItem::DrawColor`. The argument `width` is
`none` for a `NULL` pointer and the pointed-to value otherwise; `options` is
the value of `GetOptions()->GetTreemapOptions()`. -/
def DrawColor (m_record : SExtensionRecord) (options : Options) (rc : CRect) (state : Nat)
    (width : Option Int) : DrawColorEffect :=
  match width with
  | some _ => { width := some 40, calls := [] }
  | none =>
    let calls := [DrawCall.DrawSelection rc state]
    let rc := rc.DeflateRect 2 3
    if rc.right ≤ rc.left ∨ rc.bottom ≤ rc.top then
      { width := none, calls := calls }
    else
      { width := none, calls := calls ++ [DrawCall.DrawColorPreview rc m_record.color options] }

/-! ## The layout of one row (specification, section 4.1)

The layout engine is not among the sources; the subdivision of a closed row
is taken from the specification. Floating point is read as exact rational
arithmetic. -/

/-- Modelled from the spec: rounding "to nearest integer pixel" of section
4.1 (treemap.cpp is not among the sources). -/
def roundPixel (q : ℚ) : Int := ⌊q + 1 / 2⌋

/-- The rectangle of a member of a row: between the edges `lo` and `hi` along
the row (left to right when `horizontal`, top to bottom otherwise), and as
deep as the row. -/
def memberRect (horizontal : Bool) (row : CRect) (lo hi : Int) : CRect :=
  if horizontal then { left := lo, top := row.top, right := hi, bottom := row.bottom }
  else { left := row.left, top := lo, right := row.right, bottom := hi }

/-- Start of the row along its direction. -/
def rowStart (horizontal : Bool) (row : CRect) : Int := if horizontal then row.left else row.top

/-- End of the row along its direction. -/
def rowEnd (horizontal : Bool) (row : CRect) : Int := if horizontal then row.right else row.bottom

/-- Modelled from the spec: the edge after the members whose sizes add up to
`acc`, out of `total` for the whole row: the proportional position, "rounded
to nearest integer pixel" (section 4.1, step 4 and numeric semantics;
treemap.cpp is not among the sources). -/
def rowEdge (horizontal : Bool) (row : CRect) (total acc : Nat) : Int :=
  rowStart horizontal row +
    roundPixel (((rowEnd horizontal row - rowStart horizontal row : Int) : ℚ) * (acc : ℚ) / (total : ℚ))

/-- Modelled from the spec: section 4.1, step 4, for the members that remain,
the previous member ending at `start` and the members so far adding up to
`acc`: each member reaches from the previous edge to its own rounded edge,
and the last member reaches to the end of the row ("the last child in a
row/column absorbs the remainder"). The result is the pair of edges of each
member. treemap.cpp is not among the sources. -/
def rowSpans (horizontal : Bool) (row : CRect) (total : Nat) :
    Int → Nat → List Nat → List (Int × Int)
  | _, _, [] => []
  | start, _, [_] => [(start, rowEnd horizontal row)]
  | start, acc, s :: t :: rest =>
    let edge := rowEdge horizontal row total (acc + s)
    (start, edge) :: rowSpans horizontal row total edge (acc + s) (t :: rest)

/-- Modelled from the spec: the rectangles assigned to the members of a closed
row, in input order (section 4.1, step 4: "subdivide the row's rectangle
proportionally among its members by size"; step 7: zero-size children "are
skipped entirely"). treemap.cpp is not among the sources. -/
def LayoutRow (horizontal : Bool) (row : CRect) (sizes : List Nat) : List CRect :=
  let members := sizes.filter (fun s => 0 < s)
  (rowSpans horizontal row members.sum (rowStart horizontal row) 0 members).map
    (fun p => memberRect horizontal row p.1 p.2)

/-! ## dirstatdoc.cpp: the selection list

A `CItem *` is embedded as a number (the address of the item); the accessor
`CItem::GetParent` is an argument `GetParent`, with `none` for a `NULL`
parent. `m_selectedItems` is the list of the selected items. -/

abbrev CItem := Nat

/-- `CDirstatDoc::RemoveAllSelections`. -/
def RemoveAllSelections (_m_selectedItems : List CItem) : List CItem := []

/-- `CDirstatDoc::GetSelectionParent`: the parent of the first selected item;
the source asserts that there is one. -/
def GetSelectionParent (GetParent : CItem → Option CItem) (m_selectedItems : List CItem) :
    Option (Option CItem) :=
  match m_selectedItems with
  | [] => none
  | item :: _ => some (GetParent item)

/-- `CDirstatDoc::CanAddSelection`. -/
def CanAddSelection (GetParent : CItem → Option CItem) (m_selectedItems : List CItem)
    (item : CItem) : Bool :=
  if m_selectedItems.length = 0 then true
  else decide (some (GetParent item) = GetSelectionParent GetParent m_selectedItems)

/-- `CDirstatDoc::AddSelection`: appends the item; the source asserts
`CanAddSelection(item)`. -/
def AddSelection (m_selectedItems : List CItem) (item : CItem) : List CItem :=
  m_selectedItems ++ [item]

/-- `CDirstatDoc::RemoveSelection`: removes the first entry equal to `item`,
if there is one. -/
def RemoveSelection : List CItem → CItem → List CItem
  | [], _ => []
  | x :: rest, item => if x = item then rest else x :: RemoveSelection rest item

/-- `CDirstatDoc::AssertSelectionValid`: `true` when none of its assertions
fails, which is when every selected item has the parent of the first. -/
def AssertSelectionValid (GetParent : CItem → Option CItem) (m_selectedItems : List CItem) :
    Bool :=
  if m_selectedItems.length = 0 then true
  else m_selectedItems.all
    (fun x => decide (some (GetParent x) = GetSelectionParent GetParent m_selectedItems))

/-- One call of `RemoveAllSelections`, `RemoveSelection` or `AddSelection`,
the latter only with an item for which `CanAddSelection` returns true. -/
inductive SelectionStep (GetParent : CItem → Option CItem) : List CItem → List CItem → Prop
  | removeAll (sel : List CItem) : SelectionStep GetParent sel (RemoveAllSelections sel)
  | remove (sel : List CItem) (item : CItem) :
      SelectionStep GetParent sel (RemoveSelection sel item)
  | add (sel : List CItem) (item : CItem) (h : CanAddSelection GetParent sel item = true) :
      SelectionStep GetParent sel (AddSelection sel item)

/-- The selection lists that can be reached from the empty selection. -/
inductive SelectionReachable (GetParent : CItem → Option CItem) : List CItem → Prop
  | empty : SelectionReachable GetParent []
  | step (sel sel1 : List CItem) (h : SelectionReachable GetParent sel)
      (hs : SelectionStep GetParent sel sel1) : SelectionReachable GetParent sel1

/-- A parent function used to instantiate the theorems: items 1 and 2 are
children of item 0, item 3 is a child of item 1, item 0 is the root. -/
def sampleGetParent : CItem → Option CItem := fun x =>
  if x = 1 ∨ x = 2 then some 0 else if x = 3 then some 1 else none

/-! ## dirstatdoc.cpp: EncodeSelection / DecodeSelection

A `CString` is embedded as the list of its characters. -/

abbrev CString := List Char

/-- The white-space test behind `CString::TrimLeft` and `TrimRight`: space,
tab, line feed, vertical tab, form feed and carriage return. -/
def _istspace (c : Char) : Bool := c = ' ' || (9 ≤ c.toNat && c.toNat ≤ 13)

/-- `CString::TrimLeft`. -/
def TrimLeft (s : CString) : CString := s.dropWhile _istspace

/-- `CString::TrimRight`. -/
def TrimRight (s : CString) : CString := (s.reverse.dropWhile _istspace).reverse

/-- `CDirstatDoc::GetEncodingSeparator`, which returns `wds::chrPipe`. -/
def GetEncodingSeparator : Char := '|'

/-- The radio buttons of the drive selection dialog (`RADIO`). -/
inductive RADIO where
  | RADIO_ALLLOCALDRIVES
  | RADIO_SOMEDRIVES
  | RADIO_AFOLDER
deriving DecidableEq, Repr

/-- The loop of `CDirstatDoc::EncodeSelection` over `drives`, from index `i`
on, appending to `ret`. -/
def EncodeDrives : Nat → CString → List CString → CString
  | _, ret, [] => ret
  | i, ret, d :: rest =>
    let ret := if i > 0 then ret ++ [GetEncodingSeparator] else ret
    EncodeDrives (i + 1) (ret ++ d) rest

/-- `CDirstatDoc::EncodeSelection`. -/
def EncodeSelection (radio : RADIO) (folder : CString) (drives : List CString) : CString :=
  match radio with
  | RADIO.RADIO_ALLLOCALDRIVES => EncodeDrives 0 [] drives
  | RADIO.RADIO_SOMEDRIVES => EncodeDrives 0 [] drives
  | RADIO.RADIO_AFOLDER => folder

/-- The tokenizing loop of `CDirstatDoc::DecodeSelection` over the rest of
`s`. `token` is `none` between two passes of the outer loop and holds the
characters collected so far during a pass. A pass ends at a separator or at
the end of `s` and adds the trimmed token to `sa`. -/
def DecodeTokens : CString → Option CString → List CString
  | [], none => []
  | [], some token => [TrimRight (TrimLeft token)]
  | c :: rest, token =>
    if c ≠ GetEncodingSeparator then DecodeTokens rest (some (token.getD [] ++ [c]))
    else TrimRight (TrimLeft (token.getD [])) :: DecodeTokens rest none

/-- The outputs of `DecodeSelection`. -/
structure Selection where
  folder : CString
  drives : List CString
deriving DecidableEq, Repr

/-- `CDirstatDoc::DecodeSelection`, assertions left out (as in a release
build). The result is `none` when `sa` is empty, where the source reads
`sa[0]`. -/
def DecodeSelection (s : CString) : Option Selection :=
  let sa := DecodeTokens s none
  if sa.length > 1 then
    some { folder := [], drives := sa.map (fun d => d ++ ['\\']) }
  else
    match sa with
    | [] => none
    | f :: _ =>
      if f.length = 2 ∧ f[1]? = some ':' then
        some { folder := [], drives := [f ++ ['\\']] }
      else
        let f := if f.length > 0 ∧ f.getLast? = some '\\' ∧ (f.length ≠ 3 ∨ f[1]? ≠ some ':')
          then f.take (f.length - 1) else f
        some { folder := f, drives := [] }

/-- The assertions of `CDirstatDoc::DecodeSelection`: no token is empty,
there is at least one token, and when there are several each has two
characters, the second a colon. -/
def DecodeSelectionAsserts (s : CString) : Bool :=
  let sa := DecodeTokens s none
  sa.all (fun token => !token.isEmpty) && decide (sa.length > 0) &&
    (if sa.length > 1 then sa.all (fun d => decide (d.length = 2) && decide (d[1]? = some ':'))
     else true)

/-- The assertion of `CDirstatDoc::OnOpenDocument` on the outputs of
`DecodeSelection`: when there are no drives, the folder is not empty. -/
def OnOpenDocumentAssert (sel : Selection) : Bool :=
  if sel.drives.length > 0 then true else !sel.folder.isEmpty

/-! ## options.cpp: the report strings in SaveToRegistry / LoadFromRegistry -/

/-- The strings of the profile store behind `AfxGetApp()->GetProfileString /
WriteProfileString`. -/
abbrev ProfileStrings := String → String → Option CString

/-- `CRegistryUser::getProfileString`: the stored string, or the default when
the entry is absent. -/
def getProfileString (store : ProfileStrings) (sect entry : String) (defaultValue : CString) :
    CString :=
  match store sect entry with
  | some v => v
  | none => defaultValue

/-- `CRegistryUser::setProfileString`: writes one entry, leaves the others. -/
def setProfileString (store : ProfileStrings) (sect entry : String) (value : CString) :
    ProfileStrings :=
  fun s e => if s = sect ∧ e = entry then some value else store s e

def entryReportSubject : String := "reportSubject"
def entryReportPrefix : String := "reportPrefix"
def entryReportSuffix : String := "reportSuffix"

/-- The three report strings of `COptions`; also used for the three values of
`GetReportDefaultSubject`, `GetReportDefaultPrefix` and
`GetReportDefaultSuffix`, which come from the string resources. -/
structure ReportStrings where
  m_reportSubject : CString
  m_reportPrefix : CString
  m_reportSuffix : CString
deriving DecidableEq, Repr

/-- `const LPCTSTR stringPrefix = _T("$")` of `COptions::SaveToRegistry`. -/
def stringPrefix : CString := ['$']

/-- `COptions::SaveToRegistry`, the part after the comment "We must
distinguish between 'empty' and 'default'": the three report strings are
written. `store` is the store as the statements before it have left it; they
write entries with other names. `defaults` holds the three default texts. -/
def SaveToRegistry (defaults : ReportStrings) (store : ProfileStrings) (m : ReportStrings) :
    ProfileStrings :=
  let s := if m.m_reportSubject = defaults.m_reportSubject then [] else stringPrefix ++ m.m_reportSubject
  let store := setProfileString store sectionOptions entryReportSubject s
  let s := if m.m_reportPrefix = defaults.m_reportPrefix then [] else stringPrefix ++ m.m_reportPrefix
  let store := setProfileString store sectionOptions entryReportPrefix s
  let s := if m.m_reportSuffix = defaults.m_reportSuffix then [] else stringPrefix ++ m.m_reportSuffix
  setProfileString store sectionOptions entryReportSuffix s

/-- `COptions::LoadFromRegistry`, the part that reads the three report
strings (`s.Mid(1)` drops the first character); the statements before it read
other entries and write nothing. -/
def LoadFromRegistry (defaults : ReportStrings) (store : ProfileStrings) : ReportStrings :=
  let s := getProfileString store sectionOptions entryReportSubject []
  let subject := if s.isEmpty then defaults.m_reportSubject else s.drop 1
  let s := getProfileString store sectionOptions entryReportPrefix []
  let pre := if s.isEmpty then defaults.m_reportPrefix else s.drop 1
  let s := getProfileString store sectionOptions entryReportSuffix []
  let suffix := if s.isEmpty then defaults.m_reportSuffix else s.drop 1
  { m_reportSubject := subject, m_reportPrefix := pre, m_reportSuffix := suffix }

/-! ## 3rdparty/lua/src/modules/w32resembed.c -/

/-- `utf8bom` of `luaC_winres_loader_`. -/
def utf8bom : List Nat := [0xEF, 0xBB, 0xBF]

/-- `luaC_winres_loader_`, up to the call of `luaL_loadbuffer`: the buffer and
the length handed to it. `resource` is the script resource as a list of bytes,
`none` when `getResourcePointer` does not find it. The result is `none` when
the function leaves through `luaL_error` before the call. -/
def luaC_winres_loader_ (resource : Option (List Nat)) : Option (List Nat × Nat) :=
  match resource with
  | none => none
  | some scriptBuf =>
    let dwScriptLen := scriptBuf.length
    if dwScriptLen = 0 then none
    else
      let scriptLen := dwScriptLen
      if scriptLen > utf8bom.length ∧ scriptBuf.take utf8bom.length = utf8bom then
        some (scriptBuf.drop utf8bom.length, scriptLen - utf8bom.length)
      else
        some (scriptBuf, scriptLen)

/-! ## User defined cleanups (options.cpp, dirstatdoc.cpp) -/

/-- `ITEMTYPE`, without the flag bits: the item types named in
dirstatdoc.cpp. -/
inductive ITEMTYPE where
  | IT_MYCOMPUTER
  | IT_DRIVE
  | IT_DIRECTORY
  | IT_FILE
  | IT_FILESFOLDER
  | IT_FREESPACE
  | IT_UNKNOWN
deriving DecidableEq, Repr

/-- `USERDEFINEDCLEANUP`, with the fields that `ReadUserDefinedCleanup`
fills. -/
structure USERDEFINEDCLEANUP where
  enabled : Bool
  virginTitle : Bool
  title : CString
  worksForDrives : Bool
  worksForDirectories : Bool
  worksForFilesFolder : Bool
  worksForFiles : Bool
  worksForUncPaths : Bool
  commandLine : CString
  recurseIntoSubdirectories : Bool
  askForConfirmation : Bool
  showConsoleWindow : Bool
  waitForCompletion : Bool
  refreshPolicy : Int

/-- `CDirstatDoc::UserDefinedCleanupWorksForItem`. The item is `none` for a
`NULL` pointer; `GetType` and `HasUncPath` are the accessors of `CItem`. -/
def UserDefinedCleanupWorksForItem (GetType : CItem → ITEMTYPE) (HasUncPath : CItem → Bool)
    (udc : USERDEFINEDCLEANUP) (item : Option CItem) : Bool :=
  match item with
  | none => false
  | some item =>
    if !udc.worksForUncPaths && HasUncPath item then false
    else
      match GetType item with
      | ITEMTYPE.IT_DRIVE => udc.worksForDrives
      | ITEMTYPE.IT_DIRECTORY => udc.worksForDirectories
      | ITEMTYPE.IT_FILESFOLDER => udc.worksForFilesFolder
      | ITEMTYPE.IT_FILE => udc.worksForFiles
      | _ => false

def entryRefreshPolicy : String := "refreshPolicy"

/-- `COptions::ReadUserDefinedCleanup`, the three statements that read the
refresh policy from the section of the cleanup. The enumerators
`RP_NO_REFRESH` and `REFRESHPOLICYCOUNT` are declared outside the sources and
are arguments. -/
def ReadUserDefinedCleanup_refreshPolicy (RP_NO_REFRESH REFRESHPOLICYCOUNT : Int)
    (store : ProfileStore) (sect : String) : Int :=
  let r := getProfileInt store sect entryRefreshPolicy RP_NO_REFRESH
  checkRange r 0 REFRESHPOLICYCOUNT

/-- What `RefreshAfterUserDefinedCleanup` does. -/
inductive RefreshOutcome where
  | nothing
  | RefreshItem (item : CItem)
  | assertFailed
deriving DecidableEq, Repr

/-- `CDirstatDoc::RefreshAfterUserDefinedCleanup`: the switch over the refresh
policy, the three enumerators being arguments; the default branch is
`ASSERT(0)`. -/
def RefreshAfterUserDefinedCleanup
    (RP_NO_REFRESH RP_REFRESH_THIS_ENTRY RP_REFRESH_THIS_ENTRYS_PARENT : Int)
    (GetParent : CItem → Option CItem) (udc : USERDEFINEDCLEANUP) (item : CItem) :
    RefreshOutcome :=
  if udc.refreshPolicy = RP_NO_REFRESH then RefreshOutcome.nothing
  else if udc.refreshPolicy = RP_REFRESH_THIS_ENTRY then RefreshOutcome.RefreshItem item
  else if udc.refreshPolicy = RP_REFRESH_THIS_ENTRYS_PARENT then
    RefreshOutcome.RefreshItem (match GetParent item with
      | none => item
      | some parent => parent)
  else RefreshOutcome.assertFailed

/-- `CString::Replace(old, new)` from the rest of the string on, `skip`
characters of a match still to be passed over: every occurrence of `old`,
found from left to right, is replaced by `new`; an empty `old` replaces
nothing. -/
def ReplaceFrom (old new : CString) : Nat → CString → CString
  | _, [] => []
  | skip + 1, _ :: rest => ReplaceFrom old new skip rest
  | 0, c :: rest =>
    if old ≠ [] ∧ old.isPrefixOf (c :: rest) = true then
      new ++ ReplaceFrom old new (old.length - 1) rest
    else c :: ReplaceFrom old new 0 rest

/-- `CString::Replace`. -/
def Replace (s old new : CString) : CString := ReplaceFrom old new 0 s

/-- `CDirstatDoc::BuildUserDefinedCleanupCommandLine`; `GetBaseNameFromPath`,
a helper declared outside the sources, is an argument. -/
def BuildUserDefinedCleanupCommandLine (GetBaseNameFromPath : CString → CString)
    (format rootPath currentPath : CString) : CString :=
  let rootName := GetBaseNameFromPath rootPath
  let currentName := GetBaseNameFromPath currentPath
  let s := format
  let s := Replace s "%p".toList ">p".toList
  let s := Replace s "%n".toList ">n".toList
  let s := Replace s "%sp".toList ">sp".toList
  let s := Replace s "%sn".toList ">sn".toList
  let s := Replace s ">p".toList rootPath
  let s := Replace s ">n".toList rootName
  let s := Replace s ">sp".toList currentPath
  Replace s ">sn".toList currentName

/-- A stand-in for `GetBaseNameFromPath`, used to instantiate the theorems:
the part of the path after its last backslash. -/
def sampleGetBaseNameFromPath (path : CString) : CString :=
  (path.reverse.takeWhile (fun c => c ≠ '\\')).reverse

/-- Item types used to instantiate the theorems: item 0 is a drive, items 1
and 2 are directories, item 3 is a file, every other item is free space. -/
def sampleGetType : CItem → ITEMTYPE := fun x =>
  if x = 0 then ITEMTYPE.IT_DRIVE
  else if x = 1 ∨ x = 2 then ITEMTYPE.IT_DIRECTORY
  else if x = 3 then ITEMTYPE.IT_FILE
  else ITEMTYPE.IT_FREESPACE

/-- A cleanup used to instantiate the theorems: it works for directories and
files, not for UNC paths. -/
def sampleCleanup : USERDEFINEDCLEANUP :=
  { enabled := true, virginTitle := false, title := "list".toList, worksForDrives := false,
    worksForDirectories := true, worksForFilesFolder := false, worksForFiles := true,
    worksForUncPaths := false, commandLine := "dir /b >names.txt".toList,
    recurseIntoSubdirectories := false, askForConfirmation := true, showConsoleWindow := true,
    waitForCompletion := true, refreshPolicy := 1 }

/-! ## The layout engine and the hit tester (specification, sections 3, 4.1, 4.4)

Neither is among the sources; both are taken from the specification.
Floating point is read as exact rational arithmetic. The minimum-visible
threshold of step 1 ("configurable") is an argument `minArea`. A leaf item is
identified by its path, the list of child indices that lead to it from the
root. -/

/-- Modelled from the spec: `Item`, a node of the size tree (section 3): its
aggregate size, whether it is a leaf, and its children in order. The
declaration is not among the sources. -/
inductive Item where
  | mk (size : Nat) (isLeaf : Bool) (children : List Item)

namespace Item

/-- The `size` of an item. -/
def size : Item → Nat
  | mk s _ _ => s

/-- The `isLeaf` flag of an item. -/
def isLeaf : Item → Bool
  | mk _ l _ => l

/-- The `children` of an item. -/
def children : Item → List Item
  | mk _ _ c => c

end Item

/-- The area of a rectangle, `width * height`. -/
def CRect.Area (rc : CRect) : Int := rc.Width * rc.Height

/-- Every pixel of the first rectangle is a pixel of the second. -/
def CRect.Inside (a b : CRect) : Prop := ∀ x y, a.PtInRect x y → b.PtInRect x y

/-- The two rectangles have no pixel in common. -/
def CRect.Apart (a b : CRect) : Prop := ∀ x y, ¬ (a.PtInRect x y ∧ b.PtInRect x y)

/-- Modelled from the spec: a row is laid out "along the shorter dimension of
the remaining rectangle" (section 4.1, step 3): its members lie side by side
from left to right when the rectangle is narrower than high, and from top to
bottom otherwise. treemap.cpp is not among the sources. -/
def rowHorizontal (rem : CRect) : Bool := decide (rem.Width < rem.Height)

/-- Modelled from the spec: the "worst aspect ratio (height:width of the
implied sub-rectangles)" of a row (section 4.1, step 3), for members `row` out
of sizes that add up to `total` in the remaining rectangle `rem`: the row gets
its share of the area along the shorter side, each member its share of the
row. treemap.cpp is not among the sources. -/
def worstAspect (rem : CRect) (total : Nat) (row : List Nat) : ℚ :=
  let side : ℚ := ((min rem.Width rem.Height : Int) : ℚ)
  let rowArea : ℚ := (rem.Area : ℚ) * (row.sum : ℚ) / (total : ℚ)
  let thickness : ℚ := rowArea / side
  (row.map (fun s =>
    let len : ℚ := side * (s : ℚ) / (row.sum : ℚ)
    max (thickness / len) (len / thickness))).foldr max 0

/-- Modelled from the spec: the rectangle of a closed row, cut from the
remaining rectangle in proportion to the sizes of its members, the cut
"rounded to nearest integer pixel" (section 4.1, steps 3 and 4). -/
def rowStrip (rem : CRect) (total rowSum : Nat) : CRect :=
  if rowHorizontal rem then { rem with bottom := rowEdge false rem total rowSum }
  else { rem with right := rowEdge true rem total rowSum }

/-- Modelled from the spec: what remains of the rectangle when a row is
closed, "the remaining rectangle" with which a new row starts (section 4.1,
step 3). -/
def rowRemainder (rem : CRect) (total rowSum : Nat) : CRect :=
  if rowHorizontal rem then { rem with top := rowEdge false rem total rowSum }
  else { rem with left := rowEdge true rem total rowSum }

/-- Modelled from the spec: section 4.1, step 3, over the sizes that are still
to be placed, `row` being the current row: "add children to the current row
until adding the next child would worsen the row's worst aspect ratio versus
not adding it; when worse, close the row, lay it out along the shorter
dimension of the remaining rectangle, and start a new row with the remaining
rectangle". The last row takes all of the remaining rectangle. The result
lists the rectangles of the members in input order. treemap.cpp is not among
the sources. -/
def Squarify : CRect → List Nat → List Nat → List CRect
  | rem, row, [] => LayoutRow (rowHorizontal rem) rem row
  | rem, row, s :: rest =>
    let total := row.sum + (s :: rest).sum
    if row = [] ∨ ¬ (worstAspect rem total row < worstAspect rem total (row ++ [s])) then
      Squarify rem (row ++ [s]) rest
    else
      LayoutRow (rowHorizontal rem) (rowStrip rem total row.sum) row ++
        Squarify (rowRemainder rem total row.sum) [s] rest

/-- Modelled from the spec: grid mode "shrinks each assigned rectangle by 1px
on relevant edges to leave a visible gridline" (section 4.1, step 6); the
right and the bottom edge here. -/
def GridShrink (options : Options) (rc : CRect) : CRect :=
  if options.grid then { rc with right := rc.right - 1, bottom := rc.bottom - 1 } else rc

/-- Modelled from the spec: the rectangles are handed to the children in
order; a child of size zero is "skipped entirely" (section 4.1, step 7) and
gets none. treemap.cpp is not among the sources. -/
def AssignRects : List Nat → List CRect → List (Option CRect)
  | [], _ => []
  | _ :: sizes, [] => none :: AssignRects sizes []
  | s :: sizes, r :: rects =>
    if s = 0 then none :: AssignRects sizes (r :: rects) else some r :: AssignRects sizes rects

/-- Modelled from the spec: the partition of the rectangle of a node among
its children (section 4.1, steps 2 to 4, 6 and 7): the children of positive
size are grouped into rows, each row is subdivided, and in grid mode each
assigned rectangle is shrunk before the recursion. The shares are taken of
the sum of the sizes of the children, which is the size of the node by the
invariant of section 3. The result has one entry per child. treemap.cpp is not
among the sources. -/
def LayoutChildren (options : Options) (rect : CRect) (sizes : List Nat) : List (Option CRect) :=
  let members := sizes.filter (fun s => 0 < s)
  AssignRects sizes ((Squarify rect [] members).map (GridShrink options))

mutual

/-- Modelled from the spec: `ComputeLayout(node, rect, options)` (section
4.1): nothing for a rectangle without pixels ("a zero-area or negative-area
rectangle is a no-op"), for a rectangle below the threshold or for a node of
size zero (step 1); the rectangle itself for a leaf; otherwise the layouts of
the children in their assigned rectangles (step 5). The result lists each
leaf that gets a rectangle, by its path, with the rectangle. treemap.cpp is
not among the sources. -/
def ComputeLayout (minArea : Int) (options : Options) : Item → CRect → List (List Nat × CRect)
  | Item.mk size isLeaf children, rect =>
    if rect.Width ≤ 0 ∨ rect.Height ≤ 0 ∨ rect.Area < minArea ∨ size = 0 then []
    else if isLeaf then [([], rect)]
    else ComputeLayoutChildren minArea options children
      (LayoutChildren options rect (children.map Item.size)) 0

/-- Modelled from the spec: section 4.1, step 5, "recurse into each child's
assigned sub-rectangle with its own children": the layouts of the children
from index `i` on, each in its rectangle. treemap.cpp is not among the
sources. -/
def ComputeLayoutChildren (minArea : Int) (options : Options) :
    List Item → List (Option CRect) → Nat → List (List Nat × CRect)
  | [], _, _ => []
  | _ :: _, [], _ => []
  | _ :: children, none :: rects, i => ComputeLayoutChildren minArea options children rects (i + 1)
  | child :: children, some rc :: rects, i =>
    (ComputeLayout minArea options child rc).map (fun p => (i :: p.1, p.2)) ++
      ComputeLayoutChildren minArea options children rects (i + 1)

end

mutual

/-- Modelled from the spec: `FindItemAt(node, rect, options, point)` (section
4.4): no item for a point outside the rectangle; otherwise the "same
partition decisions" as the layout, descending "only into the single child
whose rectangle contains the point". The result is the path of the leaf.
treemap.cpp is not among the sources. -/
def FindItemAt (minArea : Int) (options : Options) (x y : Int) : Item → CRect → Option (List Nat)
  | Item.mk size isLeaf children, rect =>
    if ¬ rect.PtInRect x y then none
    else if rect.Width ≤ 0 ∨ rect.Height ≤ 0 ∨ rect.Area < minArea ∨ size = 0 then none
    else if isLeaf then some []
    else FindItemAtChildren minArea options x y children
      (LayoutChildren options rect (children.map Item.size)) 0

/-- Modelled from the spec: section 4.4, the search among the children from
index `i` on: the child whose rectangle contains the point is searched,
"short-circuiting siblings". treemap.cpp is not among the sources. -/
def FindItemAtChildren (minArea : Int) (options : Options) (x y : Int) :
    List Item → List (Option CRect) → Nat → Option (List Nat)
  | [], _, _ => none
  | _ :: _, [], _ => none
  | _ :: children, none :: rects, i =>
    FindItemAtChildren minArea options x y children rects (i + 1)
  | child :: children, some rc :: rects, i =>
    if rc.PtInRect x y then (FindItemAt minArea options x y child rc).map (fun p => i :: p)
    else FindItemAtChildren minArea options x y children rects (i + 1)

end

/-- Modelled from the spec: the "brute-force scan" of a layout "for the
rectangle containing p" (section 8): the path of the leaf of the first
rectangle that contains the point. -/
def ScanLayout (layout : List (List Nat × CRect)) (x y : Int) : Option (List Nat) :=
  (layout.find? (fun p => decide (p.2.PtInRect x y))).map Prod.fst

/-- A tree used to instantiate the theorems: a directory of size 100 with
files of sizes 60 and 10, an empty file, and a directory of size 30 that
holds two files of sizes 20 and 10. -/
def sampleTree : Item :=
  Item.mk 100 false
    [Item.mk 60 true [], Item.mk 0 true [],
     Item.mk 30 false [Item.mk 20 true [], Item.mk 10 true []],
     Item.mk 10 true []]

/-! ## Controls/pacman.cpp

The `double` values are read as exact rationals. -/

/-- `UPDATEINTERVAL`, in milliseconds. -/
def UPDATEINTERVAL : Nat := 40

/-- `MOUTHSPEED`, 0.0030 per millisecond. -/
def MOUTHSPEED : ℚ := 30 / 10000

/-- The variables of `CPacman::UpdatePosition`: the referenced `position` and
`up`, and what is left of `diff`. -/
structure PositionState where
  position : ℚ
  up : Bool
  diff : ℚ
deriving DecidableEq

/-- The assertions at the head of `CPacman::UpdatePosition`. -/
def UpdatePositionAsserts (s : PositionState) : Bool :=
  decide (s.diff ≥ 0) && decide (s.position ≥ 0) && decide (s.position ≤ 1)

/-- One pass through the body of the `while` loop of
`CPacman::UpdatePosition`. -/
def UpdatePositionBody (s : PositionState) : PositionState :=
  if s.up then
    if s.position + s.diff > 1 then
      { diff := s.position + s.diff - 1, position := 1, up := false }
    else
      { position := s.position + s.diff, diff := 0, up := s.up }
  else
    if s.position - s.diff < 0 then
      { diff := -(s.position - s.diff), position := 0, up := true }
    else
      { position := s.position - s.diff, diff := 0, up := s.up }

/-- The `while(diff > 0.0)` loop of `CPacman::UpdatePosition`, with at most
`fuel` passes through its body: the variables when the loop is left, `none`
when `fuel` passes do not suffice. -/
def UpdatePositionLoop : Nat → PositionState → Option PositionState
  | 0, s => if s.diff > 0 then none else some s
  | fuel + 1, s => if s.diff > 0 then UpdatePositionLoop fuel (UpdatePositionBody s) else some s

/-- The members of `CPacman` (the background colour apart, which the motion
does not use). -/
structure CPacman where
  m_speed : ℚ
  m_moving : Bool
  m_readJobs : ℚ
  m_toTheRight : Bool
  m_position : ℚ
  m_mouthOpening : Bool
  m_aperture : ℚ
  m_lastUpdate : Nat

/-- The difference `now - m_lastUpdate` of two `ULONGLONG` tick counts, taken
modulo `2 ^ 64`. -/
def tickDelta (now m_lastUpdate : Nat) : Nat := (now + 2 ^ 64 - m_lastUpdate % 2 ^ 64) % 2 ^ 64

/-- `CPacman::Drive`, `now` being the value of `_GetTickCount64()` and `fuel`
the bound on the passes of each loop of `UpdatePosition`: the new members and
the return value, `none` when `fuel` does not suffice. -/
def Drive (fuel : Nat) (p : CPacman) (readJobs : Nat) (now : Nat) : Option (CPacman × Bool) :=
  let p := { p with m_readJobs := (readJobs : ℚ) }
  if !p.m_moving then some (p, false)
  else
    let delta := tickDelta now p.m_lastUpdate
    if delta < UPDATEINTERVAL then some (p, false)
    else
      let p := { p with m_lastUpdate := now }
      match UpdatePositionLoop fuel
          { position := p.m_position, up := p.m_toTheRight, diff := p.m_speed * (delta : ℚ) } with
      | none => none
      | some s1 =>
        let p := { p with m_position := s1.position, m_toTheRight := s1.up }
        match UpdatePositionLoop fuel
            { position := p.m_aperture, up := p.m_mouthOpening,
              diff := MOUTHSPEED * (delta : ℚ) } with
        | none => none
        | some s2 =>
          some ({ p with m_aperture := s2.position, m_mouthOpening := s2.up }, true)

/-! ## The rows of the layout (specification, section 4.1)

The rows that the layout engine closes, each with the rectangles of its
members, as the tiling invariant of section 8 speaks of them. -/

/-- Modelled from the spec: the rows that section 4.1, step 3, closes, with the
same decisions as `Squarify`: each row with its rectangle (the strip cut from
the remaining rectangle, or all of the remaining rectangle for the last row)
and the rectangles that step 4 assigns to its members. treemap.cpp is not
among the sources. -/
def SquarifyRows : CRect → List Nat → List Nat → List (CRect × List CRect)
  | rem, row, [] => if row = [] then [] else [(rem, LayoutRow (rowHorizontal rem) rem row)]
  | rem, row, s :: rest =>
    let total := row.sum + (s :: rest).sum
    if row = [] ∨ ¬ (worstAspect rem total row < worstAspect rem total (row ++ [s])) then
      SquarifyRows rem (row ++ [s]) rest
    else
      (rowStrip rem total row.sum,
          LayoutRow (rowHorizontal rem) (rowStrip rem total row.sum) row) ::
        SquarifyRows (rowRemainder rem total row.sum) [s] rest

/-- Modelled from the spec: the rows among the children of a node, as
`LayoutChildren` forms them: each row with its rectangle and the rectangles
its members are given, which in grid mode are the assigned rectangles after
the shrinking of step 6. treemap.cpp is not among the sources. -/
def LayoutRows (options : Options) (rect : CRect) (sizes : List Nat) :
    List (CRect × List CRect) :=
  (SquarifyRows rect [] (sizes.filter (fun s => 0 < s))).map
    (fun p => (p.1, p.2.map (GridShrink options)))

/-- Modelled from the spec: the rows that `ComputeLayout(node, rect, options)`
produces at the node itself: none where `ComputeLayout` lays out nothing or the
node is a leaf, otherwise the rows among the children. The rows further down
are those of the children in their own rectangles. treemap.cpp is not among
the sources. -/
def NodeRows (minArea : Int) (options : Options) : Item → CRect → List (CRect × List CRect)
  | Item.mk size isLeaf children, rect =>
    if rect.Width ≤ 0 ∨ rect.Height ≤ 0 ∨ rect.Area < minArea ∨ size = 0 then []
    else if isLeaf then []
    else LayoutRows options rect (children.map Item.size)

/-- The node of the scenario of section 8: size 100 with children of sizes 60,
30 and 10. -/
def scenarioNode : Item :=
  Item.mk 100 false [Item.mk 60 true [], Item.mk 30 true [], Item.mk 10 true []]

/-! # Theorems -/

/-- C1. `checkRange` clamps and never rejects: for `min ≤ max` the result is
`min` when the value was below `min`, `max` when it was above `max`, the value
itself otherwise, and it always lies in `[min, max]`. -/
theorem checkRange_clamps (value min max : Int) (h : min ≤ max) :
    (value < min → checkRange value min max = min) ∧
    (max < value → checkRange value min max = max) ∧
    (min ≤ value → value ≤ max → checkRange value min max = value) ∧
    min ≤ checkRange value min max ∧ checkRange value min max ≤ max := by
  simp only [checkRange]
  refine ⟨?_, ?_, ?_, ?_, ?_⟩
  · intro hlt
    split_ifs <;> omega
  · intro hgt
    split_ifs <;> omega
  · intro h1 h2
    split_ifs <;> omega
  · split_ifs <;> omega
  · split_ifs <;> omega

theorem checkRange_clamps_witness :
    (-5 : Int) ≤ 7 ∧
    (((-9 : Int) < -5 → checkRange (-9) (-5) 7 = -5) ∧
    ((7 : Int) < -9 → checkRange (-9) (-5) 7 = 7) ∧
    ((-5 : Int) ≤ -9 → (-9 : Int) ≤ 7 → checkRange (-9) (-5) 7 = -9) ∧
    (-5 : Int) ≤ checkRange (-9) (-5) 7 ∧ checkRange (-9) (-5) 7 ≤ 7) :=
  ⟨by decide, checkRange_clamps (-9) (-5) 7 (by decide)⟩

/-! ## Shared lemmas -/

theorem checkRange_mem (value min max : Int) (h : min ≤ max) :
    min ≤ checkRange value min max ∧ checkRange value min max ≤ max := by
  simp only [checkRange]
  constructor <;> split_ifs <;> omega

theorem checkRange_id (value min max : Int) (h1 : min ≤ value) (h2 : value ≤ max) :
    checkRange value min max = value := by
  simp only [checkRange]
  split_ifs <;> omega

theorem getProfileInt_of_some (store : ProfileStore) (sect entry : String) (d x : Int)
    (h : store sect entry = some x) : getProfileInt store sect entry d = x := by
  simp [getProfileInt, h]

/-- The value of the double nearest to one tenth, the decimal
0.1000000000000000055511151231257827 of the IEEE 754 tables. -/
theorem toDouble_one_tenth :
    toDouble (1 / 10) = 3602879701896397 / 36028797018963968 := by
  decide!

/-- The product that a percent getter rounds is not exact: 29 hundredths as a
double, times 100, is a double below 29, whose integer part is 28. -/
theorem toDouble_percent_inexact :
    toDouble (toDouble (29 / 100) * 100) = 8162774324609023 / 281474976710656 ∧
    ⌊toDouble (toDouble (29 / 100) * 100)⌋ = 28 := by
  decide!

/-- The percent round trip on doubles, for each of the 401 percent values from
-200 to 200, by evaluation. -/
theorem roundPercent_table :
    ∀ k : Fin 401,
      roundPercent (toDouble (toDouble (((((k : Nat) : Int) - 200 : Int) : ℚ) / 100) * 100)) =
        ((k : Nat) : Int) - 200 := by
  decide!

/-- The percent round trip on doubles: a percent value from -200 to 200,
divided by 100, multiplied by 100 and rounded, is the value again. -/
theorem roundPercent_percent (n : Int) (h1 : -200 ≤ n) (h2 : n ≤ 200) :
    roundPercent (toDouble (toDouble ((n : ℚ) / 100) * 100)) = n := by
  have hk : (n + 200).toNat < 401 := by omega
  have h := roundPercent_table ⟨(n + 200).toNat, hk⟩
  have e : (((n + 200).toNat : Nat) : Int) - 200 = n := by omega
  simp only [e] at h
  exact h

/-- C2. Whatever the profile store holds and whatever the options object held
before: with `v` the validated locals of `ReadTreemapOptions` and `r` the
options it leaves behind, `r` is the old object with style, grid and grid
colour assigned and the six percent setters called with `v.brightness`, ...,
`v.lightSourceY`, in the order of the source; each of these six values lies in
its range (0..100 for brightness, height, scale factor and ambient light,
-200..200 for the light source); a stored value that is already in range is
handed on unchanged; and `r` reads back exactly these values. -/
theorem ReadTreemapOptions_percents_in_range (kDirStat sequoiaView : Int) (standard : Options)
    (store : ProfileStore) (m : Options) (v : TreemapLocals) (r : Options)
    (hv : v = ReadTreemapLocals kDirStat sequoiaView standard store)
    (hr : r = ReadTreemapOptions kDirStat sequoiaView standard store m) :
    r = (((((({ m with style := v.style, grid := v.grid, gridColor := toUInt32 v.gridColor } :
        Options).SetBrightnessPercent v.brightness).SetHeightPercent v.height
        ).SetScaleFactorPercent v.scaleFactor).SetAmbientLightPercent v.ambientLight
        ).SetLightSourceXPercent v.lightSourceX).SetLightSourceYPercent v.lightSourceY ∧
    ((0 ≤ v.brightness ∧ v.brightness ≤ 100) ∧
     (0 ≤ v.height ∧ v.height ≤ 100) ∧
     (0 ≤ v.scaleFactor ∧ v.scaleFactor ≤ 100) ∧
     (0 ≤ v.ambientLight ∧ v.ambientLight ≤ 100) ∧
     (-200 ≤ v.lightSourceX ∧ v.lightSourceX ≤ 200) ∧
     (-200 ≤ v.lightSourceY ∧ v.lightSourceY ≤ 200)) ∧
    (∀ x : Int,
      (store sectionOptions entryBrightness = some x → 0 ≤ x → x ≤ 100 →
        v.brightness = x ∧ r.GetBrightnessPercent = x) ∧
      (store sectionOptions entryHeightFactor = some x → 0 ≤ x → x ≤ 100 →
        v.height = x ∧ r.GetHeightPercent = x) ∧
      (store sectionOptions entryScaleFactor = some x → 0 ≤ x → x ≤ 100 →
        v.scaleFactor = x ∧ r.GetScaleFactorPercent = x) ∧
      (store sectionOptions entryAmbientLight = some x → 0 ≤ x → x ≤ 100 →
        v.ambientLight = x ∧ r.GetAmbientLightPercent = x) ∧
      (store sectionOptions entryLightSourceX = some x → -200 ≤ x → x ≤ 200 →
        v.lightSourceX = x ∧ r.GetLightSourceXPercent = x) ∧
      (store sectionOptions entryLightSourceY = some x → -200 ≤ x → x ≤ 200 →
        v.lightSourceY = x ∧ r.GetLightSourceYPercent = x)) ∧
    (r.GetBrightnessPercent = v.brightness ∧
     r.GetHeightPercent = v.height ∧
     r.GetScaleFactorPercent = v.scaleFactor ∧
     r.GetAmbientLightPercent = v.ambientLight ∧
     r.GetLightSourceXPercent = v.lightSourceX ∧
     r.GetLightSourceYPercent = v.lightSourceY) := by
  subst hv hr
  have r1 := checkRange_mem
    (getProfileInt store sectionOptions entryBrightness standard.GetBrightnessPercent) 0 100
    (by decide)
  have r2 := checkRange_mem
    (getProfileInt store sectionOptions entryHeightFactor standard.GetHeightPercent) 0 100
    (by decide)
  have r3 := checkRange_mem
    (getProfileInt store sectionOptions entryScaleFactor standard.GetScaleFactorPercent) 0 100
    (by decide)
  have r4 := checkRange_mem
    (getProfileInt store sectionOptions entryAmbientLight standard.GetAmbientLightPercent) 0 100
    (by decide)
  have r5 := checkRange_mem
    (getProfileInt store sectionOptions entryLightSourceX standard.GetLightSourceXPercent)
    (-200) 200 (by decide)
  have r6 := checkRange_mem
    (getProfileInt store sectionOptions entryLightSourceY standard.GetLightSourceYPercent)
    (-200) 200 (by decide)
  have g1 := roundPercent_percent _ (le_trans (by decide) r1.1) (le_trans r1.2 (by decide))
  have g2 := roundPercent_percent _ (le_trans (by decide) r2.1) (le_trans r2.2 (by decide))
  have g3 := roundPercent_percent _ (le_trans (by decide) r3.1) (le_trans r3.2 (by decide))
  have g4 := roundPercent_percent _ (le_trans (by decide) r4.1) (le_trans r4.2 (by decide))
  have g5 := roundPercent_percent _ r5.1 r5.2
  have g6 := roundPercent_percent _ r6.1 r6.2
  refine ⟨rfl, ⟨r1, r2, r3, r4, r5, r6⟩, fun x => ⟨?_, ?_, ?_, ?_, ?_, ?_⟩,
    ⟨g1, g2, g3, g4, g5, g6⟩⟩
  · intro hs h1 h2
    have u : (ReadTreemapLocals kDirStat sequoiaView standard store).brightness = x := by
      simp only [ReadTreemapLocals]
      rw [getProfileInt_of_some _ _ _ _ x hs]
      exact checkRange_id x _ _ h1 h2
    exact ⟨u, Eq.trans g1 u⟩
  · intro hs h1 h2
    have u : (ReadTreemapLocals kDirStat sequoiaView standard store).height = x := by
      simp only [ReadTreemapLocals]
      rw [getProfileInt_of_some _ _ _ _ x hs]
      exact checkRange_id x _ _ h1 h2
    exact ⟨u, Eq.trans g2 u⟩
  · intro hs h1 h2
    have u : (ReadTreemapLocals kDirStat sequoiaView standard store).scaleFactor = x := by
      simp only [ReadTreemapLocals]
      rw [getProfileInt_of_some _ _ _ _ x hs]
      exact checkRange_id x _ _ h1 h2
    exact ⟨u, Eq.trans g3 u⟩
  · intro hs h1 h2
    have u : (ReadTreemapLocals kDirStat sequoiaView standard store).ambientLight = x := by
      simp only [ReadTreemapLocals]
      rw [getProfileInt_of_some _ _ _ _ x hs]
      exact checkRange_id x _ _ h1 h2
    exact ⟨u, Eq.trans g4 u⟩
  · intro hs h1 h2
    have u : (ReadTreemapLocals kDirStat sequoiaView standard store).lightSourceX = x := by
      simp only [ReadTreemapLocals]
      rw [getProfileInt_of_some _ _ _ _ x hs]
      exact checkRange_id x _ _ h1 h2
    exact ⟨u, Eq.trans g5 u⟩
  · intro hs h1 h2
    have u : (ReadTreemapLocals kDirStat sequoiaView standard store).lightSourceY = x := by
      simp only [ReadTreemapLocals]
      rw [getProfileInt_of_some _ _ _ _ x hs]
      exact checkRange_id x _ _ h1 h2
    exact ⟨u, Eq.trans g6 u⟩

/-- C2, instantiated at `sampleStore` and an options object that held other
values: the stored brightness 250 reaches the setter as 100 and is read back
as 100, the stored light source abscissa -1000 as -200, the stored height 40
as it is. -/
theorem ReadTreemapOptions_percents_in_range_witness :
    (ReadTreemapLocals 0 1 sampleOptions sampleStore).brightness = 100 ∧
    (ReadTreemapOptions 0 1 sampleOptions sampleStore sampleOptions).GetBrightnessPercent = 100 ∧
    (ReadTreemapOptions 0 1 sampleOptions sampleStore sampleOptions).GetLightSourceXPercent
      = -200 ∧
    (sampleStore sectionOptions entryHeightFactor = some 40 ∧
      (ReadTreemapOptions 0 1 sampleOptions sampleStore sampleOptions).GetHeightPercent = 40) ∧
    (0 ≤ (ReadTreemapOptions 0 1 sampleOptions sampleStore sampleOptions).GetAmbientLightPercent ∧
      (ReadTreemapOptions 0 1 sampleOptions sampleStore sampleOptions).GetAmbientLightPercent
        ≤ 100) := by
  have h := ReadTreemapOptions_percents_in_range 0 1 sampleOptions sampleStore sampleOptions
    _ _ rfl rfl
  have hs : sampleStore sectionOptions entryHeightFactor = some 40 := by decide
  have hb : (ReadTreemapLocals 0 1 sampleOptions sampleStore).brightness = 100 := by decide
  have hx : (ReadTreemapLocals 0 1 sampleOptions sampleStore).lightSourceX = -200 := by decide
  refine ⟨hb, h.2.2.2.1.trans hb, h.2.2.2.2.2.2.2.1.trans hx,
    ⟨hs, ((h.2.2.1 40).2.1 hs (by decide) (by decide)).2⟩, ?_⟩
  rw [h.2.2.2.2.2.2.1]
  exact h.2.1.2.2.2.1

/-- C3. The style that `ReadTreemapOptions` puts into the treemap options is
always one of the two styles; a stored value equal to one of them is kept and
every other stored value yields `KDirStatStyle`. -/
theorem ReadTreemapOptions_style (kDirStat sequoiaView : Int) (standard : Options)
    (store : ProfileStore) (m : Options) (x : Int)
    (hx : store sectionOptions entryTreemapStyle = some x) :
    ((ReadTreemapOptions kDirStat sequoiaView standard store m).style = kDirStat ∨
      (ReadTreemapOptions kDirStat sequoiaView standard store m).style = sequoiaView) ∧
    (x = kDirStat ∨ x = sequoiaView →
      (ReadTreemapOptions kDirStat sequoiaView standard store m).style = x) ∧
    (x ≠ kDirStat ∧ x ≠ sequoiaView →
      (ReadTreemapOptions kDirStat sequoiaView standard store m).style = kDirStat) := by
  have hs : (ReadTreemapOptions kDirStat sequoiaView standard store m).style =
      if x ≠ kDirStat ∧ x ≠ sequoiaView then kDirStat else x := by
    simp only [ReadTreemapOptions, ReadTreemapLocals, Options.SetBrightnessPercent,
      Options.SetHeightPercent, Options.SetScaleFactorPercent, Options.SetAmbientLightPercent,
      Options.SetLightSourceXPercent, Options.SetLightSourceYPercent]
    rw [getProfileInt_of_some _ _ _ _ x hx]
  rw [hs]
  refine ⟨?_, ?_, ?_⟩
  · split_ifs with h
    · exact Or.inl rfl
    · by_cases h1 : x = kDirStat
      · exact Or.inl h1
      · right
        by_contra h2
        exact h ⟨h1, h2⟩
  · intro h
    rw [if_neg]
    rintro ⟨h1, h2⟩
    rcases h with h | h
    · exact h1 h
    · exact h2 h
  · intro h
    rw [if_pos h]

/-- C3, instantiated at `sampleStore`, where the stored style is 7: the style
read is `KDirStatStyle` (here 0). -/
theorem ReadTreemapOptions_style_witness :
    sampleStore sectionOptions entryTreemapStyle = some 7 ∧
    (ReadTreemapOptions 0 1 sampleOptions sampleStore sampleOptions).style = 0 :=
  ⟨by decide,
   (ReadTreemapOptions_style 0 1 sampleOptions sampleStore sampleOptions 7 (by decide)).2.2
     ⟨by decide, by decide⟩⟩

/-- C6. Percent round-trip on the `double` fractions: for every integer `p` in
0..100, setting the brightness percent to `p` (stored as the double nearest to
`p / 100`) and reading it back yields exactly `p`; likewise for height, scale
factor and ambient light; and for every integer `q` in -200..200 likewise for
the two light source coordinates. -/
theorem percent_roundtrip (o : Options) (p q : Int) (hp : 0 ≤ p ∧ p ≤ 100)
    (hq : -200 ≤ q ∧ q ≤ 200) :
    (o.SetBrightnessPercent p).GetBrightnessPercent = p ∧
    (o.SetHeightPercent p).GetHeightPercent = p ∧
    (o.SetScaleFactorPercent p).GetScaleFactorPercent = p ∧
    (o.SetAmbientLightPercent p).GetAmbientLightPercent = p ∧
    (o.SetLightSourceXPercent q).GetLightSourceXPercent = q ∧
    (o.SetLightSourceYPercent q).GetLightSourceYPercent = q := by
  have h1 := roundPercent_percent p (by omega) (by omega)
  have h2 := roundPercent_percent q hq.1 hq.2
  exact ⟨h1, h1, h1, h1, h2, h2⟩

/-- C6 at the value of the specification, brightness 37, and at a light source
abscissa of -150. -/
theorem percent_roundtrip_witness :
    (sampleOptions.SetBrightnessPercent 37).GetBrightnessPercent = 37 ∧
    (sampleOptions.SetLightSourceXPercent (-150)).GetLightSourceXPercent = -150 :=
  ⟨(percent_roundtrip sampleOptions 37 (-150) (by decide) (by decide)).1,
   (percent_roundtrip sampleOptions 37 (-150) (by decide) (by decide)).2.2.2.2.1⟩

theorem toUInt32_toInt32 (n : Nat) (h : n < 2 ^ 32) : toUInt32 (toInt32 n) = n := by
  unfold toUInt32 toInt32
  have hm : n % 2 ^ 32 = n := Nat.mod_eq_of_lt h
  rw [hm]
  split_ifs with h1
  · have e : ((n : Int) % 2 ^ 32) = n := by omega
    rw [e]; simp
  · have e : (((n : Int) - 2 ^ 32) % 2 ^ 32) = n := by omega
    rw [e]; simp

/-- What `SaveTreemapOptions` leaves in the store under each entry it
writes. -/
theorem SaveTreemapOptions_entries (store : ProfileStore) (o : Options) :
    SaveTreemapOptions store o sectionOptions entryTreemapStyle = some o.style ∧
    SaveTreemapOptions store o sectionOptions entryTreemapGridColor = some (toInt32 o.gridColor) ∧
    SaveTreemapOptions store o sectionOptions entryBrightness = some o.GetBrightnessPercent ∧
    SaveTreemapOptions store o sectionOptions entryHeightFactor = some o.GetHeightPercent ∧
    SaveTreemapOptions store o sectionOptions entryScaleFactor = some o.GetScaleFactorPercent ∧
    SaveTreemapOptions store o sectionOptions entryAmbientLight = some o.GetAmbientLightPercent ∧
    SaveTreemapOptions store o sectionOptions entryLightSourceX = some o.GetLightSourceXPercent ∧
    SaveTreemapOptions store o sectionOptions entryLightSourceY = some o.GetLightSourceYPercent := by
  simp [SaveTreemapOptions, setProfileInt, sectionOptions, entryTreemapStyle,
    entryTreemapGridColor, entryBrightness, entryHeightFactor, entryScaleFactor,
    entryAmbientLight, entryLightSourceX, entryLightSourceY]

/-- `SaveTreemapOptions` leaves the grid entry as it was. -/
theorem SaveTreemapOptions_grid_entry (store : ProfileStore) (o : Options) :
    SaveTreemapOptions store o sectionOptions entryTreemapGrid =
      store sectionOptions entryTreemapGrid := by
  simp [SaveTreemapOptions, setProfileInt, sectionOptions, entryTreemapStyle, entryTreemapGrid,
    entryTreemapGridColor, entryBrightness, entryHeightFactor, entryScaleFactor,
    entryAmbientLight, entryLightSourceX, entryLightSourceY]

/-- C7. For treemap options whose style is one of the two styles and whose
six percent knobs read back within their ranges, `SaveTreemapOptions`
followed by `ReadTreemapOptions` reproduces the style, the grid colour and the
six percent values, whatever the store held before and whatever the options
object held before the read. -/
theorem Save_Read_TreemapOptions (kDirStat sequoiaView : Int) (standard : Options)
    (store : ProfileStore) (o m : Options)
    (hstyle : o.style = kDirStat ∨ o.style = sequoiaView)
    (hcolor : o.gridColor < 2 ^ 32)
    (hb : 0 ≤ o.GetBrightnessPercent ∧ o.GetBrightnessPercent ≤ 100)
    (hh : 0 ≤ o.GetHeightPercent ∧ o.GetHeightPercent ≤ 100)
    (hs : 0 ≤ o.GetScaleFactorPercent ∧ o.GetScaleFactorPercent ≤ 100)
    (ha : 0 ≤ o.GetAmbientLightPercent ∧ o.GetAmbientLightPercent ≤ 100)
    (hx : -200 ≤ o.GetLightSourceXPercent ∧ o.GetLightSourceXPercent ≤ 200)
    (hy : -200 ≤ o.GetLightSourceYPercent ∧ o.GetLightSourceYPercent ≤ 200) :
    (ReadTreemapOptions kDirStat sequoiaView standard (SaveTreemapOptions store o) m).style
      = o.style ∧
    (ReadTreemapOptions kDirStat sequoiaView standard (SaveTreemapOptions store o) m).gridColor
      = o.gridColor ∧
    (ReadTreemapOptions kDirStat sequoiaView standard
      (SaveTreemapOptions store o) m).GetBrightnessPercent = o.GetBrightnessPercent ∧
    (ReadTreemapOptions kDirStat sequoiaView standard
      (SaveTreemapOptions store o) m).GetHeightPercent = o.GetHeightPercent ∧
    (ReadTreemapOptions kDirStat sequoiaView standard
      (SaveTreemapOptions store o) m).GetScaleFactorPercent = o.GetScaleFactorPercent ∧
    (ReadTreemapOptions kDirStat sequoiaView standard
      (SaveTreemapOptions store o) m).GetAmbientLightPercent = o.GetAmbientLightPercent ∧
    (ReadTreemapOptions kDirStat sequoiaView standard
      (SaveTreemapOptions store o) m).GetLightSourceXPercent = o.GetLightSourceXPercent ∧
    (ReadTreemapOptions kDirStat sequoiaView standard
      (SaveTreemapOptions store o) m).GetLightSourceYPercent = o.GetLightSourceYPercent := by
  obtain ⟨e1, e2, e3, e4, e5, e6, e7, e8⟩ := SaveTreemapOptions_entries store o
  refine ⟨?_, ?_, ?_, ?_, ?_, ?_, ?_, ?_⟩
  · simp only [ReadTreemapOptions, ReadTreemapLocals, Options.SetBrightnessPercent,
      Options.SetHeightPercent, Options.SetScaleFactorPercent, Options.SetAmbientLightPercent,
      Options.SetLightSourceXPercent, Options.SetLightSourceYPercent]
    rw [getProfileInt_of_some _ _ _ _ _ e1, if_neg]
    rintro ⟨h1, h2⟩
    rcases hstyle with h | h
    · exact h1 h
    · exact h2 h
  · simp only [ReadTreemapOptions, ReadTreemapLocals, Options.SetBrightnessPercent,
      Options.SetHeightPercent, Options.SetScaleFactorPercent, Options.SetAmbientLightPercent,
      Options.SetLightSourceXPercent, Options.SetLightSourceYPercent]
    rw [getProfileInt_of_some _ _ _ _ _ e2]
    exact toUInt32_toInt32 _ hcolor
  · simp only [ReadTreemapOptions, ReadTreemapLocals, Options.SetBrightnessPercent,
      Options.SetHeightPercent, Options.SetScaleFactorPercent, Options.SetAmbientLightPercent,
      Options.SetLightSourceXPercent, Options.SetLightSourceYPercent]
    rw [getProfileInt_of_some _ _ _ _ _ e3, checkRange_id _ _ _ hb.1 hb.2]
    exact roundPercent_percent _ (by omega) (by omega)
  · simp only [ReadTreemapOptions, ReadTreemapLocals, Options.SetBrightnessPercent,
      Options.SetHeightPercent, Options.SetScaleFactorPercent, Options.SetAmbientLightPercent,
      Options.SetLightSourceXPercent, Options.SetLightSourceYPercent]
    rw [getProfileInt_of_some _ _ _ _ _ e4, checkRange_id _ _ _ hh.1 hh.2]
    exact roundPercent_percent _ (by omega) (by omega)
  · simp only [ReadTreemapOptions, ReadTreemapLocals, Options.SetBrightnessPercent,
      Options.SetHeightPercent, Options.SetScaleFactorPercent, Options.SetAmbientLightPercent,
      Options.SetLightSourceXPercent, Options.SetLightSourceYPercent]
    rw [getProfileInt_of_some _ _ _ _ _ e5, checkRange_id _ _ _ hs.1 hs.2]
    exact roundPercent_percent _ (by omega) (by omega)
  · simp only [ReadTreemapOptions, ReadTreemapLocals, Options.SetBrightnessPercent,
      Options.SetHeightPercent, Options.SetScaleFactorPercent, Options.SetAmbientLightPercent,
      Options.SetLightSourceXPercent, Options.SetLightSourceYPercent]
    rw [getProfileInt_of_some _ _ _ _ _ e6, checkRange_id _ _ _ ha.1 ha.2]
    exact roundPercent_percent _ (by omega) (by omega)
  · simp only [ReadTreemapOptions, ReadTreemapLocals, Options.SetBrightnessPercent,
      Options.SetHeightPercent, Options.SetScaleFactorPercent, Options.SetAmbientLightPercent,
      Options.SetLightSourceXPercent, Options.SetLightSourceYPercent]
    rw [getProfileInt_of_some _ _ _ _ _ e7, checkRange_id _ _ _ hx.1 hx.2]
    exact roundPercent_percent _ hx.1 hx.2
  · simp only [ReadTreemapOptions, ReadTreemapLocals, Options.SetBrightnessPercent,
      Options.SetHeightPercent, Options.SetScaleFactorPercent, Options.SetAmbientLightPercent,
      Options.SetLightSourceXPercent, Options.SetLightSourceYPercent]
    rw [getProfileInt_of_some _ _ _ _ _ e8, checkRange_id _ _ _ hy.1 hy.2]
    exact roundPercent_percent _ hy.1 hy.2

/-- The six percent values of `sampleOptions`. -/
theorem sampleOptions_percents :
    sampleOptions.GetBrightnessPercent = 88 ∧ sampleOptions.GetHeightPercent = 38 ∧
    sampleOptions.GetScaleFactorPercent = 91 ∧ sampleOptions.GetAmbientLightPercent = 13 ∧
    sampleOptions.GetLightSourceXPercent = -100 ∧ sampleOptions.GetLightSourceYPercent = -100 := by
  decide!


/-- C7 at `sampleOptions`, saved over `sampleStore` and read back into an
options object that held other values. -/
theorem Save_Read_TreemapOptions_witness :
    (ReadTreemapOptions 0 1 sampleOptions (SaveTreemapOptions sampleStore sampleOptions)
      (sampleOptions.SetBrightnessPercent 5)).style = sampleOptions.style ∧
    (ReadTreemapOptions 0 1 sampleOptions (SaveTreemapOptions sampleStore sampleOptions)
      (sampleOptions.SetBrightnessPercent 5)).gridColor = sampleOptions.gridColor ∧
    (ReadTreemapOptions 0 1 sampleOptions (SaveTreemapOptions sampleStore sampleOptions)
      (sampleOptions.SetBrightnessPercent 5)).GetBrightnessPercent = 88 := by
  obtain ⟨p1, p2, p3, p4, p5, p6⟩ := sampleOptions_percents
  have h := Save_Read_TreemapOptions 0 1 sampleOptions sampleStore sampleOptions
    (sampleOptions.SetBrightnessPercent 5) (Or.inl rfl) (by decide)
    (by rw [p1]; decide) (by rw [p2]; decide) (by rw [p3]; decide) (by rw [p4]; decide)
    (by rw [p5]; decide) (by rw [p6]; decide)
  exact ⟨h.1, h.2.1, h.2.2.1.trans p1⟩

/-- After `SaveTreemapOptions`, `ReadTreemapOptions` finds the grid flag that
the store held before the save (or the default), not the one saved. -/
theorem Save_Read_TreemapOptions_grid (kDirStat sequoiaView : Int) (standard : Options)
    (store : ProfileStore) (o m : Options) :
    (ReadTreemapOptions kDirStat sequoiaView standard (SaveTreemapOptions store o) m).grid =
      getProfileBool store sectionOptions entryTreemapGrid standard.grid := by
  simp only [ReadTreemapOptions, ReadTreemapLocals, Options.SetBrightnessPercent,
    Options.SetHeightPercent, Options.SetScaleFactorPercent, Options.SetAmbientLightPercent,
    Options.SetLightSourceXPercent, Options.SetLightSourceYPercent, getProfileBool,
    getProfileInt, SaveTreemapOptions_grid_entry]

/-- C8 (the code departs from the claim). Saving treemap options whose grid
flag is set over `sampleStore`, where the grid entry is 0, and reading them
back yields a cleared grid flag: `SaveTreemapOptions` calls `getProfileBool`
where `setProfileBool` was meant, so the flag is never written. With
`setProfileBool` in its place the flag does come back. -/
theorem SaveTreemapOptions_grid_lost :
    ({ sampleOptions with grid := true } : Options).grid = true ∧
    (ReadTreemapOptions 0 1 sampleOptions
      (SaveTreemapOptions sampleStore { sampleOptions with grid := true })
      sampleOptions).grid = false ∧
    (ReadTreemapOptions 0 1 sampleOptions
      (setProfileBool (SaveTreemapOptions sampleStore { sampleOptions with grid := true })
        sectionOptions entryTreemapGrid true)
      sampleOptions).grid = true := by
  refine ⟨rfl, ?_, ?_⟩
  · rw [Save_Read_TreemapOptions_grid]
    decide
  · simp [ReadTreemapOptions, ReadTreemapLocals, Options.SetBrightnessPercent,
      Options.SetHeightPercent, Options.SetScaleFactorPercent, Options.SetAmbientLightPercent,
      Options.SetLightSourceXPercent, Options.SetLightSourceYPercent, getProfileBool,
      getProfileInt, setProfileBool, setProfileInt, boolToInt]


/-! ## Extension colours -/

theorem Lookup_setColor_same (m : CExtensionData) (k : String) (c : Nat) (r : SExtensionRecord)
    (h : Lookup m k = some r) : Lookup (setColor m k c) k = some { r with color := c } := by
  induction m with
  | nil => simp [Lookup] at h
  | cons p rest ih =>
    obtain ⟨k0, r0⟩ := p
    by_cases hk : k0 = k
    · simp only [Lookup, hk, if_true] at h
      simp only [setColor, hk, if_true, Lookup]
      cases h
      rfl
    · simp only [Lookup, hk, if_false] at h
      simp only [setColor, hk, if_false, Lookup]
      exact ih h

theorem Lookup_setColor_ne (m : CExtensionData) (k k1 : String) (c : Nat) (h : k1 ≠ k) :
    Lookup (setColor m k c) k1 = Lookup m k1 := by
  induction m with
  | nil =>
    have h2 : ¬ k = k1 := fun e => h e.symm
    simp [setColor, Lookup, h2]
  | cons p rest ih =>
    obtain ⟨k0, r0⟩ := p
    by_cases hk : k0 = k
    · have h2 : ¬ k = k1 := fun e => h e.symm
      simp [setColor, hk, Lookup, h2]
    · simp only [setColor, hk, if_false, Lookup]
      rw [ih]

theorem setColor_counts (m : CExtensionData) (k : String) (c : Nat)
    (h : (Lookup m k).isSome = true) :
    (setColor m k c).map (fun p => (p.1, p.2.files, p.2.bytes)) =
      m.map (fun p => (p.1, p.2.files, p.2.bytes)) := by
  induction m with
  | nil => simp [Lookup] at h
  | cons p rest ih =>
    obtain ⟨k0, r0⟩ := p
    by_cases hk : k0 = k
    · simp [setColor, hk]
    · simp only [Lookup, hk, if_false] at h
      simp only [setColor, hk, if_false, List.map_cons, ih h]

theorem SetExtensionColorsLoop_spec (colors : List Nat) (hn : 1 ≤ colors.length) :
    ∀ (l : List String) (i : Nat) (m : CExtensionData), l.Nodup →
      (∀ e ∈ l, (Lookup m e).isSome = true) →
      ∃ m1, SetExtensionColorsLoop colors i l m = some m1 ∧
        m1.map (fun p => (p.1, p.2.files, p.2.bytes)) =
          m.map (fun p => (p.1, p.2.files, p.2.bytes)) ∧
        (∀ k, k ∉ l → Lookup m1 k = Lookup m k) ∧
        ∀ j (hj : j < l.length), ∃ r, Lookup m1 l[j] = some r ∧
          (i + j < colors.length → colors[i + j]? = some r.color) ∧
          (colors.length ≤ i + j → colors[colors.length - 1]? = some r.color) := by
  intro l
  induction l with
  | nil =>
    intro i m _ _
    exact ⟨m, rfl, rfl, fun _ _ => rfl, fun j hj => absurd hj (Nat.not_lt_zero j)⟩
  | cons ext rest ih =>
    intro i m hd hp
    have hlast : colors.length - 1 < colors.length := by omega
    obtain ⟨hext, hrest⟩ := List.nodup_cons.mp hd
    -- the colour chosen at position `i`
    obtain ⟨c, hc, hc1, hc2⟩ : ∃ c,
        (if i < colors.length then colors[i]? else some colors[colors.length - 1]) = some c ∧
        (i < colors.length → colors[i]? = some c) ∧
        (colors.length ≤ i → colors[colors.length - 1]? = some c) := by
      by_cases hi : i < colors.length
      · refine ⟨colors[i], ?_, ?_, ?_⟩
        · simp [hi]
        · intro _; simp [hi]
        · intro h; omega
      · refine ⟨colors[colors.length - 1], ?_, ?_, ?_⟩
        · simp [hi]
        · intro h; exact absurd h hi
        · intro _; simp [hlast]
    obtain ⟨r0, hr0⟩ := Option.isSome_iff_exists.mp (hp ext (List.mem_cons_self _ _))
    have hp1 : ∀ e ∈ rest, (Lookup (setColor m ext c) e).isSome = true := by
      intro e he
      have hne : e ≠ ext := fun h => hext (h ▸ he)
      rw [Lookup_setColor_ne m ext e c hne]
      exact hp e (List.mem_cons_of_mem _ he)
    obtain ⟨m1, h1, h2, h3, h4⟩ := ih (i + 1) (setColor m ext c) hrest hp1
    refine ⟨m1, ?_, ?_, ?_, ?_⟩
    · simp only [SetExtensionColorsLoop]
      rw [List.getElem?_eq_getElem hlast]
      simp only [hc]
      exact h1
    · rw [h2]
      exact setColor_counts m ext c (hp ext (List.mem_cons_self _ _))
    · intro k hk
      have hk1 : k ≠ ext := fun h => hk (h ▸ List.mem_cons_self _ _)
      have hk2 : k ∉ rest := fun h => hk (List.mem_cons_of_mem _ h)
      rw [h3 k hk2, Lookup_setColor_ne m ext k c hk1]
    · intro j hj
      cases j with
      | zero =>
        refine ⟨{ r0 with color := c }, ?_, ?_, ?_⟩
        · simp only [List.getElem_cons_zero]
          rw [h3 ext hext]
          exact Lookup_setColor_same m ext c r0 hr0
        · intro h; exact hc1 h
        · intro h; exact hc2 h
      | succ j =>
        have hj1 : j < rest.length := by simpa using hj
        obtain ⟨r, e1, e2, e3⟩ := h4 j hj1
        refine ⟨r, ?_, ?_, ?_⟩
        · simpa using e1
        · intro h
          have e : i + (j + 1) = i + 1 + j := by omega
          rw [e]; exact e2 (by omega)
        · intro h
          exact e3 (by omega)

/-- C4. For a list of distinct extensions that are all in the extension map
and a palette of `n ≥ 1` colours, `SetExtensionColors` succeeds and gives the
extension at position `i` the colour `palette[i]` when `i < n` and the last
colour `palette[n - 1]` when `i ≥ n`; the keys, file counts and byte counts of
the map stay as they were, and so do the records of the extensions that are
not in the list. -/
theorem SetExtensionColors_assigns (colors : List Nat) (sortedExtensions : List String)
    (m : CExtensionData) (hn : 1 ≤ colors.length) (hd : sortedExtensions.Nodup)
    (hp : ∀ e ∈ sortedExtensions, (Lookup m e).isSome = true) :
    ∃ m1, SetExtensionColors colors sortedExtensions m = some m1 ∧
      (∀ i (hi : i < sortedExtensions.length), ∃ r, Lookup m1 sortedExtensions[i] = some r ∧
        (i < colors.length → colors[i]? = some r.color) ∧
        (colors.length ≤ i → colors[colors.length - 1]? = some r.color)) ∧
      m1.map (fun p => (p.1, p.2.files, p.2.bytes)) =
        m.map (fun p => (p.1, p.2.files, p.2.bytes)) ∧
      (∀ k, k ∉ sortedExtensions → Lookup m1 k = Lookup m k) := by
  obtain ⟨m1, h1, h2, h3, h4⟩ :=
    SetExtensionColorsLoop_spec colors hn sortedExtensions 0 m hd hp
  refine ⟨m1, h1, ?_, h2, h3⟩
  intro i hi
  obtain ⟨r, e1, e2, e3⟩ := h4 i hi
  exact ⟨r, e1, fun h => by simpa using e2 (by omega), fun h => e3 (by omega)⟩

/-- C4 at `sampleExtensionData` with a palette of two colours and three of
the four extensions. -/
theorem SetExtensionColors_assigns_witness :
    ∃ m1, SetExtensionColors [10, 20] [".exe", ".jpg", ".txt"] sampleExtensionData = some m1 ∧
      (∀ i (hi : i < [".exe", ".jpg", ".txt"].length),
        ∃ r, Lookup m1 ([".exe", ".jpg", ".txt"][i]) = some r ∧
        (i < [10, 20].length → [10, 20][i]? = some r.color) ∧
        ([10, 20].length ≤ i → [10, 20][[10, 20].length - 1]? = some r.color)) ∧
      m1.map (fun p => (p.1, p.2.files, p.2.bytes)) =
        sampleExtensionData.map (fun p => (p.1, p.2.files, p.2.bytes)) ∧
      (∀ k, k ∉ [".exe", ".jpg", ".txt"] → Lookup m1 k = Lookup sampleExtensionData k) :=
  SetExtensionColors_assigns [10, 20] [".exe", ".jpg", ".txt"] sampleExtensionData
    (by decide) (by decide) (by decide)


/-! ## Sorting the extensions -/

theorem usignum_nonpos_iff (x y : Nat) : usignum x y ≤ 0 ↔ x ≤ y := by
  unfold usignum
  split_ifs with h1 h2
  · simp; omega
  · simp; omega
  · simp; omega

theorem qsortInsert_perm (compare : String → String → Int) (a : String) (l : List String) :
    (qsortInsert compare a l).Perm (a :: l) := by
  induction l with
  | nil => exact List.Perm.refl _
  | cons b l ih =>
    simp only [qsortInsert]
    split_ifs
    · exact List.Perm.refl _
    · exact (List.Perm.cons b ih).trans (List.Perm.swap a b l)

theorem qsort_perm (compare : String → String → Int) (l : List String) :
    (qsort compare l).Perm l := by
  induction l with
  | nil => exact List.Perm.refl _
  | cons a l ih =>
    simp only [qsort]
    exact (qsortInsert_perm compare a _).trans (List.Perm.cons a ih)

theorem qsortInsert_pairwise (compare : String → String → Int)
    (htotal : ∀ a b, compare a b ≤ 0 ∨ compare b a ≤ 0)
    (htrans : ∀ a b c, compare a b ≤ 0 → compare b c ≤ 0 → compare a c ≤ 0)
    (a : String) (l : List String) (hl : l.Pairwise (fun x y => compare x y ≤ 0)) :
    (qsortInsert compare a l).Pairwise (fun x y => compare x y ≤ 0) := by
  induction l with
  | nil => simp [qsortInsert]
  | cons b l ih =>
    obtain ⟨hb, hl1⟩ := List.pairwise_cons.mp hl
    simp only [qsortInsert]
    split_ifs with h
    · refine List.pairwise_cons.mpr ⟨?_, hl⟩
      intro x hx
      rcases List.mem_cons.mp hx with hx | hx
      · rw [hx]; exact h
      · exact htrans a b x h (hb x hx)
    · refine List.pairwise_cons.mpr ⟨?_, ih hl1⟩
      intro x hx
      have hx1 : x ∈ a :: l := (qsortInsert_perm compare a l).mem_iff.mp hx
      rcases List.mem_cons.mp hx1 with hx2 | hx2
      · rw [hx2]
        rcases htotal a b with h3 | h3
        · exact absurd h3 h
        · exact h3
      · exact hb x hx2

theorem qsort_pairwise (compare : String → String → Int)
    (htotal : ∀ a b, compare a b ≤ 0 ∨ compare b a ≤ 0)
    (htrans : ∀ a b c, compare a b ≤ 0 → compare b c ≤ 0 → compare a c ≤ 0)
    (l : List String) : (qsort compare l).Pairwise (fun x y => compare x y ≤ 0) := by
  induction l with
  | nil => simp [qsort]
  | cons a l ih =>
    simp only [qsort]
    exact qsortInsert_pairwise compare htotal htrans a _ ih

theorem Lookup_isSome_of_mem (m : CExtensionData) (k : String) (h : k ∈ m.map Prod.fst) :
    (Lookup m k).isSome = true := by
  induction m with
  | nil => simp at h
  | cons p rest ih =>
    obtain ⟨k0, r0⟩ := p
    by_cases hk : k0 = k
    · simp [Lookup, hk]
    · simp only [Lookup, hk, if_false]
      apply ih
      simp only [List.map_cons, List.mem_cons] at h
      rcases h with h | h
      · exact absurd h.symm hk
      · exact h

theorem mem_of_Lookup_isSome (m : CExtensionData) (k : String)
    (h : (Lookup m k).isSome = true) : k ∈ m.map Prod.fst := by
  induction m with
  | nil => simp [Lookup] at h
  | cons p rest ih =>
    obtain ⟨k0, r0⟩ := p
    by_cases hk : k0 = k
    · simp [hk]
    · simp only [Lookup, hk, if_false] at h
      simp only [List.map_cons, List.mem_cons]
      exact Or.inr (ih h)

theorem _compareExtensions_nonpos_iff (m : CExtensionData) (a b : String) :
    _compareExtensions m a b ≤ 0 ↔
      ((Lookup m b).getD { files := 0, bytes := 0, color := 0 }).bytes ≤
        ((Lookup m a).getD { files := 0, bytes := 0, color := 0 }).bytes := by
  simp only [_compareExtensions]
  exact usignum_nonpos_iff _ _

/-- C5. The array produced by `SortExtensionData` is a permutation of the
keys of the extension map, holds every key of the map exactly once, and is
ordered by descending byte count: for positions `i < j` both extensions are
found in the map, `_compareExtensions` does not put the later one first, and
`bytes(sorted[i]) ≥ bytes(sorted[j])`. -/
theorem SortExtensionData_sorted (m : CExtensionData) (hkeys : (m.map Prod.fst).Nodup) :
    (SortExtensionData m).Perm (m.map Prod.fst) ∧
    (∀ k, (Lookup m k).isSome = true → (SortExtensionData m).count k = 1) ∧
    ∀ i j (hij : i < j) (hj : j < (SortExtensionData m).length),
      ∃ ri rj, Lookup m ((SortExtensionData m)[i]) = some ri ∧
        Lookup m ((SortExtensionData m)[j]) = some rj ∧
        _compareExtensions m ((SortExtensionData m)[i]) ((SortExtensionData m)[j]) ≤ 0 ∧
        rj.bytes ≤ ri.bytes := by
  have hperm : (SortExtensionData m).Perm (m.map Prod.fst) := qsort_perm _ _
  have hsorted : (SortExtensionData m).Pairwise
      (fun x y => _compareExtensions m x y ≤ 0) := by
    apply qsort_pairwise
    · intro a b
      rw [_compareExtensions_nonpos_iff, _compareExtensions_nonpos_iff]
      omega
    · intro a b c
      rw [_compareExtensions_nonpos_iff, _compareExtensions_nonpos_iff,
        _compareExtensions_nonpos_iff]
      omega
  refine ⟨hperm, ?_, ?_⟩
  · intro k hk
    rw [hperm.count_eq]
    exact List.count_eq_one_of_mem hkeys (mem_of_Lookup_isSome m k hk)
  · intro i j hij hj
    have hi : i < (SortExtensionData m).length := by omega
    have hc := (List.pairwise_iff_getElem.mp hsorted) i j hi hj hij
    have hmi : (SortExtensionData m)[i] ∈ m.map Prod.fst :=
      hperm.mem_iff.mp (List.getElem_mem _)
    have hmj : (SortExtensionData m)[j] ∈ m.map Prod.fst :=
      hperm.mem_iff.mp (List.getElem_mem _)
    obtain ⟨ri, hri⟩ := Option.isSome_iff_exists.mp (Lookup_isSome_of_mem m _ hmi)
    obtain ⟨rj, hrj⟩ := Option.isSome_iff_exists.mp (Lookup_isSome_of_mem m _ hmj)
    refine ⟨ri, rj, hri, hrj, hc, ?_⟩
    have h := (_compareExtensions_nonpos_iff m _ _).mp hc
    rw [hri, hrj] at h
    simpa using h

/-- C5 at `sampleExtensionData`. -/
theorem SortExtensionData_sorted_witness :
    SortExtensionData sampleExtensionData = [".exe", ".jpg", ".txt", ".tmp"] ∧
    (SortExtensionData sampleExtensionData).Perm (sampleExtensionData.map Prod.fst) ∧
    (SortExtensionData sampleExtensionData).count ".jpg" = 1 :=
  ⟨by decide,
   (SortExtensionData_sorted sampleExtensionData (by decide)).1,
   (SortExtensionData_sorted sampleExtensionData (by decide)).2.1 ".jpg" (by decide)⟩


/-! ## The colour cell -/

/-- A `LONG` value is kept by the reduction to 32 bits. -/
theorem toLONG_id (i : Int) (h1 : -2 ^ 31 ≤ i) (h2 : i < 2 ^ 31) : toLONG i = i := by
  unfold toLONG
  omega

/-- What `DrawColor` does for any cell, in terms of the rectangle that
`DeflateRect` leaves: the preview is drawn exactly when that rectangle has its
sides in order, and then with that rectangle; with `width != NULL` only the
width 40 is reported. -/
theorem DrawColor_calls (m_record : SExtensionRecord) (options : Options) (rc : CRect)
    (state : Nat) :
    (∀ rc1 c o,
      DrawCall.DrawColorPreview rc1 c o ∈ (DrawColor m_record options rc state none).calls →
        rc1 = rc.DeflateRect 2 3 ∧ rc1.left < rc1.right ∧ rc1.top < rc1.bottom) ∧
    ((rc.DeflateRect 2 3).left < (rc.DeflateRect 2 3).right ∧
        (rc.DeflateRect 2 3).top < (rc.DeflateRect 2 3).bottom →
      DrawCall.DrawColorPreview (rc.DeflateRect 2 3) m_record.color options ∈
        (DrawColor m_record options rc state none).calls) ∧
    ((rc.DeflateRect 2 3).right ≤ (rc.DeflateRect 2 3).left ∨
        (rc.DeflateRect 2 3).bottom ≤ (rc.DeflateRect 2 3).top →
      ∀ rc1 c o,
        DrawCall.DrawColorPreview rc1 c o ∉ (DrawColor m_record options rc state none).calls) ∧
    (∀ w : Int, (DrawColor m_record options rc state (some w)).width = some 40 ∧
      (DrawColor m_record options rc state (some w)).calls = []) := by
  refine ⟨?_, ?_, ?_, ?_⟩
  · intro rc1 c o hmem
    simp only [DrawColor] at hmem
    split_ifs at hmem with h
    · simp at hmem
    · rcases List.mem_append.mp hmem with h1 | h1
      · rcases List.mem_singleton.mp h1 with h2
        cases h2
      · rcases List.mem_singleton.mp h1 with h2
        cases h2
        refine ⟨rfl, ?_, ?_⟩ <;> omega
  · intro hpos
    simp only [DrawColor]
    rw [if_neg (by omega)]
    simp
  · intro hdeg rc1 c o hmem
    simp only [DrawColor] at hmem
    rw [if_pos hdeg] at hmem
    simp at hmem
  · intro w
    exact ⟨rfl, rfl⟩

/-- C9, where the claim fails: a cell at the upper end of the `LONG` range,
one pixel wide. Deflated by 2 horizontally it has its right side left of its
left side (the claim: no preview), but the sum `left + 2` leaves the 32-bit
range and wraps, so the test of `DrawColor` passes and `DrawColorPreview` is
called, with a rectangle that is not the deflated cell and whose `int` width
is -3. -/
theorem DrawColor_overflow :
    (DrawColor ⟨1, 1, 255⟩ sampleOptions ⟨2147483646, 0, 2147483647, 20⟩ 0 none).calls =
      [DrawCall.DrawSelection ⟨2147483646, 0, 2147483647, 20⟩ 0,
       DrawCall.DrawColorPreview ⟨-2147483648, 3, 2147483645, 17⟩ 255 sampleOptions] ∧
    (2147483647 : Int) - 2 ≤ 2147483646 + 2 ∧
    toLONG (CRect.Width ⟨-2147483648, 3, 2147483645, 17⟩) = -3 := by
  refine ⟨?_, by decide, by decide⟩
  simp [DrawColor, CRect.DeflateRect, toLONG]

/-- C9, amended. For a cell whose sides are `LONG` values, whose deflation by 2
and 3 stays in the `LONG` range and whose width and height fit an `int`:
`DeflateRect` yields the cell deflated by 2 horizontally and 3 vertically;
`DrawColor` called with `width == NULL` hands `DrawColorPreview` only that
rectangle, and only when its width and height are strictly positive (as
integers and as `int` values), and then it does draw it; when
`right <= left` or `bottom <= top` after deflating, no preview is drawn;
called with `width != NULL` it reports the width 40 and draws nothing. -/
theorem DrawColor_prevalidates (m_record : SExtensionRecord) (options : Options) (rc : CRect)
    (state : Nat)
    (hl : -2 ^ 31 ≤ rc.left ∧ rc.left + 2 < 2 ^ 31)
    (ht : -2 ^ 31 ≤ rc.top ∧ rc.top + 3 < 2 ^ 31)
    (hr : -2 ^ 31 ≤ rc.right - 2 ∧ rc.right < 2 ^ 31)
    (hb : -2 ^ 31 ≤ rc.bottom - 3 ∧ rc.bottom < 2 ^ 31)
    (hw : rc.right - rc.left < 2 ^ 31) (hh : rc.bottom - rc.top < 2 ^ 31) :
    rc.DeflateRect 2 3 =
      { left := rc.left + 2, top := rc.top + 3, right := rc.right - 2, bottom := rc.bottom - 3 } ∧
    (∀ rc1 c o,
      DrawCall.DrawColorPreview rc1 c o ∈ (DrawColor m_record options rc state none).calls →
        rc1 = rc.DeflateRect 2 3 ∧
        (0 < rc1.Width ∧ toLONG rc1.Width = rc1.Width) ∧
        (0 < rc1.Height ∧ toLONG rc1.Height = rc1.Height)) ∧
    (0 < (rc.DeflateRect 2 3).Width ∧ 0 < (rc.DeflateRect 2 3).Height →
      DrawCall.DrawColorPreview (rc.DeflateRect 2 3) m_record.color options ∈
        (DrawColor m_record options rc state none).calls) ∧
    ((rc.DeflateRect 2 3).right ≤ (rc.DeflateRect 2 3).left ∨
        (rc.DeflateRect 2 3).bottom ≤ (rc.DeflateRect 2 3).top →
      ∀ rc1 c o,
        DrawCall.DrawColorPreview rc1 c o ∉ (DrawColor m_record options rc state none).calls) ∧
    (∀ w : Int, (DrawColor m_record options rc state (some w)).width = some 40 ∧
      (DrawColor m_record options rc state (some w)).calls = []) := by
  obtain ⟨c1, c2, c3, c4⟩ := DrawColor_calls m_record options rc state
  have e : rc.DeflateRect 2 3 =
      { left := rc.left + 2, top := rc.top + 3, right := rc.right - 2,
        bottom := rc.bottom - 3 } := by
    simp only [CRect.DeflateRect]
    rw [toLONG_id _ (by omega) (by omega), toLONG_id _ (by omega) (by omega),
      toLONG_id _ (by omega) (by omega), toLONG_id _ (by omega) (by omega)]
  refine ⟨e, ?_, ?_, c3, c4⟩
  · intro rc1 c o hmem
    obtain ⟨d1, d2, d3⟩ := c1 rc1 c o hmem
    have d4 := d1.trans e
    subst d4
    simp only [CRect.Width, CRect.Height] at d2 d3 ⊢
    refine ⟨e.symm, ⟨by omega, toLONG_id _ (by omega) (by omega)⟩,
      ⟨by omega, toLONG_id _ (by omega) (by omega)⟩⟩
  · intro hpos
    simp only [CRect.Width, CRect.Height] at hpos
    exact c2 ⟨by omega, by omega⟩

/-- C9 at two cells: one of 40 by 20 pixels, whose preview is drawn in the
deflated rectangle, and one of 40 by 6 pixels, which deflates to height 0 and
gets no preview. -/
theorem DrawColor_prevalidates_witness :
    DrawCall.DrawColorPreview ⟨2, 3, 38, 17⟩ 255 sampleOptions ∈
      (DrawColor ⟨1, 1, 255⟩ sampleOptions ⟨0, 0, 40, 20⟩ 0 none).calls ∧
    ∀ rc1 c o, DrawCall.DrawColorPreview rc1 c o ∉
      (DrawColor ⟨1, 1, 255⟩ sampleOptions ⟨0, 0, 40, 6⟩ 0 none).calls :=
  ⟨(DrawColor_prevalidates ⟨1, 1, 255⟩ sampleOptions ⟨0, 0, 40, 20⟩ 0 (by decide) (by decide)
      (by decide) (by decide) (by decide) (by decide)).2.2.1 ⟨by decide, by decide⟩,
   (DrawColor_prevalidates ⟨1, 1, 255⟩ sampleOptions ⟨0, 0, 40, 6⟩ 0 (by decide) (by decide)
      (by decide) (by decide) (by decide) (by decide)).2.2.2.1 (Or.inr (by decide))⟩


/-! ## Tiling of a row -/

theorem roundPixel_mono (p q : ℚ) (h : p ≤ q) : roundPixel p ≤ roundPixel q := by
  unfold roundPixel
  exact Int.floor_le_floor (by linarith)

theorem roundPixel_intCast (n : Int) : roundPixel (n : ℚ) = n := by
  unfold roundPixel
  rw [Int.floor_eq_iff]
  constructor <;> norm_num

theorem rowEdge_mono (horizontal : Bool) (row : CRect) (total a b : Nat)
    (hrow : rowStart horizontal row ≤ rowEnd horizontal row) (hab : a ≤ b) :
    rowEdge horizontal row total a ≤ rowEdge horizontal row total b := by
  unfold rowEdge
  have hw : (0 : ℚ) ≤ ((rowEnd horizontal row - rowStart horizontal row : Int) : ℚ) := by
    exact_mod_cast sub_nonneg.mpr hrow
  have hab1 : (a : ℚ) ≤ (b : ℚ) := by exact_mod_cast hab
  have ht : (0 : ℚ) ≤ (total : ℚ) := Nat.cast_nonneg total
  have hq : ((rowEnd horizontal row - rowStart horizontal row : Int) : ℚ) * (a : ℚ) / (total : ℚ) ≤
      ((rowEnd horizontal row - rowStart horizontal row : Int) : ℚ) * (b : ℚ) / (total : ℚ) :=
    div_le_div_of_nonneg_right (mul_le_mul_of_nonneg_left hab1 hw) ht
  have := roundPixel_mono _ _ hq
  omega

theorem rowEdge_le_rowEnd (horizontal : Bool) (row : CRect) (total a : Nat)
    (hrow : rowStart horizontal row ≤ rowEnd horizontal row) (ha : a ≤ total) :
    rowEdge horizontal row total a ≤ rowEnd horizontal row := by
  unfold rowEdge
  have hw : (0 : ℚ) ≤ ((rowEnd horizontal row - rowStart horizontal row : Int) : ℚ) := by
    exact_mod_cast sub_nonneg.mpr hrow
  have hq : ((rowEnd horizontal row - rowStart horizontal row : Int) : ℚ) * (a : ℚ) / (total : ℚ) ≤
      ((rowEnd horizontal row - rowStart horizontal row : Int) : ℚ) := by
    rcases Nat.eq_zero_or_pos total with h0 | hpos
    · subst h0
      simpa using hw
    · have ht : (0 : ℚ) < (total : ℚ) := by exact_mod_cast hpos
      rw [div_le_iff₀ ht]
      have ha1 : (a : ℚ) ≤ (total : ℚ) := by exact_mod_cast ha
      exact mul_le_mul_of_nonneg_left ha1 hw
  have h1 := roundPixel_mono _ _ hq
  rw [roundPixel_intCast] at h1
  omega

theorem rowStart_le_rowEdge (horizontal : Bool) (row : CRect) (total a : Nat)
    (hrow : rowStart horizontal row ≤ rowEnd horizontal row) :
    rowStart horizontal row ≤ rowEdge horizontal row total a := by
  unfold rowEdge
  have hw : (0 : ℚ) ≤ ((rowEnd horizontal row - rowStart horizontal row : Int) : ℚ) := by
    exact_mod_cast sub_nonneg.mpr hrow
  have hq : ((0 : Int) : ℚ) ≤
      ((rowEnd horizontal row - rowStart horizontal row : Int) : ℚ) * (a : ℚ) / (total : ℚ) := by
    have : (0 : ℚ) ≤ ((rowEnd horizontal row - rowStart horizontal row : Int) : ℚ) * (a : ℚ) /
        (total : ℚ) := div_nonneg (mul_nonneg hw (Nat.cast_nonneg a)) (Nat.cast_nonneg total)
    simpa using this
  have h1 := roundPixel_mono _ _ hq
  rw [roundPixel_intCast] at h1
  omega


/-- The edges of the members of a row: every member lies between the start of
the remaining part and the end of the row, the members cover the remaining
part, each ends no later than the next begins, and the last ends at the end
of the row. -/
theorem rowSpans_spec (horizontal : Bool) (row : CRect) (total : Nat)
    (hrow : rowStart horizontal row ≤ rowEnd horizontal row) :
    ∀ (l : List Nat) (start : Int) (acc : Nat), l ≠ [] →
      start ≤ rowEdge horizontal row total acc → acc + l.sum ≤ total →
      (∀ p ∈ rowSpans horizontal row total start acc l,
        start ≤ p.1 ∧ p.1 ≤ p.2 ∧ p.2 ≤ rowEnd horizontal row) ∧
      (∀ a, start ≤ a → a < rowEnd horizontal row →
        ∃ p ∈ rowSpans horizontal row total start acc l, p.1 ≤ a ∧ a < p.2) ∧
      (rowSpans horizontal row total start acc l).Pairwise (fun p q => p.2 ≤ q.1) ∧
      (∃ p, (rowSpans horizontal row total start acc l).getLast? = some p ∧
        p.2 = rowEnd horizontal row) ∧
      (rowSpans horizontal row total start acc l).length = l.length := by
  intro l
  induction l with
  | nil => intro _ _ h; exact absurd rfl h
  | cons s t ih =>
    intro start acc _ hstart hsum
    cases t with
    | nil =>
      have hacc : acc ≤ total := by simp at hsum; omega
      have hend : start ≤ rowEnd horizontal row :=
        le_trans hstart (rowEdge_le_rowEnd horizontal row total acc hrow hacc)
      simp only [rowSpans]
      refine ⟨?_, ?_, ?_, ?_, ?_⟩
      · intro p hp
        rw [List.mem_singleton.mp hp]
        exact ⟨le_refl _, hend, le_refl _⟩
      · intro a h1 h2
        exact ⟨_, List.mem_singleton.mpr rfl, h1, h2⟩
      · exact List.pairwise_singleton _ _
      · exact ⟨_, rfl, rfl⟩
      · rfl
    | cons t0 rest =>
      have hsum1 : acc + s + (t0 :: rest).sum ≤ total := by
        simp only [List.sum_cons] at hsum ⊢
        omega
      have hacc : acc + s ≤ total := by omega
      have hedge1 : start ≤ rowEdge horizontal row total (acc + s) :=
        le_trans hstart (rowEdge_mono horizontal row total acc (acc + s) hrow (by omega))
      have hedge2 : rowEdge horizontal row total (acc + s) ≤ rowEnd horizontal row :=
        rowEdge_le_rowEnd horizontal row total (acc + s) hrow hacc
      obtain ⟨i1, i2, i3, i4, i5⟩ :=
        ih (rowEdge horizontal row total (acc + s)) (acc + s) (List.cons_ne_nil _ _)
          (le_refl _) hsum1
      simp only [rowSpans]
      refine ⟨?_, ?_, ?_, ?_, ?_⟩
      · intro p hp
        rcases List.mem_cons.mp hp with h | h
        · rw [h]
          exact ⟨le_refl _, hedge1, hedge2⟩
        · obtain ⟨h1, h2, h3⟩ := i1 p h
          exact ⟨le_trans hedge1 h1, h2, h3⟩
      · intro a h1 h2
        by_cases ha : a < rowEdge horizontal row total (acc + s)
        · exact ⟨_, List.mem_cons_self _ _, h1, ha⟩
        · obtain ⟨p, hp, hp1, hp2⟩ := i2 a (not_lt.mp ha) h2
          exact ⟨p, List.mem_cons_of_mem _ hp, hp1, hp2⟩
      · refine List.pairwise_cons.mpr ⟨?_, i3⟩
        intro q hq
        exact (i1 q hq).1
      · obtain ⟨p, hp, hp1⟩ := i4
        refine ⟨p, ?_, hp1⟩
        rw [List.getLast?_cons, hp]
        rfl
      · simp only [List.length_cons] at i5 ⊢
        omega

theorem PtInRect_memberRect_true (row : CRect) (lo hi x y : Int) :
    (memberRect true row lo hi).PtInRect x y ↔
      (lo ≤ x ∧ x < hi) ∧ (row.top ≤ y ∧ y < row.bottom) := by
  simp only [memberRect, CRect.PtInRect, if_true]
  tauto

theorem PtInRect_memberRect_false (row : CRect) (lo hi x y : Int) :
    (memberRect false row lo hi).PtInRect x y ↔
      (lo ≤ y ∧ y < hi) ∧ (row.left ≤ x ∧ x < row.right) := by
  simp only [memberRect, CRect.PtInRect]
  simp only [Bool.false_eq_true, if_false]
  tauto


/-- The subdivision of one row or column: for a row rectangle of
non-negative width and height and members of which at least one has a
positive size, the rectangles that `LayoutRow` assigns partition the row's
rectangle: a pixel lies in the row exactly when it lies in some member
rectangle, no pixel lies in two member rectangles, every member rectangle has
non-negative width and height, each member of positive size gets one
rectangle, and the last member ends at the far side of the row, so that it
takes up the rounding remainder. -/
theorem LayoutRow_tiles (horizontal : Bool) (row : CRect) (sizes : List Nat)
    (hw : row.left ≤ row.right) (hh : row.top ≤ row.bottom) (hs : ∃ s ∈ sizes, 0 < s) :
    (∀ x y, row.PtInRect x y ↔ ∃ r ∈ LayoutRow horizontal row sizes, r.PtInRect x y) ∧
    (LayoutRow horizontal row sizes).Pairwise
      (fun a b => ∀ x y, ¬ (a.PtInRect x y ∧ b.PtInRect x y)) ∧
    (∀ r ∈ LayoutRow horizontal row sizes, 0 ≤ r.Width ∧ 0 ≤ r.Height) ∧
    (∃ r, (LayoutRow horizontal row sizes).getLast? = some r ∧
      r.right = row.right ∧ r.bottom = row.bottom) ∧
    (LayoutRow horizontal row sizes).length = (sizes.filter (fun s => 0 < s)).length := by
  have hne : sizes.filter (fun s => decide (0 < s)) ≠ [] := by
    obtain ⟨s, hs1, hs2⟩ := hs
    intro h
    have hmem : s ∈ sizes.filter (fun s => decide (0 < s)) :=
      List.mem_filter.mpr ⟨hs1, by simpa using hs2⟩
    rw [h] at hmem
    exact List.not_mem_nil _ hmem
  cases horizontal with
  | true =>
    have hrow : rowStart true row ≤ rowEnd true row := by simpa [rowStart, rowEnd] using hw
    obtain ⟨i1, i2, i3, i4, i5⟩ := rowSpans_spec true row
      (sizes.filter (fun s => decide (0 < s))).sum hrow _ (rowStart true row) 0 hne
      (rowStart_le_rowEdge true row _ 0 hrow) (by simp)
    have hs0 : rowStart true row = row.left := by simp [rowStart]
    have he0 : rowEnd true row = row.right := by simp [rowEnd]
    simp only [LayoutRow]
    refine ⟨?_, ?_, ?_, ?_, ?_⟩
    · intro x y
      constructor
      · intro hin
        obtain ⟨h1, h2, h3, h4⟩ := hin
        obtain ⟨p, hp, hp1, hp2⟩ := i2 x (by rw [hs0]; exact h1) (by rw [he0]; exact h2)
        exact ⟨_, List.mem_map.mpr ⟨p, hp, rfl⟩,
          (PtInRect_memberRect_true row p.1 p.2 x y).mpr ⟨⟨hp1, hp2⟩, h3, h4⟩⟩
      · rintro ⟨r, hr, hin⟩
        obtain ⟨p, hp, rfl⟩ := List.mem_map.mp hr
        obtain ⟨⟨h1, h2⟩, h3, h4⟩ := (PtInRect_memberRect_true row p.1 p.2 x y).mp hin
        obtain ⟨j1, _, j3⟩ := i1 p hp
        rw [hs0] at j1
        rw [he0] at j3
        exact ⟨by omega, by omega, h3, h4⟩
    · rw [List.pairwise_map]
      refine i3.imp ?_
      intro p q hpq x y hboth
      obtain ⟨⟨_, h2⟩, _⟩ := (PtInRect_memberRect_true row p.1 p.2 x y).mp hboth.1
      obtain ⟨⟨h3, _⟩, _⟩ := (PtInRect_memberRect_true row q.1 q.2 x y).mp hboth.2
      omega
    · intro r hr
      obtain ⟨p, hp, rfl⟩ := List.mem_map.mp hr
      obtain ⟨_, j2, _⟩ := i1 p hp
      simp only [memberRect, CRect.Width, CRect.Height, if_true]
      omega
    · obtain ⟨p, hp, hp1⟩ := i4
      refine ⟨memberRect true row p.1 p.2, ?_, ?_, ?_⟩
      · rw [List.getLast?_map, hp]
        rfl
      · simp only [memberRect, if_true]
        rw [hp1, he0]
      · simp only [memberRect, if_true]
    · rw [List.length_map, i5]
  | false =>
    have hrow : rowStart false row ≤ rowEnd false row := by simpa [rowStart, rowEnd] using hh
    obtain ⟨i1, i2, i3, i4, i5⟩ := rowSpans_spec false row
      (sizes.filter (fun s => decide (0 < s))).sum hrow _ (rowStart false row) 0 hne
      (rowStart_le_rowEdge false row _ 0 hrow) (by simp)
    have hs0 : rowStart false row = row.top := by simp [rowStart]
    have he0 : rowEnd false row = row.bottom := by simp [rowEnd]
    simp only [LayoutRow]
    refine ⟨?_, ?_, ?_, ?_, ?_⟩
    · intro x y
      constructor
      · intro hin
        obtain ⟨h1, h2, h3, h4⟩ := hin
        obtain ⟨p, hp, hp1, hp2⟩ := i2 y (by rw [hs0]; exact h3) (by rw [he0]; exact h4)
        exact ⟨_, List.mem_map.mpr ⟨p, hp, rfl⟩,
          (PtInRect_memberRect_false row p.1 p.2 x y).mpr ⟨⟨hp1, hp2⟩, h1, h2⟩⟩
      · rintro ⟨r, hr, hin⟩
        obtain ⟨p, hp, rfl⟩ := List.mem_map.mp hr
        obtain ⟨⟨h1, h2⟩, h3, h4⟩ := (PtInRect_memberRect_false row p.1 p.2 x y).mp hin
        obtain ⟨j1, _, j3⟩ := i1 p hp
        rw [hs0] at j1
        rw [he0] at j3
        exact ⟨h3, h4, by omega, by omega⟩
    · rw [List.pairwise_map]
      refine i3.imp ?_
      intro p q hpq x y hboth
      obtain ⟨⟨_, h2⟩, _⟩ := (PtInRect_memberRect_false row p.1 p.2 x y).mp hboth.1
      obtain ⟨⟨h3, _⟩, _⟩ := (PtInRect_memberRect_false row q.1 q.2 x y).mp hboth.2
      omega
    · intro r hr
      obtain ⟨p, hp, rfl⟩ := List.mem_map.mp hr
      obtain ⟨_, j2, _⟩ := i1 p hp
      simp only [memberRect, CRect.Width, CRect.Height, Bool.false_eq_true, if_false]
      omega
    · obtain ⟨p, hp, hp1⟩ := i4
      refine ⟨memberRect false row p.1 p.2, ?_, ?_, ?_⟩
      · rw [List.getLast?_map, hp]
        rfl
      · simp only [memberRect, Bool.false_eq_true, if_false]
      · simp only [memberRect, Bool.false_eq_true, if_false]
        rw [hp1, he0]
    · rw [List.length_map, i5]


/-- The subdivision of a row of 100 by 10 pixels among the sizes 60, 30 and
10, and of a column of height 10 among three equal members with a skipped
zero-size one, where the edges are rounded. -/
theorem LayoutRow_tiles_scenario :
    LayoutRow true ⟨0, 0, 100, 10⟩ [60, 30, 10] =
      [⟨0, 0, 60, 10⟩, ⟨60, 0, 90, 10⟩, ⟨90, 0, 100, 10⟩] ∧
    LayoutRow false ⟨5, 0, 9, 10⟩ [1, 0, 1, 1] =
      [⟨5, 0, 9, 3⟩, ⟨5, 3, 9, 7⟩, ⟨5, 7, 9, 10⟩] ∧
    (∀ x y, (⟨0, 0, 100, 10⟩ : CRect).PtInRect x y ↔
      ∃ r ∈ LayoutRow true ⟨0, 0, 100, 10⟩ [60, 30, 10], r.PtInRect x y) ∧
    (LayoutRow true ⟨0, 0, 100, 10⟩ [60, 30, 10]).Pairwise
      (fun a b => ∀ x y, ¬ (a.PtInRect x y ∧ b.PtInRect x y)) := by
  have h := LayoutRow_tiles true ⟨0, 0, 100, 10⟩ [60, 30, 10] (by decide) (by decide)
    ⟨60, by decide, by decide⟩
  refine ⟨?_, ?_, h.1, h.2.1⟩
  · simp [LayoutRow, rowSpans, memberRect, rowEdge, rowStart, rowEnd, roundPixel]
    norm_num
  · simp [LayoutRow, rowSpans, memberRect, rowEdge, rowStart, rowEnd, roundPixel]
    norm_num [Int.floor_eq_iff]


/-! ## The selection list -/

theorem mem_RemoveSelection (sel : List CItem) (item x : CItem)
    (h : x ∈ RemoveSelection sel item) : x ∈ sel := by
  induction sel with
  | nil => simp [RemoveSelection] at h
  | cons y rest ih =>
    simp only [RemoveSelection] at h
    split_ifs at h with hy
    · exact List.mem_cons_of_mem _ h
    · rcases List.mem_cons.mp h with h1 | h1
      · rw [h1]; exact List.mem_cons_self _ _
      · exact List.mem_cons_of_mem _ (ih h1)

/-- All items of a reachable selection have the same parent. -/
theorem SelectionReachable_same_parent (GetParent : CItem → Option CItem) (sel : List CItem)
    (h : SelectionReachable GetParent sel) :
    ∀ a ∈ sel, ∀ b ∈ sel, GetParent a = GetParent b := by
  induction h with
  | empty => intro a ha; simp at ha
  | step s s1 _ hs ih =>
    cases hs with
    | removeAll => intro a ha; simp [RemoveAllSelections] at ha
    | remove item =>
      intro a ha b hb
      exact ih a (mem_RemoveSelection s item a ha) b (mem_RemoveSelection s item b hb)
    | add item hcan =>
      have hnew : ∀ x ∈ s, GetParent item = GetParent x := by
        intro x hx
        cases s with
        | nil => simp at hx
        | cons y rest =>
          simp only [CanAddSelection, List.length_cons, Nat.succ_ne_zero, if_false,
            GetSelectionParent, decide_eq_true_eq, Option.some.injEq] at hcan
          rw [hcan]
          exact ih y (List.mem_cons_self _ _) x hx
      intro a ha b hb
      simp only [AddSelection, List.mem_append, List.mem_singleton] at ha hb
      rcases ha with ha | ha <;> rcases hb with hb | hb
      · exact ih a ha b hb
      · rw [hb]; exact (hnew a ha).symm
      · rw [ha]; exact hnew b hb
      · rw [ha, hb]

/-- C12. Selection invariant: in every selection list reachable from the empty
selection by `RemoveAllSelections`, `RemoveSelection` and `AddSelection` (the
latter only when `CanAddSelection` returns true), all selected items have the
same parent, so the assertions of `AssertSelectionValid` hold; and
`CanAddSelection` returns true for every item when the selection is
empty. -/
theorem Selection_invariant (GetParent : CItem → Option CItem) (sel : List CItem)
    (h : SelectionReachable GetParent sel) :
    (∀ a ∈ sel, ∀ b ∈ sel, GetParent a = GetParent b) ∧
    AssertSelectionValid GetParent sel = true ∧
    ∀ item, CanAddSelection GetParent [] item = true := by
  have hp := SelectionReachable_same_parent GetParent sel h
  refine ⟨hp, ?_, fun _ => rfl⟩
  cases sel with
  | nil => rfl
  | cons y rest =>
    simp only [AssertSelectionValid, List.length_cons, Nat.succ_ne_zero, if_false,
      GetSelectionParent, List.all_eq_true, decide_eq_true_eq, Option.some.injEq]
    intro x hx
    exact hp x hx y (List.mem_cons_self _ _)

/-- C12 at the selection reached by adding items 1 and 2 (both children of
item 0), removing item 1 and adding it again. -/
theorem Selection_invariant_witness :
    SelectionReachable sampleGetParent [2, 1] ∧
    AssertSelectionValid sampleGetParent [2, 1] = true ∧
    CanAddSelection sampleGetParent [2, 1] 3 = false := by
  have h0 : SelectionReachable sampleGetParent [] := SelectionReachable.empty
  have h1 : SelectionReachable sampleGetParent [1] :=
    SelectionReachable.step [] _ h0 (SelectionStep.add [] 1 (by decide))
  have h2 : SelectionReachable sampleGetParent [1, 2] :=
    SelectionReachable.step [1] _ h1 (SelectionStep.add [1] 2 (by decide))
  have h3 : SelectionReachable sampleGetParent [2] :=
    SelectionReachable.step [1, 2] _ h2 (SelectionStep.remove [1, 2] 1)
  have h4 : SelectionReachable sampleGetParent [2, 1] :=
    SelectionReachable.step [2] _ h3 (SelectionStep.add [2] 1 (by decide))
  exact ⟨h4, (Selection_invariant sampleGetParent [2, 1] h4).2.1, by decide⟩


/-! ## EncodeSelection and DecodeSelection -/

theorem DecodeTokens_no_separator (s : CString) (hs : GetEncodingSeparator ∉ s) :
    ∀ token : Option CString, (s ≠ [] ∨ token.isSome = true) →
      DecodeTokens s token = [TrimRight (TrimLeft (token.getD [] ++ s))] := by
  induction s with
  | nil =>
    intro token h
    cases token with
    | none => simp at h
    | some t => simp [DecodeTokens]
  | cons c rest ih =>
    intro token _
    have hc : c ≠ GetEncodingSeparator := fun e => hs (e ▸ List.mem_cons_self _ _)
    have hrest : GetEncodingSeparator ∉ rest := fun e => hs (List.mem_cons_of_mem _ e)
    simp only [DecodeTokens, ne_eq, hc, not_false_eq_true, if_true]
    rw [ih hrest _ (Or.inr (by simp))]
    simp

/-- An input without separator is a single token. -/
theorem DecodeTokens_single (s : CString) (hne : s ≠ []) (hs : GetEncodingSeparator ∉ s) :
    DecodeTokens s none = [TrimRight (TrimLeft s)] := by
  have h := DecodeTokens_no_separator s hs none (Or.inl hne)
  simpa using h

theorem getLast?_take_of_not_double (f : CString)
    (hdouble : ∀ t : CString, f ≠ t ++ ['\\', '\\']) (hlast : f.getLast? = some '\\') :
    (f.take (f.length - 1)).getLast? ≠ some '\\' := by
  intro h
  obtain ⟨t, rfl⟩ := List.getLast?_eq_some_iff.mp hlast
  rw [List.take_left' (by simp)] at h
  obtain ⟨u, rfl⟩ := List.getLast?_eq_some_iff.mp h
  exact hdouble u (by simp)


/-- C16, as stated, fails: the input `dir\\` (ending in two backslashes) is a
single token and no drive spec, and the decoded folder `dir\` still ends with
a backslash without being a three-character drive root; only one backslash is
removed. -/
theorem DecodeSelection_double_backslash :
    GetEncodingSeparator ∉ "dir\\\\".toList ∧
    ¬ ((TrimRight (TrimLeft "dir\\\\".toList)).length = 2 ∧
      (TrimRight (TrimLeft "dir\\\\".toList))[1]? = some ':') ∧
    DecodeSelection "dir\\\\".toList = some { folder := "dir\\".toList, drives := [] } ∧
    ("dir\\".toList).getLast? = some '\\' ∧
    ¬ (("dir\\".toList).length = 3 ∧ ("dir\\".toList)[1]? = some ':') := by
  decide

/-- C16, amended: for every input that is a single token (not empty, no
separator) whose trimmed token is not a two-character drive spec `X:` and
does not end with two backslashes, the decoded drive list is empty and the
decoded folder does not end with a backslash unless it is the token itself,
of the three-character form `X:\`. -/
theorem DecodeSelection_trailing_backslash (s : CString) (hne : s ≠ [])
    (hsep : GetEncodingSeparator ∉ s)
    (hdrive : ¬ ((TrimRight (TrimLeft s)).length = 2 ∧ (TrimRight (TrimLeft s))[1]? = some ':'))
    (hdouble : ∀ t : CString, TrimRight (TrimLeft s) ≠ t ++ ['\\', '\\']) :
    ∃ sel, DecodeSelection s = some sel ∧ sel.drives = [] ∧
      (sel.folder.getLast? = some '\\' →
        sel.folder = TrimRight (TrimLeft s) ∧ sel.folder.length = 3 ∧
        sel.folder[1]? = some ':' ∧ sel.folder[2]? = some '\\') := by
  have hsa := DecodeTokens_single s hne hsep
  simp only [DecodeSelection, hsa, List.length_singleton, gt_iff_lt, Nat.lt_irrefl, if_false,
    hdrive]
  refine ⟨_, rfl, rfl, ?_⟩
  intro hlast
  split_ifs at hlast with hcond
  · exact absurd hlast (getLast?_take_of_not_double _ hdouble hcond.2.1)
  · rw [if_neg hcond]
    have hlen : (TrimRight (TrimLeft s)).length > 0 := by
      cases hf : TrimRight (TrimLeft s) with
      | nil => rw [hf] at hlast; simp at hlast
      | cons a t => simp
    have h3 : (TrimRight (TrimLeft s)).length = 3 ∧ (TrimRight (TrimLeft s))[1]? = some ':' := by
      by_contra hcon
      apply hcond
      refine ⟨hlen, hlast, ?_⟩
      by_cases hl : (TrimRight (TrimLeft s)).length = 3
      · right
        intro h1
        exact hcon ⟨hl, h1⟩
      · left; exact hl
    refine ⟨rfl, h3.1, h3.2, ?_⟩
    obtain ⟨t, ht⟩ := List.getLast?_eq_some_iff.mp hlast
    have ht1 : TrimRight (TrimLeft s) = t ++ ['\\'] := ht
    have hl := h3.1
    show (TrimRight (TrimLeft s))[2]? = some '\\'
    rw [ht1] at hl ⊢
    simp only [List.length_append, List.length_singleton] at hl
    have htl : t.length = 2 := by omega
    rw [List.getElem?_append_right (by omega)]
    simp [htl]

/-- C16, amended, at the inputs `C:\dir\` (the backslash is removed) and
` C:\ ` (a drive root, kept). -/
theorem DecodeSelection_trailing_backslash_witness :
    (∃ sel, DecodeSelection "C:\\dir\\".toList = some sel ∧ sel.drives = [] ∧
      (sel.folder.getLast? = some '\\' →
        sel.folder = TrimRight (TrimLeft "C:\\dir\\".toList) ∧ sel.folder.length = 3 ∧
        sel.folder[1]? = some ':' ∧ sel.folder[2]? = some '\\')) ∧
    DecodeSelection "C:\\dir\\".toList = some { folder := "C:\\dir".toList, drives := [] } ∧
    DecodeSelection " C:\\ ".toList = some { folder := "C:\\".toList, drives := [] } := by
  refine ⟨DecodeSelection_trailing_backslash "C:\\dir\\".toList (by decide) (by decide)
    (by decide) ?_, by decide, by decide⟩
  intro t ht
  have h : TrimRight (TrimLeft "C:\\dir\\".toList) = "C:\\dir\\".toList := by decide
  rw [h] at ht
  have h2 := congrArg (fun l => l.reverse.tail.head?) ht
  simp at h2

/-- C17 (the code departs from the claim). The input `\`, a single
backslash, satisfies every assertion of `DecodeSelection`, and the decoded
drive list and the decoded folder are both empty, so the assertion of
`OnOpenDocument` fails. -/
theorem DecodeSelection_single_backslash :
    DecodeSelectionAsserts ['\\'] = true ∧
    DecodeSelection ['\\'] = some { folder := [], drives := [] } ∧
    OnOpenDocumentAssert { folder := [], drives := [] } = false := by
  decide


theorem EncodeDrives_pos (drives : List CString) :
    ∀ (i : Nat) (ret : CString), 0 < i →
      EncodeDrives i ret drives =
        ret ++ drives.foldr (fun d acc => GetEncodingSeparator :: (d ++ acc)) [] := by
  induction drives with
  | nil => intro i ret _; simp [EncodeDrives]
  | cons d rest ih =>
    intro i ret hi
    simp only [EncodeDrives, gt_iff_lt, hi, if_true, List.foldr_cons]
    rw [ih (i + 1) _ (Nat.succ_pos i)]
    simp

theorem EncodeDrives_zero (d : CString) (rest : List CString) :
    EncodeDrives 0 [] (d :: rest) =
      d ++ rest.foldr (fun d acc => GetEncodingSeparator :: (d ++ acc)) [] := by
  simp only [EncodeDrives, gt_iff_lt, Nat.lt_irrefl, if_false, List.nil_append]
  exact EncodeDrives_pos rest 1 d Nat.one_pos

theorem Trim_drive (x : Char) (hx : _istspace x = false) :
    TrimRight (TrimLeft [x, ':']) = [x, ':'] := by
  have hc : _istspace ':' = false := by decide
  simp [TrimLeft, TrimRight, List.dropWhile, hx, hc]

theorem DecodeTokens_drive (x : Char) (hx : x ≠ GetEncodingSeparator) (rest : CString) :
    DecodeTokens ([x, ':'] ++ rest) none = DecodeTokens rest (some [x, ':']) := by
  have hc : ':' ≠ GetEncodingSeparator := by decide
  simp [DecodeTokens, hx, hc]

theorem DecodeTokens_separator (token rest : CString) :
    DecodeTokens (GetEncodingSeparator :: rest) (some token) =
      TrimRight (TrimLeft token) :: DecodeTokens rest none := by
  simp [DecodeTokens]

theorem DecodeTokens_drives (drives : List CString)
    (hd : ∀ d ∈ drives, ∃ x, d = [x, ':'] ∧ x ≠ GetEncodingSeparator ∧ _istspace x = false) :
    ∀ x, _istspace x = false →
      DecodeTokens (drives.foldr (fun d acc => GetEncodingSeparator :: (d ++ acc)) [])
        (some [x, ':']) = [x, ':'] :: drives := by
  induction drives with
  | nil =>
    intro x hx
    simp only [List.foldr_nil, DecodeTokens]
    rw [Trim_drive x hx]
  | cons d rest ih =>
    intro x hx
    obtain ⟨y, rfl, hy1, hy2⟩ := hd _ (List.mem_cons_self _ _)
    rw [List.foldr_cons, DecodeTokens_separator, Trim_drive x hx, DecodeTokens_drive y hy1,
      ih (fun d hd1 => hd d (List.mem_cons_of_mem _ hd1)) y hy2]

/-- C13, as stated, fails: two drives `C:` and `D:` come back as `C:\` and
`D:\`; the folder `C:\dir\` comes back without its last backslash; the folder
`C:` comes back as the drive `C:\`; the folder ` dir` comes back trimmed; and
for the empty folder there is no token to decode. -/
theorem Decode_Encode_not_inverse :
    DecodeSelection (EncodeSelection RADIO.RADIO_SOMEDRIVES [] ["C:".toList, "D:".toList]) =
      some { folder := [], drives := ["C:\\".toList, "D:\\".toList] } ∧
    DecodeSelection (EncodeSelection RADIO.RADIO_AFOLDER "C:\\dir\\".toList []) =
      some { folder := "C:\\dir".toList, drives := [] } ∧
    DecodeSelection (EncodeSelection RADIO.RADIO_AFOLDER "C:".toList []) =
      some { folder := [], drives := ["C:\\".toList] } ∧
    DecodeSelection (EncodeSelection RADIO.RADIO_AFOLDER " dir".toList []) =
      some { folder := "dir".toList, drives := [] } ∧
    DecodeSelection (EncodeSelection RADIO.RADIO_AFOLDER [] []) = none := by
  decide

/-- C13, amended: for `RADIO_AFOLDER` and every folder that is not empty, has
no separator, no white space at either end, is not a two-character drive spec
`X:` and ends with a backslash only if it is a three-character drive root,
decoding the encoded selection returns that folder and no drives; for
`RADIO_SOMEDRIVES` or `RADIO_ALLLOCALDRIVES` and every non-empty list of
two-character drive specs `X:` (`X` neither the separator nor white space),
decoding returns an empty folder and the drives in the same order, each
followed by a backslash. -/
theorem Decode_Encode_Selection (radio : RADIO) (folder : CString) (drives : List CString) :
    (radio = RADIO.RADIO_AFOLDER → folder ≠ [] → GetEncodingSeparator ∉ folder →
      TrimRight (TrimLeft folder) = folder →
      ¬ (folder.length = 2 ∧ folder[1]? = some ':') →
      (folder.getLast? = some '\\' → folder.length = 3 ∧ folder[1]? = some ':') →
      DecodeSelection (EncodeSelection radio folder drives) =
        some { folder := folder, drives := [] }) ∧
    (radio ≠ RADIO.RADIO_AFOLDER → drives ≠ [] →
      (∀ d ∈ drives, ∃ x, d = [x, ':'] ∧ x ≠ GetEncodingSeparator ∧ _istspace x = false) →
      DecodeSelection (EncodeSelection radio folder drives) =
        some { folder := [], drives := drives.map (fun d => d ++ ['\\']) }) := by
  constructor
  · intro hr hne hsep htrim hdrive hlast
    subst hr
    have hsa := DecodeTokens_single folder hne hsep
    rw [htrim] at hsa
    simp only [EncodeSelection, DecodeSelection, hsa, List.length_singleton, gt_iff_lt,
      Nat.lt_irrefl, if_false, hdrive]
    rw [if_neg]
    rintro ⟨_, h2, h3⟩
    obtain ⟨h4, h5⟩ := hlast h2
    rcases h3 with h3 | h3
    · exact h3 h4
    · exact h3 h5
  · intro hr hne hd
    have henc : EncodeSelection radio folder drives = EncodeDrives 0 [] drives := by
      cases radio with
      | RADIO_ALLLOCALDRIVES => rfl
      | RADIO_SOMEDRIVES => rfl
      | RADIO_AFOLDER => exact absurd rfl hr
    cases drives with
    | nil => exact absurd rfl hne
    | cons d rest =>
      obtain ⟨x, hx, hx1, hx2⟩ := hd d (List.mem_cons_self _ _)
      have hsa : DecodeTokens (EncodeSelection radio folder (d :: rest)) none = d :: rest := by
        rw [henc, EncodeDrives_zero, hx, DecodeTokens_drive x hx1,
          DecodeTokens_drives rest (fun d hd1 => hd d (List.mem_cons_of_mem _ hd1)) x hx2]
      simp only [DecodeSelection, hsa]
      cases rest with
      | nil =>
        subst hx
        simp
      | cons d1 rest1 =>
        simp

/-- C13, amended, at the folder `C:\dir` and at the drives `C:` and `E:`. -/
theorem Decode_Encode_Selection_witness :
    DecodeSelection (EncodeSelection RADIO.RADIO_AFOLDER "C:\\dir".toList []) =
      some { folder := "C:\\dir".toList, drives := [] } ∧
    DecodeSelection (EncodeSelection RADIO.RADIO_ALLLOCALDRIVES [] ["C:".toList, "E:".toList]) =
      some { folder := [], drives := ["C:".toList, "E:".toList].map (fun d => d ++ ['\\']) } :=
  ⟨(Decode_Encode_Selection RADIO.RADIO_AFOLDER "C:\\dir".toList []).1 rfl (by decide)
      (by decide) (by decide) (by decide) (by decide),
   (Decode_Encode_Selection RADIO.RADIO_ALLLOCALDRIVES [] ["C:".toList, "E:".toList]).2
      (by decide) (by decide) (by
        intro d hd
        rcases List.mem_cons.mp hd with h | h
        · exact ⟨'C', h, by decide, by decide⟩
        · rcases List.mem_cons.mp h with h1 | h1
          · exact ⟨'E', h1, by decide, by decide⟩
          · exact absurd h1 (List.not_mem_nil _))⟩


/-! ## Report strings -/

theorem drop_one_stringPrefix (m : CString) : (stringPrefix ++ m).drop 1 = m := by
  simp [stringPrefix]

theorem isEmpty_stringPrefix (m : CString) : (stringPrefix ++ m).isEmpty = false := by
  simp [stringPrefix]

/-- What `SaveToRegistry` leaves under the three report entries. -/
theorem SaveToRegistry_entries (defaults : ReportStrings) (store : ProfileStrings)
    (m : ReportStrings) :
    SaveToRegistry defaults store m sectionOptions entryReportSubject =
      some (if m.m_reportSubject = defaults.m_reportSubject then []
        else stringPrefix ++ m.m_reportSubject) ∧
    SaveToRegistry defaults store m sectionOptions entryReportPrefix =
      some (if m.m_reportPrefix = defaults.m_reportPrefix then []
        else stringPrefix ++ m.m_reportPrefix) ∧
    SaveToRegistry defaults store m sectionOptions entryReportSuffix =
      some (if m.m_reportSuffix = defaults.m_reportSuffix then []
        else stringPrefix ++ m.m_reportSuffix) := by
  simp [SaveToRegistry, setProfileString, sectionOptions, entryReportSubject, entryReportPrefix,
    entryReportSuffix]

theorem report_string_roundtrip (d m : CString) :
    (if (if m = d then [] else stringPrefix ++ m).isEmpty = true then d
      else (if m = d then [] else stringPrefix ++ m).drop 1) = m := by
  by_cases h : m = d
  · simp [h]
  · simp only [h, if_false, isEmpty_stringPrefix, drop_one_stringPrefix]
    simp

/-- C14. The stored report strings distinguish 'empty' from 'default': for
every subject, prefix and suffix (the empty string and the default text
included), whatever the store held before, `SaveToRegistry` followed by
`LoadFromRegistry` restores the three strings; the default is written as the
empty string and every other value as `$` followed by the text. -/
theorem Save_Load_report_strings (defaults : ReportStrings) (store : ProfileStrings)
    (m : ReportStrings) :
    LoadFromRegistry defaults (SaveToRegistry defaults store m) = m ∧
    SaveToRegistry defaults store m sectionOptions entryReportSubject =
      some (if m.m_reportSubject = defaults.m_reportSubject then []
        else '$' :: m.m_reportSubject) ∧
    SaveToRegistry defaults store m sectionOptions entryReportPrefix =
      some (if m.m_reportPrefix = defaults.m_reportPrefix then []
        else '$' :: m.m_reportPrefix) ∧
    SaveToRegistry defaults store m sectionOptions entryReportSuffix =
      some (if m.m_reportSuffix = defaults.m_reportSuffix then []
        else '$' :: m.m_reportSuffix) := by
  obtain ⟨e1, e2, e3⟩ := SaveToRegistry_entries defaults store m
  refine ⟨?_, e1, e2, e3⟩
  simp only [LoadFromRegistry, getProfileString, e1, e2, e3, report_string_roundtrip]

/-! ## The Lua resource loader -/

/-- A resource of more than three bytes that begins with the byte order mark
is handed on without it, and a non-empty resource that does not begin with it
is handed on unchanged. -/
theorem luaC_winres_loader_skips (rest : List Nat) (scriptBuf : List Nat) :
    (rest ≠ [] → luaC_winres_loader_ (some (utf8bom ++ rest)) =
      some (rest, (utf8bom ++ rest).length - 3)) ∧
    (scriptBuf ≠ [] → scriptBuf.take 3 ≠ utf8bom →
      luaC_winres_loader_ (some scriptBuf) = some (scriptBuf, scriptBuf.length)) := by
  constructor
  · intro hne
    have hlen : 0 < rest.length := List.length_pos.mpr hne
    simp only [luaC_winres_loader_, utf8bom, List.length_append, List.length_cons,
      List.length_nil]
    rw [if_neg (by omega), if_pos]
    · simp
    · constructor
      · omega
      · simp
  · intro hne hbom
    have hlen : 0 < scriptBuf.length := List.length_pos.mpr hne
    simp only [luaC_winres_loader_]
    rw [if_neg (by omega), if_neg]
    rintro ⟨_, h⟩
    exact hbom h

/-- C15 (the code departs from the claim). A resource that consists of the
three bytes EF BB BF alone has non-zero length and begins with the byte order
mark, yet `luaL_loadbuffer` is handed the three bytes and the length 3, not
the empty rest and the length 0: the test is `scriptLen > sizeof(utf8bom)`. A
resource with one more byte is handed on without the mark. -/
theorem luaC_winres_loader_bom_only :
    luaC_winres_loader_ (some [0xEF, 0xBB, 0xBF]) = some ([0xEF, 0xBB, 0xBF], 3) ∧
    luaC_winres_loader_ (some [0xEF, 0xBB, 0xBF]) ≠ some ([], 0) ∧
    luaC_winres_loader_ (some [0xEF, 0xBB, 0xBF, 0x2D]) = some ([0x2D], 1) := by
  decide

/-! ## User defined cleanups -/

/-- C18 (the code departs from the claim). With the enumerators numbered as
the compiler numbers them (`RP_NO_REFRESH` = 0, `RP_REFRESH_THIS_ENTRY` = 1,
`RP_REFRESH_THIS_ENTRYS_PARENT` = 2, `REFRESHPOLICYCOUNT` = 3), a stored
refresh policy of 3 or more is read as 3, which is none of the three policies
that `RefreshAfterUserDefinedCleanup` handles: its `ASSERT(0)` fails. The
upper bound handed to `checkRange` is `REFRESHPOLICYCOUNT`, not
`REFRESHPOLICYCOUNT - 1`. -/
theorem ReadUserDefinedCleanup_refreshPolicy_unhandled :
    ReadUserDefinedCleanup_refreshPolicy 0 3
      (fun _ e => if e = entryRefreshPolicy then some 7 else none)
      "options\\userDefinedCleanup00" = 3 ∧
    RefreshAfterUserDefinedCleanup 0 1 2 sampleGetParent
      { enabled := true, virginTitle := false, title := [], worksForDrives := true,
        worksForDirectories := true, worksForFilesFolder := false, worksForFiles := false,
        worksForUncPaths := false, commandLine := [], recurseIntoSubdirectories := false,
        askForConfirmation := true, showConsoleWindow := true, waitForCompletion := true,
        refreshPolicy := ReadUserDefinedCleanup_refreshPolicy 0 3
          (fun _ e => if e = entryRefreshPolicy then some 7 else none)
          "options\\userDefinedCleanup00" } 1 = RefreshOutcome.assertFailed := by
  decide


/-- The refresh policy read lies between 0 and `REFRESHPOLICYCOUNT`, both
included, and every stored value from `REFRESHPOLICYCOUNT` on is read as
`REFRESHPOLICYCOUNT`. -/
theorem ReadUserDefinedCleanup_refreshPolicy_range (RP_NO_REFRESH REFRESHPOLICYCOUNT : Int)
    (store : ProfileStore) (sect : String) (h : 0 ≤ REFRESHPOLICYCOUNT) :
    (0 ≤ ReadUserDefinedCleanup_refreshPolicy RP_NO_REFRESH REFRESHPOLICYCOUNT store sect ∧
      ReadUserDefinedCleanup_refreshPolicy RP_NO_REFRESH REFRESHPOLICYCOUNT store sect ≤
        REFRESHPOLICYCOUNT) ∧
    ∀ x, store sect entryRefreshPolicy = some x → REFRESHPOLICYCOUNT ≤ x →
      ReadUserDefinedCleanup_refreshPolicy RP_NO_REFRESH REFRESHPOLICYCOUNT store sect =
        REFRESHPOLICYCOUNT := by
  refine ⟨checkRange_mem _ 0 _ h, ?_⟩
  intro x hx hge
  simp only [ReadUserDefinedCleanup_refreshPolicy]
  rw [getProfileInt_of_some _ _ _ _ x hx]
  simp only [checkRange]
  split_ifs <;> omega

/-- C19. `UserDefinedCleanupWorksForItem` returns true if and only if the item
is not `NULL`, the cleanup works for UNC paths or the item has no UNC path,
and the flag that matches the type of the item is set (`worksForDrives` for
`IT_DRIVE`, `worksForDirectories` for `IT_DIRECTORY`, `worksForFilesFolder`
for `IT_FILESFOLDER`, `worksForFiles` for `IT_FILE`); for an item of any other
type it returns false whatever the flags. -/
theorem UserDefinedCleanupWorksForItem_iff (GetType : CItem → ITEMTYPE)
    (HasUncPath : CItem → Bool) (udc : USERDEFINEDCLEANUP) (item : Option CItem) :
    (UserDefinedCleanupWorksForItem GetType HasUncPath udc item = true ↔
      ∃ it, item = some it ∧
        (udc.worksForUncPaths = true ∨ HasUncPath it = false) ∧
        ((GetType it = ITEMTYPE.IT_DRIVE ∧ udc.worksForDrives = true) ∨
         (GetType it = ITEMTYPE.IT_DIRECTORY ∧ udc.worksForDirectories = true) ∨
         (GetType it = ITEMTYPE.IT_FILESFOLDER ∧ udc.worksForFilesFolder = true) ∨
         (GetType it = ITEMTYPE.IT_FILE ∧ udc.worksForFiles = true))) ∧
    (∀ it, item = some it →
      (GetType it = ITEMTYPE.IT_MYCOMPUTER ∨ GetType it = ITEMTYPE.IT_FREESPACE ∨
        GetType it = ITEMTYPE.IT_UNKNOWN) →
      UserDefinedCleanupWorksForItem GetType HasUncPath udc item = false) := by
  cases item with
  | none => simp [UserDefinedCleanupWorksForItem]
  | some it =>
    constructor
    · simp only [UserDefinedCleanupWorksForItem, Option.some.injEq, exists_eq_left']
      cases hu : udc.worksForUncPaths <;> cases hp : HasUncPath it <;>
        cases ht : GetType it <;> simp
    · intro it1 h1 htype
      cases h1
      simp only [UserDefinedCleanupWorksForItem]
      rcases htype with h | h | h <;> rw [h] <;> simp


/-- C19 at `sampleCleanup`: it works for the directory 1, not for a directory
with a UNC path, and not for the free space item 4. -/
theorem UserDefinedCleanupWorksForItem_iff_witness :
    UserDefinedCleanupWorksForItem sampleGetType (fun _ => false) sampleCleanup (some 1) = true ∧
    UserDefinedCleanupWorksForItem sampleGetType (fun _ => true) sampleCleanup (some 1) = false ∧
    UserDefinedCleanupWorksForItem sampleGetType (fun _ => false) sampleCleanup (some 4) = false ∧
    UserDefinedCleanupWorksForItem sampleGetType (fun _ => false) sampleCleanup none = false :=
  ⟨(UserDefinedCleanupWorksForItem_iff sampleGetType (fun _ => false) sampleCleanup
      (some 1)).1.mpr ⟨1, rfl, Or.inr rfl, Or.inr (Or.inl ⟨by decide, by decide⟩)⟩,
   by decide,
   (UserDefinedCleanupWorksForItem_iff sampleGetType (fun _ => false) sampleCleanup
      (some 4)).2 4 rfl (Or.inr (Or.inl (by decide))),
   by decide⟩

/-! ## The command line of a user defined cleanup -/

theorem isPrefixOf_occurs (old s : CString) (h : old.isPrefixOf s = true) : old <:+: s := by
  have hp : old <+: s := List.isPrefixOf_iff_prefix.mp h
  exact hp.isInfix

theorem ReplaceFrom_of_absent (old new : CString) (s : CString) (h : ¬ old <:+: s) :
    ReplaceFrom old new 0 s = s := by
  induction s with
  | nil => simp [ReplaceFrom]
  | cons c rest ih =>
    have hrest : ¬ old <:+: rest := fun hi => h (hi.trans (List.suffix_cons c rest).isInfix)
    simp only [ReplaceFrom]
    rw [if_neg, ih hrest]
    rintro ⟨_, hp⟩
    exact h (isPrefixOf_occurs old _ hp)

/-- `Replace` leaves a string without occurrence of `old` as it is. -/
theorem Replace_of_absent (s old new : CString) (h : ¬ old <:+: s) : Replace s old new = s :=
  ReplaceFrom_of_absent old new s h

/-- A format that contains neither a placeholder nor one of the intermediate
markers `>p`, `>n`, `>sp`, `>sn` is returned unchanged. -/
theorem BuildUserDefinedCleanupCommandLine_unchanged (GetBaseNameFromPath : CString → CString)
    (format rootPath currentPath : CString)
    (h1 : ¬ "%p".toList <:+: format) (h2 : ¬ "%n".toList <:+: format)
    (h3 : ¬ "%sp".toList <:+: format) (h4 : ¬ "%sn".toList <:+: format)
    (h5 : ¬ ">p".toList <:+: format) (h6 : ¬ ">n".toList <:+: format)
    (h7 : ¬ ">sp".toList <:+: format) (h8 : ¬ ">sn".toList <:+: format) :
    BuildUserDefinedCleanupCommandLine GetBaseNameFromPath format rootPath currentPath =
      format := by
  simp only [BuildUserDefinedCleanupCommandLine]
  rw [Replace_of_absent format _ _ h1, Replace_of_absent format _ _ h2,
    Replace_of_absent format _ _ h3, Replace_of_absent format _ _ h4,
    Replace_of_absent format _ _ h5, Replace_of_absent format _ _ h6,
    Replace_of_absent format _ _ h7, Replace_of_absent format _ _ h8]

/-- C20 (the code departs from the claim). The format `dir /b >names.txt`
contains none of the placeholders `%p`, `%n`, `%sp`, `%sn`, yet the result is
not the format: the second round of replacements takes the `>n` of the
redirection for the marker of `%n` and puts the name of the root in its
place. -/
theorem BuildUserDefinedCleanupCommandLine_redirection :
    ¬ "%p".toList <:+: "dir /b >names.txt".toList ∧
    ¬ "%n".toList <:+: "dir /b >names.txt".toList ∧
    ¬ "%sp".toList <:+: "dir /b >names.txt".toList ∧
    ¬ "%sn".toList <:+: "dir /b >names.txt".toList ∧
    BuildUserDefinedCleanupCommandLine sampleGetBaseNameFromPath "dir /b >names.txt".toList
      "C:\\data\\music".toList "C:\\data\\music\\old".toList = "dir /b musicames.txt".toList ∧
    BuildUserDefinedCleanupCommandLine sampleGetBaseNameFromPath "dir /b >names.txt".toList
      "C:\\data\\music".toList "C:\\data\\music\\old".toList ≠ "dir /b >names.txt".toList := by
  decide


/-! ## Layout and hit test -/

/-- The rectangles of the members of a row lie inside the row and have no
pixel in common. -/
theorem LayoutRow_inside_apart (horizontal : Bool) (row : CRect) (sizes : List Nat)
    (hw : row.left ≤ row.right) (hh : row.top ≤ row.bottom) :
    (∀ r ∈ LayoutRow horizontal row sizes, r.Inside row) ∧
    (LayoutRow horizontal row sizes).Pairwise CRect.Apart := by
  by_cases hne : sizes.filter (fun s => decide (0 < s)) = []
  · simp [LayoutRow, hne, rowSpans]
  · cases horizontal with
    | true =>
      have hrow : rowStart true row ≤ rowEnd true row := by simpa [rowStart, rowEnd] using hw
      obtain ⟨i1, _, i3, _, _⟩ := rowSpans_spec true row
        (sizes.filter (fun s => decide (0 < s))).sum hrow _ (rowStart true row) 0 hne
        (rowStart_le_rowEdge true row _ 0 hrow) (by simp)
      have hs0 : rowStart true row = row.left := by simp [rowStart]
      have he0 : rowEnd true row = row.right := by simp [rowEnd]
      simp only [LayoutRow]
      constructor
      · intro r hr x y hin
        obtain ⟨p, hp, rfl⟩ := List.mem_map.mp hr
        obtain ⟨⟨h1, h2⟩, h3, h4⟩ := (PtInRect_memberRect_true row p.1 p.2 x y).mp hin
        obtain ⟨j1, _, j3⟩ := i1 p hp
        rw [hs0] at j1
        rw [he0] at j3
        exact ⟨by omega, by omega, h3, h4⟩
      · rw [List.pairwise_map]
        refine i3.imp ?_
        intro p q hpq x y hboth
        obtain ⟨⟨_, h2⟩, _⟩ := (PtInRect_memberRect_true row p.1 p.2 x y).mp hboth.1
        obtain ⟨⟨h3, _⟩, _⟩ := (PtInRect_memberRect_true row q.1 q.2 x y).mp hboth.2
        omega
    | false =>
      have hrow : rowStart false row ≤ rowEnd false row := by simpa [rowStart, rowEnd] using hh
      obtain ⟨i1, _, i3, _, _⟩ := rowSpans_spec false row
        (sizes.filter (fun s => decide (0 < s))).sum hrow _ (rowStart false row) 0 hne
        (rowStart_le_rowEdge false row _ 0 hrow) (by simp)
      have hs0 : rowStart false row = row.top := by simp [rowStart]
      have he0 : rowEnd false row = row.bottom := by simp [rowEnd]
      simp only [LayoutRow]
      constructor
      · intro r hr x y hin
        obtain ⟨p, hp, rfl⟩ := List.mem_map.mp hr
        obtain ⟨⟨h1, h2⟩, h3, h4⟩ := (PtInRect_memberRect_false row p.1 p.2 x y).mp hin
        obtain ⟨j1, _, j3⟩ := i1 p hp
        rw [hs0] at j1
        rw [he0] at j3
        exact ⟨h3, h4, by omega, by omega⟩
      · rw [List.pairwise_map]
        refine i3.imp ?_
        intro p q hpq x y hboth
        obtain ⟨⟨_, h2⟩, _⟩ := (PtInRect_memberRect_false row p.1 p.2 x y).mp hboth.1
        obtain ⟨⟨h3, _⟩, _⟩ := (PtInRect_memberRect_false row q.1 q.2 x y).mp hboth.2
        omega

/-- The strip of a closed row and the remainder: both keep the sides in
order, both lie inside the rectangle they are cut from, and they have no
pixel in common. -/
theorem rowStrip_rowRemainder (rem : CRect) (total rowSum : Nat)
    (hw : rem.left ≤ rem.right) (hh : rem.top ≤ rem.bottom) (hsum : rowSum ≤ total) :
    ((rowStrip rem total rowSum).left ≤ (rowStrip rem total rowSum).right ∧
      (rowStrip rem total rowSum).top ≤ (rowStrip rem total rowSum).bottom) ∧
    ((rowRemainder rem total rowSum).left ≤ (rowRemainder rem total rowSum).right ∧
      (rowRemainder rem total rowSum).top ≤ (rowRemainder rem total rowSum).bottom) ∧
    (rowStrip rem total rowSum).Inside rem ∧
    (rowRemainder rem total rowSum).Inside rem ∧
    (rowStrip rem total rowSum).Apart (rowRemainder rem total rowSum) := by
  have hx : rowStart true rem ≤ rowEnd true rem := by simpa [rowStart, rowEnd] using hw
  have hy : rowStart false rem ≤ rowEnd false rem := by simpa [rowStart, rowEnd] using hh
  have hx1 := rowStart_le_rowEdge true rem total rowSum hx
  have hx2 := rowEdge_le_rowEnd true rem total rowSum hx hsum
  have hy1 := rowStart_le_rowEdge false rem total rowSum hy
  have hy2 := rowEdge_le_rowEnd false rem total rowSum hy hsum
  simp only [rowStart, rowEnd, if_true, Bool.false_eq_true, if_false] at hx1 hx2 hy1 hy2
  unfold rowStrip rowRemainder CRect.Inside CRect.Apart CRect.PtInRect
  cases rowHorizontal rem
  · simp only [Bool.false_eq_true, if_false]
    refine ⟨⟨hx1, hh⟩, ⟨hx2, hh⟩, ?_, ?_, ?_⟩
    · intro x y h; omega
    · intro x y h; omega
    · intro x y h; omega
  · simp only [if_true]
    refine ⟨⟨hw, hy1⟩, ⟨hw, hy2⟩, ?_, ?_, ?_⟩
    · intro x y h; omega
    · intro x y h; omega
    · intro x y h; omega


/-- The rectangles that `Squarify` produces lie inside the remaining rectangle
and have no pixel in common. -/
theorem Squarify_inside_apart (rest : List Nat) :
    ∀ (rem : CRect) (row : List Nat), rem.left ≤ rem.right → rem.top ≤ rem.bottom →
      (∀ r ∈ Squarify rem row rest, r.Inside rem) ∧
      (Squarify rem row rest).Pairwise CRect.Apart := by
  induction rest with
  | nil =>
    intro rem row hw hh
    simp only [Squarify]
    exact LayoutRow_inside_apart _ rem row hw hh
  | cons s rest ih =>
    intro rem row hw hh
    simp only [Squarify]
    split_ifs with hadd
    · exact ih rem (row ++ [s]) hw hh
    · have hsum : row.sum ≤ row.sum + (s :: rest).sum := Nat.le_add_right _ _
      obtain ⟨⟨sw, sh⟩, ⟨rw1, rh1⟩, sin, rin, sapart⟩ :=
        rowStrip_rowRemainder rem (row.sum + (s :: rest).sum) row.sum hw hh hsum
      obtain ⟨a1, a2⟩ := LayoutRow_inside_apart (rowHorizontal rem)
        (rowStrip rem (row.sum + (s :: rest).sum) row.sum) row sw sh
      obtain ⟨b1, b2⟩ := ih (rowRemainder rem (row.sum + (s :: rest).sum) row.sum) [s] rw1 rh1
      constructor
      · intro r hr x y hin
        rcases List.mem_append.mp hr with h | h
        · exact sin x y (a1 r h x y hin)
        · exact rin x y (b1 r h x y hin)
      · refine List.pairwise_append.mpr ⟨a2, b2, ?_⟩
        intro r1 h1 r2 h2 x y hboth
        exact sapart x y ⟨a1 r1 h1 x y hboth.1, b1 r2 h2 x y hboth.2⟩

theorem GridShrink_inside (options : Options) (rc : CRect) : (GridShrink options rc).Inside rc := by
  intro x y h
  unfold GridShrink at h
  split_ifs at h
  · simp only [CRect.PtInRect] at h ⊢
    omega
  · exact h

/-- `AssignRects` hands out rectangles of the list, each at most once and in
order. -/
theorem AssignRects_spec (sizes : List Nat) :
    ∀ rects : List CRect, rects.Pairwise CRect.Apart →
      (∀ r, some r ∈ AssignRects sizes rects → r ∈ rects) ∧
      (AssignRects sizes rects).Pairwise
        (fun a b => ∀ ra rb, a = some ra → b = some rb → ra.Apart rb) := by
  induction sizes with
  | nil => intro rects _; simp [AssignRects]
  | cons s sizes ih =>
    intro rects hp
    cases rects with
    | nil =>
      obtain ⟨i1, i2⟩ := ih [] List.Pairwise.nil
      simp only [AssignRects]
      constructor
      · intro r hr
        rcases List.mem_cons.mp hr with h | h
        · cases h
        · exact i1 r h
      · refine List.pairwise_cons.mpr ⟨?_, i2⟩
        intro b _ ra rb h1 _
        cases h1
    | cons r0 rects =>
      simp only [AssignRects]
      split_ifs with hs
      · obtain ⟨i1, i2⟩ := ih (r0 :: rects) hp
        constructor
        · intro r hr
          rcases List.mem_cons.mp hr with h | h
          · cases h
          · exact i1 r h
        · refine List.pairwise_cons.mpr ⟨?_, i2⟩
          intro b _ ra rb h1 _
          cases h1
      · obtain ⟨hp1, hp2⟩ := List.pairwise_cons.mp hp
        obtain ⟨i1, i2⟩ := ih rects hp2
        constructor
        · intro r hr
          rcases List.mem_cons.mp hr with h | h
          · cases h
            exact List.mem_cons_self _ _
          · exact List.mem_cons_of_mem _ (i1 r h)
        · refine List.pairwise_cons.mpr ⟨?_, i2⟩
          intro b hb ra rb h1 h2
          cases h1
          subst h2
          exact hp1 rb (i1 rb hb)

/-- The rectangles that `LayoutChildren` assigns lie inside the rectangle of
the node and have no pixel in common. -/
theorem LayoutChildren_inside_apart (options : Options) (rect : CRect) (sizes : List Nat)
    (hw : rect.left ≤ rect.right) (hh : rect.top ≤ rect.bottom) :
    (∀ r, some r ∈ LayoutChildren options rect sizes → r.Inside rect) ∧
    (LayoutChildren options rect sizes).Pairwise
      (fun a b => ∀ ra rb, a = some ra → b = some rb → ra.Apart rb) := by
  obtain ⟨s1, s2⟩ := Squarify_inside_apart (sizes.filter (fun s => decide (0 < s))) rect [] hw hh
  have hp : ((Squarify rect [] (sizes.filter (fun s => decide (0 < s)))).map
      (GridShrink options)).Pairwise CRect.Apart := by
    rw [List.pairwise_map]
    refine s2.imp ?_
    intro a b hab x y hboth
    exact hab x y ⟨GridShrink_inside options a x y hboth.1, GridShrink_inside options b x y hboth.2⟩
  obtain ⟨a1, a2⟩ := AssignRects_spec sizes _ hp
  simp only [LayoutChildren]
  refine ⟨?_, a2⟩
  intro r hr x y hin
  obtain ⟨r0, hr0, rfl⟩ := List.mem_map.mp (a1 r hr)
  exact s1 r0 hr0 x y (GridShrink_inside options r0 x y hin)


theorem ScanLayout_none (layout : List (List Nat × CRect)) (x y : Int)
    (h : ∀ p ∈ layout, ¬ p.2.PtInRect x y) : ScanLayout layout x y = none := by
  simp only [ScanLayout, Option.map_eq_none', List.find?_eq_none, decide_eq_true_eq]
  exact h

theorem ScanLayout_append_of_some (l1 l2 : List (List Nat × CRect)) (x y : Int) (v : List Nat)
    (h : ScanLayout l1 x y = some v) : ScanLayout (l1 ++ l2) x y = some v := by
  simp only [ScanLayout, List.find?_append] at h ⊢
  cases hf : l1.find? (fun p => decide (p.2.PtInRect x y)) with
  | none => rw [hf] at h; simp at h
  | some e => rw [hf] at h; simpa using h

theorem ScanLayout_append_of_none (l1 l2 : List (List Nat × CRect)) (x y : Int)
    (h : ScanLayout l1 x y = none) : ScanLayout (l1 ++ l2) x y = ScanLayout l2 x y := by
  simp only [ScanLayout, List.find?_append] at h ⊢
  cases hf : l1.find? (fun p => decide (p.2.PtInRect x y)) with
  | none => simp
  | some e => rw [hf] at h; simp at h

theorem ScanLayout_map (layout : List (List Nat × CRect)) (x y : Int) (i : Nat) :
    ScanLayout (layout.map (fun p => (i :: p.1, p.2))) x y =
      (ScanLayout layout x y).map (fun p => i :: p) := by
  induction layout with
  | nil => rfl
  | cons e rest ih =>
    simp only [ScanLayout, List.map_cons, List.find?_cons] at ih ⊢
    by_cases he : e.2.PtInRect x y
    · simp [he]
    · simp only [he, decide_False]
      exact ih

/-- In a layout whose rectangles have no pixel in common, the scan finds the
one entry whose rectangle contains the point. -/
theorem ScanLayout_of_mem (layout : List (List Nat × CRect)) (x y : Int)
    (hp : layout.Pairwise (fun p q => p.2.Apart q.2)) (e : List Nat × CRect) (he : e ∈ layout)
    (hin : e.2.PtInRect x y) : ScanLayout layout x y = some e.1 := by
  induction layout with
  | nil => simp at he
  | cons e0 rest ih =>
    obtain ⟨h1, h2⟩ := List.pairwise_cons.mp hp
    rcases List.mem_cons.mp he with h | h
    · subst h
      simp [ScanLayout, List.find?_cons, hin]
    · have h0 : ¬ e0.2.PtInRect x y := fun h0 => h1 e h x y ⟨h0, hin⟩
      have := ih h2 h
      simp only [ScanLayout, List.find?_cons, h0, decide_False] at this ⊢
      exact this


mutual

/-- The layout of a node lies inside its rectangle, its rectangles have no
pixel in common, and the hit test agrees with the scan of the layout. -/
theorem ComputeLayout_spec (minArea : Int) (options : Options) (x y : Int) :
    ∀ (node : Item) (rect : CRect),
      (∀ p ∈ ComputeLayout minArea options node rect, p.2.Inside rect) ∧
      (ComputeLayout minArea options node rect).Pairwise (fun p q => p.2.Apart q.2) ∧
      FindItemAt minArea options x y node rect =
        ScanLayout (ComputeLayout minArea options node rect) x y
  | Item.mk size isLeaf children, rect => by
    by_cases hdrop : rect.Width ≤ 0 ∨ rect.Height ≤ 0 ∨ rect.Area < minArea ∨ size = 0
    · simp only [ComputeLayout, FindItemAt, hdrop, if_true]
      refine ⟨fun p hp => absurd hp (List.not_mem_nil _), List.Pairwise.nil, ?_⟩
      split_ifs <;> rfl
    · by_cases hleaf : isLeaf = true
      · simp only [ComputeLayout, FindItemAt, hdrop, if_false, hleaf, if_true]
        refine ⟨?_, List.pairwise_singleton _ _, ?_⟩
        · intro p hp
          rw [List.mem_singleton.mp hp]
          exact fun _ _ h => h
        · by_cases hin : rect.PtInRect x y
          · simp [ScanLayout, List.find?_cons, hin]
          · simp [ScanLayout, List.find?_cons, hin]
      · have hw : rect.left ≤ rect.right := by
          have : ¬ rect.Width ≤ 0 := fun h => hdrop (Or.inl h)
          simp only [CRect.Width] at this
          omega
        have hh : rect.top ≤ rect.bottom := by
          have : ¬ rect.Height ≤ 0 := fun h => hdrop (Or.inr (Or.inl h))
          simp only [CRect.Height] at this
          omega
        obtain ⟨l1, l2⟩ :=
          LayoutChildren_inside_apart options rect (children.map Item.size) hw hh
        obtain ⟨c1, c2, c3⟩ := ComputeLayoutChildren_spec minArea options x y children
          (LayoutChildren options rect (children.map Item.size)) 0 l2
        have hinside : ∀ p ∈ ComputeLayoutChildren minArea options children
            (LayoutChildren options rect (children.map Item.size)) 0, p.2.Inside rect := by
          intro p hp
          obtain ⟨rc, hrc, hprc⟩ := c1 p hp
          exact fun a b h => l1 rc hrc a b (hprc a b h)
        simp only [ComputeLayout, FindItemAt, hdrop, if_false, hleaf]
        refine ⟨hinside, c2, ?_⟩
        by_cases hin : rect.PtInRect x y
        · simp only [hin, not_true_eq_false, if_false]
          exact c3
        · simp only [hin, not_false_eq_true, if_true]
          exact (ScanLayout_none _ x y (fun p hp h => hin (hinside p hp x y h))).symm

/-- The layouts of the children lie inside the rectangles assigned to them,
have no pixel in common when the assigned rectangles have none, and the
search among the children agrees with the scan. -/
theorem ComputeLayoutChildren_spec (minArea : Int) (options : Options) (x y : Int) :
    ∀ (children : List Item) (rects : List (Option CRect)) (i : Nat),
      rects.Pairwise (fun a b => ∀ ra rb, a = some ra → b = some rb → ra.Apart rb) →
      (∀ p ∈ ComputeLayoutChildren minArea options children rects i,
        ∃ rc, some rc ∈ rects ∧ p.2.Inside rc) ∧
      (ComputeLayoutChildren minArea options children rects i).Pairwise
        (fun p q => p.2.Apart q.2) ∧
      FindItemAtChildren minArea options x y children rects i =
        ScanLayout (ComputeLayoutChildren minArea options children rects i) x y
  | [], rects, i => by
    intro _
    simp only [ComputeLayoutChildren, FindItemAtChildren]
    exact ⟨fun p hp => absurd hp (List.not_mem_nil _), List.Pairwise.nil, rfl⟩
  | _ :: _, [], i => by
    intro _
    simp only [ComputeLayoutChildren, FindItemAtChildren]
    exact ⟨fun p hp => absurd hp (List.not_mem_nil _), List.Pairwise.nil, rfl⟩
  | _ :: children, none :: rects, i => by
    intro hp
    obtain ⟨_, hp2⟩ := List.pairwise_cons.mp hp
    obtain ⟨c1, c2, c3⟩ :=
      ComputeLayoutChildren_spec minArea options x y children rects (i + 1) hp2
    simp only [ComputeLayoutChildren, FindItemAtChildren]
    refine ⟨?_, c2, c3⟩
    intro p hmem
    obtain ⟨rc, hrc, hin⟩ := c1 p hmem
    exact ⟨rc, List.mem_cons_of_mem _ hrc, hin⟩
  | child :: children, some rc :: rects, i => by
    intro hp
    obtain ⟨hp1, hp2⟩ := List.pairwise_cons.mp hp
    obtain ⟨c1, c2, c3⟩ :=
      ComputeLayoutChildren_spec minArea options x y children rects (i + 1) hp2
    obtain ⟨n1, n2, n3⟩ := ComputeLayout_spec minArea options x y child rc
    simp only [ComputeLayoutChildren, FindItemAtChildren]
    refine ⟨?_, ?_, ?_⟩
    · intro p hmem
      rcases List.mem_append.mp hmem with h | h
      · obtain ⟨q, hq, rfl⟩ := List.mem_map.mp h
        exact ⟨rc, List.mem_cons_self _ _, n1 q hq⟩
      · obtain ⟨rc1, hrc1, hin⟩ := c1 p h
        exact ⟨rc1, List.mem_cons_of_mem _ hrc1, hin⟩
    · refine List.pairwise_append.mpr ⟨?_, c2, ?_⟩
      · rw [List.pairwise_map]
        exact n2
      · intro p hmem q hq a b hboth
        obtain ⟨p0, hp0, rfl⟩ := List.mem_map.mp hmem
        obtain ⟨rc1, hrc1, hin⟩ := c1 q hq
        exact hp1 (some rc1) hrc1 rc rc1 rfl rfl a b ⟨n1 p0 hp0 a b hboth.1, hin a b hboth.2⟩
    · by_cases hin : rc.PtInRect x y
      · simp only [hin, if_true]
        rw [n3]
        cases hscan : ScanLayout (ComputeLayout minArea options child rc) x y with
        | some v =>
          have h1 : ScanLayout ((ComputeLayout minArea options child rc).map
              (fun p => (i :: p.1, p.2))) x y = some (i :: v) := by
            rw [ScanLayout_map, hscan]; rfl
          rw [ScanLayout_append_of_some _ _ x y _ h1]
          rfl
        | none =>
          have h1 : ScanLayout ((ComputeLayout minArea options child rc).map
              (fun p => (i :: p.1, p.2))) x y = none := by
            rw [ScanLayout_map, hscan]; rfl
          rw [ScanLayout_append_of_none _ _ x y h1]
          have h2 : ScanLayout (ComputeLayoutChildren minArea options children rects (i + 1))
              x y = none := by
            apply ScanLayout_none
            intro q hq hqin
            obtain ⟨rc1, hrc1, hins⟩ := c1 q hq
            exact hp1 (some rc1) hrc1 rc rc1 rfl rfl x y ⟨hin, hins x y hqin⟩
          rw [h2]
          rfl
      · simp only [hin, if_false]
        have h1 : ScanLayout ((ComputeLayout minArea options child rc).map
            (fun p => (i :: p.1, p.2))) x y = none := by
          apply ScanLayout_none
          intro q hq hqin
          obtain ⟨q0, hq0, rfl⟩ := List.mem_map.mp hq
          exact hin (n1 q0 hq0 x y hqin)
        rw [ScanLayout_append_of_none _ _ x y h1]
        exact c3

end


/-- C11. Hit-test/layout consistency: for every tree, rectangle, options,
threshold and point, `FindItemAt` returns what the brute-force scan of
`ComputeLayout` returns for the point; a leaf whose rectangle in the layout
contains the point is the leaf that `FindItemAt` returns; and `FindItemAt`
returns no item for a point outside the rectangle. -/
theorem FindItemAt_consistent (minArea : Int) (options : Options) (tree : Item) (rect : CRect)
    (x y : Int) :
    FindItemAt minArea options x y tree rect =
      ScanLayout (ComputeLayout minArea options tree rect) x y ∧
    (∀ path r, (path, r) ∈ ComputeLayout minArea options tree rect → r.PtInRect x y →
      FindItemAt minArea options x y tree rect = some path) ∧
    (¬ rect.PtInRect x y → FindItemAt minArea options x y tree rect = none) := by
  obtain ⟨h1, h2, h3⟩ := ComputeLayout_spec minArea options x y tree rect
  refine ⟨h3, ?_, ?_⟩
  · intro path r hmem hin
    rw [h3]
    exact ScanLayout_of_mem _ x y h2 (path, r) hmem hin
  · intro hout
    rw [h3]
    exact ScanLayout_none _ x y (fun p hp h => hout (h1 p hp x y h))

/-- C11 at `sampleTree` in a rectangle of 100 by 60 pixels with the grid on:
the point (70, 3) lies in the rectangle of the first file of the inner
directory, the point (59, 3) on a grid line, the point (100, 3) outside. -/
theorem FindItemAt_consistent_witness :
    FindItemAt 1 { sampleOptions with grid := true } 70 3 sampleTree ⟨0, 0, 100, 60⟩ =
      ScanLayout (ComputeLayout 1 { sampleOptions with grid := true } sampleTree
        ⟨0, 0, 100, 60⟩) 70 3 ∧
    FindItemAt 1 { sampleOptions with grid := true } 70 3 sampleTree ⟨0, 0, 100, 60⟩ =
      some [2, 0] ∧
    FindItemAt 1 { sampleOptions with grid := true } 59 3 sampleTree ⟨0, 0, 100, 60⟩ = none ∧
    FindItemAt 1 { sampleOptions with grid := true } 100 3 sampleTree ⟨0, 0, 100, 60⟩ = none := by
  refine ⟨(FindItemAt_consistent 1 { sampleOptions with grid := true } sampleTree
    ⟨0, 0, 100, 60⟩ 70 3).1, ?_, ?_,
    (FindItemAt_consistent 1 { sampleOptions with grid := true } sampleTree
    ⟨0, 0, 100, 60⟩ 100 3).2.2 (by decide)⟩
  · decide!
  · decide!


/-! ## The motion of the pacman -/

theorem UpdatePositionLoop_of_diff_zero (fuel : Nat) (s : PositionState) (h : s.diff = 0) :
    UpdatePositionLoop fuel s = some s := by
  cases fuel <;> simp [UpdatePositionLoop, h]

/-- A result reached within `fuel` passes is the result for every larger
bound. -/
theorem UpdatePositionLoop_succ (fuel : Nat) :
    ∀ (s r : PositionState), UpdatePositionLoop fuel s = some r →
      UpdatePositionLoop (fuel + 1) s = some r := by
  induction fuel with
  | zero =>
    intro s r h
    simp only [UpdatePositionLoop] at h ⊢
    split_ifs at h with hd
    rw [if_neg hd]
    exact h
  | succ n ih =>
    intro s r h
    rw [UpdatePositionLoop] at h ⊢
    split_ifs at h ⊢ with hd
    · exact ih _ r h
    · exact h

theorem UpdatePositionLoop_mono (fuel fuel1 : Nat) (hle : fuel ≤ fuel1) (s r : PositionState)
    (h : UpdatePositionLoop fuel s = some r) : UpdatePositionLoop fuel1 s = some r := by
  induction hle with
  | refl => exact h
  | step _ ih => exact UpdatePositionLoop_succ _ s r ih

/-- From an end of the interval, heading inwards, the loop is left after at
most `fuel` passes when `diff ≤ fuel`. -/
theorem UpdatePositionLoop_from_end (fuel : Nat) :
    ∀ s : PositionState,
      (s.position = 1 ∧ s.up = false ∨ s.position = 0 ∧ s.up = true) →
      0 ≤ s.diff → s.diff ≤ (fuel : ℚ) →
      ∃ r, UpdatePositionLoop fuel s = some r ∧ r.diff = 0 ∧ 0 ≤ r.position ∧ r.position ≤ 1 := by
  induction fuel with
  | zero =>
    intro s hend h0 hle
    have hz : s.diff = 0 := le_antisymm (by simpa using hle) h0
    refine ⟨s, UpdatePositionLoop_of_diff_zero 0 s hz, hz, ?_, ?_⟩ <;>
      rcases hend with ⟨h, _⟩ | ⟨h, _⟩ <;> rw [h] <;> norm_num
  | succ n ih =>
    intro s hend h0 hle
    by_cases hd : s.diff > 0
    · rw [UpdatePositionLoop, if_pos hd]
      have hle1 : s.diff - 1 ≤ (n : ℚ) := by
        have : ((n + 1 : Nat) : ℚ) = (n : ℚ) + 1 := by push_cast; ring
        rw [this] at hle
        linarith
      rcases hend with ⟨hp, hu⟩ | ⟨hp, hu⟩
      · by_cases hover : s.position - s.diff < 0
        · have hbody : UpdatePositionBody s =
              { diff := -(s.position - s.diff), position := 0, up := true } := by
            simp [UpdatePositionBody, hu, hover]
          rw [hbody]
          apply ih
          · right; exact ⟨rfl, rfl⟩
          · show 0 ≤ -(s.position - s.diff)
            linarith
          · show -(s.position - s.diff) ≤ (n : ℚ)
            rw [hp]; linarith
        · have hbody : UpdatePositionBody s =
              { position := s.position - s.diff, diff := 0, up := s.up } := by
            simp [UpdatePositionBody, hu, hover]
          rw [hbody]
          refine ⟨_, UpdatePositionLoop_of_diff_zero n _ rfl, rfl, ?_, ?_⟩
          · show 0 ≤ s.position - s.diff
            linarith
          · show s.position - s.diff ≤ 1
            rw [hp]; linarith
      · by_cases hover : s.position + s.diff > 1
        · have hbody : UpdatePositionBody s =
              { diff := s.position + s.diff - 1, position := 1, up := false } := by
            simp [UpdatePositionBody, hu, hover]
          rw [hbody]
          apply ih
          · left; exact ⟨rfl, rfl⟩
          · show 0 ≤ s.position + s.diff - 1
            linarith
          · show s.position + s.diff - 1 ≤ (n : ℚ)
            rw [hp]; linarith
        · have hbody : UpdatePositionBody s =
              { position := s.position + s.diff, diff := 0, up := s.up } := by
            simp [UpdatePositionBody, hu, hover]
          rw [hbody]
          refine ⟨_, UpdatePositionLoop_of_diff_zero n _ rfl, rfl, ?_, ?_⟩
          · show 0 ≤ s.position + s.diff
            rw [hp]; linarith
          · show s.position + s.diff ≤ 1
            linarith
    · have hz : s.diff = 0 := le_antisymm (not_lt.mp hd) h0
      refine ⟨s, UpdatePositionLoop_of_diff_zero _ s hz, hz, ?_, ?_⟩ <;>
        rcases hend with ⟨h, _⟩ | ⟨h, _⟩ <;> rw [h] <;> norm_num

/-- From any position in [0, 1] the loop is left after at most `fuel + 1`
passes when `diff ≤ fuel`. -/
theorem UpdatePositionLoop_from_inside (fuel : Nat) (s : PositionState)
    (hp0 : 0 ≤ s.position) (hp1 : s.position ≤ 1) (h0 : 0 ≤ s.diff)
    (hle : s.diff ≤ (fuel : ℚ)) :
    ∃ r, UpdatePositionLoop (fuel + 1) s = some r ∧ r.diff = 0 ∧
      0 ≤ r.position ∧ r.position ≤ 1 := by
  by_cases hd : s.diff > 0
  · rw [UpdatePositionLoop, if_pos hd]
    cases hu : s.up with
    | true =>
      by_cases hover : s.position + s.diff > 1
      · have hbody : UpdatePositionBody s =
            { diff := s.position + s.diff - 1, position := 1, up := false } := by
          simp [UpdatePositionBody, hu, hover]
        rw [hbody]
        apply UpdatePositionLoop_from_end
        · left; exact ⟨rfl, rfl⟩
        · show 0 ≤ s.position + s.diff - 1
          linarith
        · show s.position + s.diff - 1 ≤ (fuel : ℚ)
          linarith
      · have hbody : UpdatePositionBody s =
            { position := s.position + s.diff, diff := 0, up := s.up } := by
          simp [UpdatePositionBody, hu, hover]
        rw [hbody]
        refine ⟨_, UpdatePositionLoop_of_diff_zero fuel _ rfl, rfl, ?_, ?_⟩
        · show 0 ≤ s.position + s.diff
          linarith
        · show s.position + s.diff ≤ 1
          linarith
    | false =>
      by_cases hover : s.position - s.diff < 0
      · have hbody : UpdatePositionBody s =
            { diff := -(s.position - s.diff), position := 0, up := true } := by
          simp [UpdatePositionBody, hu, hover]
        rw [hbody]
        apply UpdatePositionLoop_from_end
        · right; exact ⟨rfl, rfl⟩
        · show 0 ≤ -(s.position - s.diff)
          linarith
        · show -(s.position - s.diff) ≤ (fuel : ℚ)
          linarith
      · have hbody : UpdatePositionBody s =
            { position := s.position - s.diff, diff := 0, up := s.up } := by
          simp [UpdatePositionBody, hu, hover]
        rw [hbody]
        refine ⟨_, UpdatePositionLoop_of_diff_zero fuel _ rfl, rfl, ?_, ?_⟩
        · show 0 ≤ s.position - s.diff
          linarith
        · show s.position - s.diff ≤ 1
          linarith
  · have hz : s.diff = 0 := le_antisymm (not_lt.mp hd) h0
    exact ⟨s, UpdatePositionLoop_of_diff_zero _ s hz, hz, hp0, hp1⟩

theorem le_ceil_toNat (q : ℚ) : q ≤ ((⌈q⌉.toNat : Nat) : ℚ) := by
  have h1 : q ≤ ((⌈q⌉ : Int) : ℚ) := Int.le_ceil q
  have h2 : (⌈q⌉ : Int) ≤ ((⌈q⌉.toNat : Nat) : Int) := Int.self_le_toNat _
  have h3 : ((⌈q⌉ : Int) : ℚ) ≤ (((⌈q⌉.toNat : Nat) : Int) : ℚ) := by exact_mod_cast h2
  calc q ≤ ((⌈q⌉ : Int) : ℚ) := h1
    _ ≤ (((⌈q⌉.toNat : Nat) : Int) : ℚ) := h3
    _ = ((⌈q⌉.toNat : Nat) : ℚ) := by push_cast; rfl

/-- C21. Over exact arithmetic, for every position in [0, 1], every direction
and every `diff ≥ 0` (the assertions of `UpdatePosition`), the loop of
`UpdatePosition` ends, after at most `⌈diff⌉ + 1` passes: with any bound on
the passes from there on the result is the same, `diff` is consumed (it is 0)
and the position lies in [0, 1] again, so the assertions hold at the next
call. -/
theorem UpdatePosition_terminates (position : ℚ) (up : Bool) (diff : ℚ)
    (hp0 : 0 ≤ position) (hp1 : position ≤ 1) (hd : 0 ≤ diff) :
    ∃ r : PositionState,
      (∀ fuel, ⌈diff⌉.toNat + 1 ≤ fuel →
        UpdatePositionLoop fuel { position := position, up := up, diff := diff } = some r) ∧
      r.diff = 0 ∧ 0 ≤ r.position ∧ r.position ≤ 1 ∧
      ∀ diff1, 0 ≤ diff1 →
        UpdatePositionAsserts { position := r.position, up := r.up, diff := diff1 } = true := by
  obtain ⟨r, hr, h1, h2, h3⟩ := UpdatePositionLoop_from_inside ⌈diff⌉.toNat
    { position := position, up := up, diff := diff } hp0 hp1 hd (le_ceil_toNat diff)
  refine ⟨r, ?_, h1, h2, h3, ?_⟩
  · intro fuel hfuel
    exact UpdatePositionLoop_mono _ fuel hfuel _ r hr
  · intro diff1 hd1
    simp [UpdatePositionAsserts, hd1, h2, h3]


/-- C21 at the position 3/4, heading up, with `diff` 7/2: five passes are
needed and suffice, and the position is left at 1/4, heading up. -/
theorem UpdatePosition_terminates_witness :
    UpdatePositionLoop 4 { position := 3 / 4, up := true, diff := 7 / 2 } = none ∧
    UpdatePositionLoop 5 { position := 3 / 4, up := true, diff := 7 / 2 } =
      some { position := 1 / 4, up := true, diff := 0 } ∧
    ∃ r : PositionState,
      (∀ fuel, ⌈(7 / 2 : ℚ)⌉.toNat + 1 ≤ fuel →
        UpdatePositionLoop fuel { position := 3 / 4, up := true, diff := 7 / 2 } = some r) ∧
      r.diff = 0 ∧ 0 ≤ r.position ∧ r.position ≤ 1 ∧
      ∀ diff1, 0 ≤ diff1 →
        UpdatePositionAsserts { position := r.position, up := r.up, diff := diff1 } = true := by
  refine ⟨?_, ?_, UpdatePosition_terminates (3 / 4) true (7 / 2) (by norm_num) (by norm_num)
    (by norm_num)⟩
  · decide!
  · decide!

/-- The loop of `UpdatePosition` from a position in [0, 1] with `diff ≥ 0`:
one result for every bound on the passes from `⌈diff⌉ + 1` on, with `diff`
consumed and the position in [0, 1]. -/
theorem UpdatePosition_positions (position : ℚ) (up : Bool) (diff : ℚ)
    (hp0 : 0 ≤ position) (hp1 : position ≤ 1) (hd : 0 ≤ diff) :
    ∃ r : PositionState,
      (∀ fuel, ⌈diff⌉.toNat + 1 ≤ fuel →
        UpdatePositionLoop fuel { position := position, up := up, diff := diff } = some r) ∧
      r.diff = 0 ∧ 0 ≤ r.position ∧ r.position ≤ 1 := by
  obtain ⟨r, hr, h1, h2, h3⟩ := UpdatePositionLoop_from_inside ⌈diff⌉.toNat
    { position := position, up := up, diff := diff } hp0 hp1 hd (le_ceil_toNat diff)
  exact ⟨r, fun fuel hfuel => UpdatePositionLoop_mono _ fuel hfuel _ r hr, h1, h2, h3⟩

/-- `Drive` keeps the position and the aperture in [0, 1] as long as the speed
is not negative: its two calls of `UpdatePosition` meet the assertions and
end, and the members it leaves meet them again. -/
theorem Drive_keeps_positions (p : CPacman) (readJobs now : Nat)
    (hpos : 0 ≤ p.m_position ∧ p.m_position ≤ 1)
    (hap : 0 ≤ p.m_aperture ∧ p.m_aperture ≤ 1) (hspeed : 0 ≤ p.m_speed) :
    ∃ (n : Nat) (res : CPacman × Bool),
      (∀ fuel, n ≤ fuel → Drive fuel p readJobs now = some res) ∧
      (0 ≤ res.1.m_position ∧ res.1.m_position ≤ 1) ∧
      (0 ≤ res.1.m_aperture ∧ res.1.m_aperture ≤ 1) ∧ res.1.m_speed = p.m_speed := by
  by_cases hm : p.m_moving = true
  · by_cases hdelta : tickDelta now p.m_lastUpdate < UPDATEINTERVAL
    · refine ⟨0, ({ p with m_readJobs := (readJobs : ℚ) }, false), ?_, hpos, hap, rfl⟩
      intro fuel _
      simp [Drive, hm, hdelta]
    · have hd1 : 0 ≤ p.m_speed * ((tickDelta now p.m_lastUpdate : Nat) : ℚ) :=
        mul_nonneg hspeed (Nat.cast_nonneg _)
      have hd2 : 0 ≤ MOUTHSPEED * ((tickDelta now p.m_lastUpdate : Nat) : ℚ) :=
        mul_nonneg (by norm_num [MOUTHSPEED]) (Nat.cast_nonneg _)
      obtain ⟨r1, e1, _, a1, b1⟩ :=
        UpdatePosition_positions p.m_position p.m_toTheRight _ hpos.1 hpos.2 hd1
      obtain ⟨r2, e2, _, a2, b2⟩ :=
        UpdatePosition_positions p.m_aperture p.m_mouthOpening _ hap.1 hap.2 hd2
      refine ⟨max (⌈p.m_speed * ((tickDelta now p.m_lastUpdate : Nat) : ℚ)⌉.toNat + 1)
          (⌈MOUTHSPEED * ((tickDelta now p.m_lastUpdate : Nat) : ℚ)⌉.toNat + 1),
        ({ p with m_readJobs := (readJobs : ℚ), m_lastUpdate := now,
                  m_position := r1.position, m_toTheRight := r1.up,
                  m_aperture := r2.position, m_mouthOpening := r2.up }, true),
        ?_, ⟨a1, b1⟩, ⟨a2, b2⟩, rfl⟩
      intro fuel hfuel
      have f1 := e1 fuel (le_trans (le_max_left _ _) hfuel)
      have f2 := e2 fuel (le_trans (le_max_right _ _) hfuel)
      simp only [Drive, hm, Bool.not_true, Bool.false_eq_true, if_false, hdelta]
      rw [f1]
      simp only
      rw [f2]
  · refine ⟨0, ({ p with m_readJobs := (readJobs : ℚ) }, false), ?_, hpos, hap, rfl⟩
    intro fuel _
    simp [Drive, hm]


/-! ## The rows of the layout -/

/-- The rectangles of `Squarify` are those of the members of the rows of
`SquarifyRows`, row after row. -/
theorem Squarify_eq_rows (rest : List Nat) :
    ∀ (rem : CRect) (row : List Nat),
      Squarify rem row rest = ((SquarifyRows rem row rest).map Prod.snd).flatten := by
  induction rest with
  | nil =>
    intro rem row
    simp only [Squarify, SquarifyRows]
    split_ifs with h
    · subst h
      simp [LayoutRow, rowSpans]
    · simp
  | cons s rest ih =>
    intro rem row
    simp only [Squarify, SquarifyRows]
    split_ifs with hadd
    · exact ih rem (row ++ [s])
    · rw [ih]
      simp

/-- The rectangles that `LayoutChildren` hands to the children are those of
the members of the rows of `LayoutRows`, row after row. -/
theorem LayoutChildren_eq_rows (options : Options) (rect : CRect) (sizes : List Nat) :
    LayoutChildren options rect sizes =
      AssignRects sizes (((LayoutRows options rect sizes).map Prod.snd).flatten) := by
  simp only [LayoutChildren, LayoutRows, Squarify_eq_rows, List.map_flatten, List.map_map]
  rfl

/-- The layout of a node that is no leaf hands its children the rectangles
of the members of the rows of `NodeRows`, row after row. -/
theorem ComputeLayout_rows (minArea : Int) (options : Options) (size : Nat)
    (children : List Item) (rect : CRect) :
    ComputeLayout minArea options (Item.mk size false children) rect =
      if rect.Width ≤ 0 ∨ rect.Height ≤ 0 ∨ rect.Area < minArea ∨ size = 0 then []
      else ComputeLayoutChildren minArea options children
        (AssignRects (children.map Item.size)
          (((NodeRows minArea options (Item.mk size false children) rect).map
            Prod.snd).flatten)) 0 := by
  simp only [ComputeLayout, NodeRows]
  split_ifs with h h1
  · rfl
  · exact absurd h1 (by simp)
  · rw [LayoutChildren_eq_rows]

/-- Every row of `SquarifyRows` is partitioned by the rectangles assigned to
its members: a pixel lies in the row exactly when it lies in the rectangle of
some member, no two of these rectangles have a pixel in common, and the last
one ends at the far side of the row. -/
theorem SquarifyRows_tiles (rest : List Nat) :
    ∀ (rem : CRect) (row : List Nat), rem.left ≤ rem.right → rem.top ≤ rem.bottom →
      (∀ s ∈ row, 0 < s) → (∀ s ∈ rest, 0 < s) →
      ∀ p ∈ SquarifyRows rem row rest,
        (∀ x y, p.1.PtInRect x y ↔ ∃ r ∈ p.2, r.PtInRect x y) ∧
        p.2.Pairwise CRect.Apart ∧
        (∃ r, p.2.getLast? = some r ∧ r.right = p.1.right ∧ r.bottom = p.1.bottom) := by
  induction rest with
  | nil =>
    intro rem row hw hh hpos _ p hp
    simp only [SquarifyRows] at hp
    split_ifs at hp with hrow
    · simp at hp
    · rw [List.mem_singleton.mp hp]
      obtain ⟨s, hs⟩ := List.exists_mem_of_ne_nil row hrow
      obtain ⟨t1, t2, _, t4, _⟩ :=
        LayoutRow_tiles (rowHorizontal rem) rem row hw hh ⟨s, hs, hpos s hs⟩
      exact ⟨t1, t2, t4⟩
  | cons s rest ih =>
    intro rem row hw hh hpos hrest p hp
    have hs0 : 0 < s := hrest s (List.mem_cons_self _ _)
    have hrest1 : ∀ t ∈ rest, 0 < t := fun t ht => hrest t (List.mem_cons_of_mem _ ht)
    simp only [SquarifyRows] at hp
    split_ifs at hp with hadd
    · refine ih rem (row ++ [s]) hw hh ?_ hrest1 p hp
      intro t ht
      rcases List.mem_append.mp ht with h | h
      · exact hpos t h
      · rw [List.mem_singleton.mp h]
        exact hs0
    · have hrow : row ≠ [] := fun h => hadd (Or.inl h)
      have hsum : row.sum ≤ row.sum + (s :: rest).sum := Nat.le_add_right _ _
      obtain ⟨⟨sw, sh⟩, ⟨rw1, rh1⟩, _, _, _⟩ :=
        rowStrip_rowRemainder rem (row.sum + (s :: rest).sum) row.sum hw hh hsum
      rcases List.mem_cons.mp hp with h | h
      · rw [h]
        obtain ⟨t, ht⟩ := List.exists_mem_of_ne_nil row hrow
        obtain ⟨t1, t2, _, t4, _⟩ :=
          LayoutRow_tiles (rowHorizontal rem) (rowStrip rem (row.sum + (s :: rest).sum) row.sum)
            row sw sh ⟨t, ht, hpos t ht⟩
        exact ⟨t1, t2, t4⟩
      · refine ih (rowRemainder rem (row.sum + (s :: rest).sum) row.sum) [s] rw1 rh1 ?_ hrest1 p h
        intro t ht
        rw [List.mem_singleton.mp ht]
        exact hs0

/-- C10, where the claim fails: the node of the scenario in a rectangle of 100
by 10 pixels with the grid option on. The engine produces the row
`[0, 60) x [0, 10)` with one member, which is given `[0, 59) x [0, 9)`: the
pixel (59, 0) lies in the row and in no member rectangle. -/
theorem NodeRows_grid_gap :
    ((⟨0, 0, 60, 10⟩, [⟨0, 0, 59, 9⟩]) : CRect × List CRect) ∈
      NodeRows 0 { sampleOptions with grid := true } scenarioNode ⟨0, 0, 100, 10⟩ ∧
    (⟨0, 0, 60, 10⟩ : CRect).PtInRect 59 0 ∧
    ¬ ∃ r ∈ [(⟨0, 0, 59, 9⟩ : CRect)], r.PtInRect 59 0 := by
  refine ⟨by decide!, by decide, by decide⟩

/-- C10, amended. For every node, rectangle and options, in every row or
column that the layout engine produces at the node: the member rectangles lie
inside the row's rectangle and no two of them have a pixel in common; with the
grid option off they partition the row's rectangle exactly (a pixel lies in the
row exactly when it lies in some member rectangle), the last member ending at
the far side of the row and so absorbing the rounding remainder; and, whatever
the option, the member rectangles are the grid shrinking of assigned
rectangles that partition the row's rectangle in this way. -/
theorem NodeRows_tiling (minArea : Int) (options : Options) (node : Item) (rect : CRect)
    (row : CRect) (members : List CRect)
    (hrow : (row, members) ∈ NodeRows minArea options node rect) :
    (∀ r ∈ members, r.Inside row) ∧
    members.Pairwise CRect.Apart ∧
    (options.grid = false →
      (∀ x y, row.PtInRect x y ↔ ∃ r ∈ members, r.PtInRect x y) ∧
      (∃ r, members.getLast? = some r ∧ r.right = row.right ∧ r.bottom = row.bottom)) ∧
    (∃ assigned : List CRect, members = assigned.map (GridShrink options) ∧
      (∀ x y, row.PtInRect x y ↔ ∃ r ∈ assigned, r.PtInRect x y) ∧
      assigned.Pairwise CRect.Apart ∧
      (∃ r, assigned.getLast? = some r ∧ r.right = row.right ∧ r.bottom = row.bottom)) := by
  cases node with
  | mk size isLeaf children =>
    simp only [NodeRows] at hrow
    split_ifs at hrow with hguard hleaf
    · simp at hrow
    · simp at hrow
    · have hw : rect.left ≤ rect.right := by
        have : ¬ rect.Width ≤ 0 := fun h => hguard (Or.inl h)
        simp only [CRect.Width] at this
        omega
      have hh : rect.top ≤ rect.bottom := by
        have : ¬ rect.Height ≤ 0 := fun h => hguard (Or.inr (Or.inl h))
        simp only [CRect.Height] at this
        omega
      simp only [LayoutRows] at hrow
      obtain ⟨q, hq, hqe⟩ := List.mem_map.mp hrow
      have hfilter : ∀ s ∈ (children.map Item.size).filter (fun s => decide (0 < s)), 0 < s := by
        intro s hs
        simpa using (List.mem_filter.mp hs).2
      obtain ⟨t1, t2, t3⟩ := SquarifyRows_tiles _ rect [] hw hh (by simp) hfilter q hq
      have e1 : q.1 = row := congrArg Prod.fst hqe
      have e2 : q.2.map (GridShrink options) = members := congrArg Prod.snd hqe
      rw [e1] at t1 t3
      have hin : ∀ r ∈ members, r.Inside row := by
        intro r hr x y hxy
        rw [← e2] at hr
        obtain ⟨r0, hr0, rfl⟩ := List.mem_map.mp hr
        exact (t1 x y).mpr ⟨r0, hr0, GridShrink_inside options r0 x y hxy⟩
      have hap : members.Pairwise CRect.Apart := by
        rw [← e2, List.pairwise_map]
        refine t2.imp ?_
        intro a b hab x y hboth
        exact hab x y
          ⟨GridShrink_inside options a x y hboth.1, GridShrink_inside options b x y hboth.2⟩
      refine ⟨hin, hap, ?_, ⟨q.2, e2.symm, t1, t2, t3⟩⟩
      intro hgrid
      have hid : q.2.map (GridShrink options) = q.2 := by
        have : GridShrink options = id := by
          funext rc
          simp [GridShrink, hgrid]
        rw [this, List.map_id]
      rw [hid] at e2
      rw [← e2]
      exact ⟨t1, t3⟩

/-- C10 at a node with six children of size 1 in a rectangle of 7 by 5 pixels,
grid off: the first row is the strip `[0, 2) x [0, 5)` with two members, cut
at the rounded edge 3; they partition it. With the grid on, the members of the
first row of the scenario still lie inside the row. -/
theorem NodeRows_tiling_witness :
    ((⟨0, 0, 2, 5⟩, [⟨0, 0, 2, 3⟩, ⟨0, 3, 2, 5⟩]) : CRect × List CRect) ∈
      NodeRows 0 sampleOptions
        (Item.mk 6 false [Item.mk 1 true [], Item.mk 1 true [], Item.mk 1 true [],
          Item.mk 1 true [], Item.mk 1 true [], Item.mk 1 true []]) ⟨0, 0, 7, 5⟩ ∧
    (∀ x y, (⟨0, 0, 2, 5⟩ : CRect).PtInRect x y ↔
      ∃ r ∈ [(⟨0, 0, 2, 3⟩ : CRect), ⟨0, 3, 2, 5⟩], r.PtInRect x y) ∧
    (∀ r ∈ [(⟨0, 0, 59, 9⟩ : CRect)], r.Inside ⟨0, 0, 60, 10⟩) := by
  have hm : ((⟨0, 0, 2, 5⟩, [⟨0, 0, 2, 3⟩, ⟨0, 3, 2, 5⟩]) : CRect × List CRect) ∈
      NodeRows 0 sampleOptions
        (Item.mk 6 false [Item.mk 1 true [], Item.mk 1 true [], Item.mk 1 true [],
          Item.mk 1 true [], Item.mk 1 true [], Item.mk 1 true []]) ⟨0, 0, 7, 5⟩ := by
    decide!
  have hg : ((⟨0, 0, 60, 10⟩, [⟨0, 0, 59, 9⟩]) : CRect × List CRect) ∈
      NodeRows 0 { sampleOptions with grid := true } scenarioNode ⟨0, 0, 100, 10⟩ := by
    decide!
  exact ⟨hm, ((NodeRows_tiling 0 sampleOptions _ ⟨0, 0, 7, 5⟩ _ _ hm).2.2.1 rfl).1,
    (NodeRows_tiling 0 { sampleOptions with grid := true } scenarioNode ⟨0, 0, 100, 10⟩ _ _
      hg).1⟩

end WinDirStat
